import Mathlib

/-!
Trivial Racing: the room state machine of `server.js`.

A shallow embedding of the in-memory trivia server and the properties of its
rooms, timers and scoring.

Modelling conventions

* A JS string is a Lean `String`; one `Char` stands for one UTF-16 code unit.
* `Date.now()` is an `Int` (milliseconds) handed to every handler as `now`;
  one handler invocation reads one clock value.
* A JS `Map` is the list of its entries in insertion order (`mapGet`, `mapSet`,
  `mapDelete`).
* `Room` objects live in a heap (`Server.heap`); a reference is an index.  The
  registry `rooms` maps a token to a reference, and timer callbacks close over
  a reference, exactly as the closures of the source close over `room`.
* `setTimeout` appends a pending timer under a fresh handle, `clearTimeout`
  removes the pending timer with that handle.  A handle stored in
  `room.timeouts` is truthy whether or not its timer is still pending.
* A handler that would throw a `TypeError` (reading a property of
  `QUESTIONS[i]` when that is `undefined`) returns `none`.
* `socket.join(token)` and the delivery of emitted events belong to the
  transport; emitted events are appended to `Fx.emitted`.
* An argument `name` or `option` of a command is an `Option String`: missing,
  or a string.  `toUpperCase` is modelled on the letters `a`..`z`.
* The part of a handler that runs on the room found, after the guards, is a
  function of its own (`admitPlayer`, `startRoom`, `recordAnswer`,
  `disconnectRoom`), so that it can be stated on a room and the event loop.
-/

namespace TrivialRacing

/-! ## Data model -/

/-- The `state` field of a room. -/
inductive Phase where
  | waiting
  | in_progress
  | results
deriving DecidableEq, Repr

/-- A player record `{ id, name, score }`. -/
structure Player where
  id : String
  name : String
  score : Nat
deriving DecidableEq, Repr

/-- An entry of `room.answers`: `{ option, ts, correct }`. -/
structure Answer where
  option : String
  ts : Int
  correct : Bool
deriving DecidableEq, Repr

/-- The `timeouts` record of a room: a field is `none` when `undefined`. -/
structure Timeouts where
  question : Option Nat
  cleanup : Option Nat
  waitingExpiry : Option Nat
deriving DecidableEq, Repr

/-- A room object. -/
structure Room where
  token : String
  players : List Player
  managerId : Option String
  state : Phase
  currentQuestionIndex : Int
  questionStartTs : Option Int
  answers : List (String × Answer)
  timeouts : Timeouts
  createdAt : Int
deriving DecidableEq, Repr

/-- An entry of the question bank. -/
structure Question where
  id : Nat
  text : String
  options : List String
  correct : String
deriving DecidableEq, Repr

/-- The question bank. -/
def QUESTIONS : List Question :=
  [ { id := 1
      text := "¿Qué producto de Control de Miopía tiene el estudio más largo realizado en niños?"
      options := ["A) Lente Oftálmica", "B) MiSight 1 day", "C) Lentilla Multifocal", "D) Orto-K"]
      correct := "B" },
    { id := 2
      text := "¿Cuál de estos productos ha demostrado su eficiacia en frenar la miopía en nios de 6 años?"
      options := ["A) MiSight 1 day", "B) MiSight Spectacle", "C) Orto-K", "D) Todas las anteriores"]
      correct := "B" } ]

def MAX_PLAYERS : Nat := 12
def MIN_PLAYERS_TO_START : Nat := 1
def QUESTION_TIME_SECONDS : Int := 15
def WAITING_GRACE_MS : Int := 20 * 60 * 1000

/-- Indexing `QUESTIONS[i]` with a JS number: `none` is `undefined`. -/
def questionAt (i : Int) : Option Question :=
  if 0 ≤ i then QUESTIONS[i.toNat]? else none

/-! ## JS `Map`, strings and `Array.prototype.sort` -/

/-- Lookup `m.get(k)`. -/
def mapGet {α : Type} : List (String × α) → String → Option α
  | [], _ => none
  | (k', v) :: m, k => if k' = k then some v else mapGet m k

/-- Membership `m.has(k)`. -/
def mapHas {α : Type} (m : List (String × α)) (k : String) : Bool :=
  (mapGet m k).isSome

/-- Update `m.set(k, v)`: an existing key keeps its position, a new key goes last. -/
def mapSet {α : Type} : List (String × α) → String → α → List (String × α)
  | [], k, v => [(k, v)]
  | (k', v') :: m, k, v => if k' = k then (k, v) :: m else (k', v') :: mapSet m k v

/-- Removal `m.delete(k)`. -/
def mapDelete {α : Type} : List (String × α) → String → List (String × α)
  | [], _ => []
  | (k', v') :: m, k => if k' = k then m else (k', v') :: mapDelete m k

/-- The code units removed by `String.prototype.trim` (WhiteSpace and LineTerminator). -/
def isJsWhitespace (c : Char) : Bool :=
  let n := c.toNat
  n == 0x09 || n == 0x0A || n == 0x0B || n == 0x0C || n == 0x0D || n == 0x20 ||
  n == 0xA0 || n == 0x1680 || (0x2000 ≤ n && n ≤ 0x200A) || n == 0x2028 ||
  n == 0x2029 || n == 0x202F || n == 0x205F || n == 0x3000 || n == 0xFEFF

/-- The method `trim()`. -/
def jsTrim (s : String) : String :=
  String.mk ((s.data.dropWhile isJsWhitespace).reverse.dropWhile isJsWhitespace).reverse

/-- The method `toUpperCase()`, on the letters `a`..`z`; other code units are kept. -/
def jsToUpperCase (s : String) : String :=
  String.mk (s.data.map Char.toUpper)

/-- The conversion `String(x || '')` of an optional string argument. -/
def stringOrEmpty (x : Option String) : String :=
  match x with
  | none => ""
  | some s => s

/-- Insertion of `a` in front of the first element it does not come after. -/
def insertSorted {α : Type} (cmp : α → α → Int) (a : α) : List α → List α
  | [] => [a]
  | b :: l => if cmp a b ≤ 0 then a :: b :: l else b :: insertSorted cmp a l

/-- The method `sort(cmp)`: the stable sort the language requires. -/
def jsSort {α : Type} (cmp : α → α → Int) : List α → List α
  | [] => []
  | a :: l => insertSorted cmp a (jsSort cmp l)

/-! ## Scoring -/

/-- An element of `correctAnswers`: `{ playerId, ts }`. -/
structure CorrectAnswer where
  playerId : String
  ts : Int
deriving DecidableEq, Repr

/-- An element of `scored`: `{ playerId, points }`. -/
structure Scored where
  playerId : String
  points : Nat
deriving DecidableEq, Repr

/-- The closure `award` of `endQuestion`. -/
def award (rank : Nat) : Nat :=
  if rank = 0 then 20
  else if rank = 1 then 10
  else if rank = 2 then 5
  else 1

/-- The loop of `endQuestion` over `room.answers` that collects the correct answers. -/
def collectCorrect : List (String × Answer) → List CorrectAnswer
  | [] => []
  | (playerId, ans) :: rest =>
    if ans.correct then ⟨playerId, ans.ts⟩ :: collectCorrect rest else collectCorrect rest

/-- The list `correctAnswers` of `endQuestion` after `sort((a, b) => a.ts - b.ts)`. -/
def correctAnswers (answers : List (String × Answer)) : List CorrectAnswer :=
  jsSort (fun a b => a.ts - b.ts) (collectCorrect answers)

/-- The map `correctAnswers.map((e, idx) => ({ playerId, points: award(idx) }))`, from index `idx`. -/
def scoredFrom : Nat → List CorrectAnswer → List Scored
  | _, [] => []
  | idx, e :: rest => ⟨e.playerId, award idx⟩ :: scoredFrom (idx + 1) rest

/-- The list `scored` of `endQuestion`. -/
def scored (answers : List (String × Answer)) : List Scored :=
  scoredFrom 0 (correctAnswers answers)

/-- The statement `const player = players.find(p => p.id === id); if (player) player.score += pts`. -/
def addScore (id : String) (pts : Nat) : List Player → List Player
  | [] => []
  | p :: ps => if p.id = id then { p with score := p.score + pts } :: ps else p :: addScore id pts ps

/-- The loop `correctAnswers.forEach((entry, idx) => ...)` of `endQuestion`, from index `idx`. -/
def applyAwards : Nat → List CorrectAnswer → List Player → List Player
  | _, [], ps => ps
  | idx, e :: rest, ps => applyAwards (idx + 1) rest (addScore e.playerId (award idx) ps)

/-! ## Timers and emitted events -/

/-- The callbacks handed to `setTimeout`, with the room reference each closes over. -/
inductive Callback where
  /-- In `disconnect`: `clearRoomTimers(room); rooms.delete(token)`. -/
  | cleanup (room : Nat) (token : String)
  /-- In `nextQuestion`: `endQuestion(room)`. -/
  | endQuestion (room : Nat)
  /-- In `endQuestion`: `nextQuestion(room)` and a `room:state` broadcast. -/
  | advance (room : Nat)
  /-- In `ensureWaitingExpiry`: the expiry of a room that is still waiting. -/
  | waitingExpiry (room : Nat)
deriving DecidableEq, Repr

/-- A pending timer: its handle, the time at which it is due, and its callback. -/
structure Timer where
  handle : Nat
  due : Int
  callback : Callback
deriving DecidableEq, Repr

/-- The object returned by `publicRoomState`. -/
structure PublicRoomState where
  token : String
  state : Phase
  players : List Player
  managerId : Option String
  currentQuestionIndex : Int
  questionStartTs : Option Int
  timePerQuestion : Int
deriving DecidableEq, Repr

/-- The events the server emits: the addressee (`io.to(..)` or the socket) comes first. -/
inductive Emit where
  | roomState (dest : String) (state : PublicRoomState)
  | graceInfo (dest : String) (minutes : Int) (expiresAt : Int)
  | question (dest : String) (index : Int) (total : Nat) (text : String)
      (options : List String) (startTs : Int) (durationSec : Int)
  | questionEnd (dest : String) (index : Int) (correct : String) (scored : List Scored)
  | results (dest : String) (players : List Player)
  | expired (dest : String) (reason : String)
  | answerAck (dest : String)
deriving DecidableEq, Repr

/-- The event loop and the transport as seen by the handlers. -/
structure Fx where
  timers : List Timer
  nextHandle : Nat
  emitted : List Emit
deriving DecidableEq, Repr

/-- The call `setTimeout(cb, delay)` at time `now`: the new handle and the new effects. -/
def setTimeout (fx : Fx) (cb : Callback) (delay : Int) (now : Int) : Nat × Fx :=
  (fx.nextHandle,
   { fx with timers := fx.timers ++ [⟨fx.nextHandle, now + delay, cb⟩]
             nextHandle := fx.nextHandle + 1 })

/-- The call `clearTimeout(h)`. -/
def clearTimeout (fx : Fx) (h : Nat) : Fx :=
  { fx with timers := fx.timers.filter (fun t => t.handle ≠ h) }

/-- An `emit` of one event. -/
def emit (fx : Fx) (e : Emit) : Fx :=
  { fx with emitted := fx.emitted ++ [e] }

/-! ## Functions of `server.js` on a room -/

def createRoom (token : String) (now : Int) : Room :=
  { token := token
    players := []
    managerId := none
    state := Phase.waiting
    currentQuestionIndex := -1
    questionStartTs := none
    answers := []
    timeouts := ⟨none, none, none⟩
    createdAt := now }

def publicRoomState (room : Room) : PublicRoomState :=
  { token := room.token
    state := room.state
    players := room.players.map (fun p => { id := p.id, name := p.name, score := p.score })
    managerId := room.managerId
    currentQuestionIndex := room.currentQuestionIndex
    questionStartTs := room.questionStartTs
    timePerQuestion := QUESTION_TIME_SECONDS }

def sanitizeName (name : Option String) : String :=
  let n := jsTrim (stringOrEmpty name)
  if n.length = 0 then "Jugador" else String.mk (n.data.take 24)

/-- The first `if` of `clearRoomTimers`. -/
def clearQuestionTimer (room : Room) (fx : Fx) : Room × Fx :=
  match room.timeouts.question with
  | some h => ({ room with timeouts := { room.timeouts with question := none } }, clearTimeout fx h)
  | none => (room, fx)

/-- The second `if` of `clearRoomTimers`; also the cancellation in `joinRoom`. -/
def clearCleanupTimer (room : Room) (fx : Fx) : Room × Fx :=
  match room.timeouts.cleanup with
  | some h => ({ room with timeouts := { room.timeouts with cleanup := none } }, clearTimeout fx h)
  | none => (room, fx)

/-- The third `if` of `clearRoomTimers`; also the cancellation in `startGame`. -/
def clearWaitingExpiryTimer (room : Room) (fx : Fx) : Room × Fx :=
  match room.timeouts.waitingExpiry with
  | some h =>
    ({ room with timeouts := { room.timeouts with waitingExpiry := none } }, clearTimeout fx h)
  | none => (room, fx)

def clearRoomTimers (room : Room) (fx : Fx) : Room × Fx :=
  let s1 := clearQuestionTimer room fx
  let s2 := clearCleanupTimer s1.1 s1.2
  clearWaitingExpiryTimer s2.1 s2.2

def ensureWaitingExpiry (ref : Nat) (room : Room) (now : Int) (fx : Fx) : Room × Fx :=
  if room.state ≠ Phase.waiting then (room, fx)
  else if room.timeouts.waitingExpiry.isSome then (room, fx)
  else
    let room1 := { room with createdAt := if room.createdAt = 0 then now else room.createdAt }
    let target := room1.createdAt + WAITING_GRACE_MS
    let delay := max 0 (target - now)
    let t := setTimeout fx (Callback.waitingExpiry ref) delay now
    ({ room1 with timeouts := { room1.timeouts with waitingExpiry := some t.1 } }, t.2)

/-- The payload of `game:results`: `room.players.slice().sort((a, b) => b.score - a.score)`. -/
def standings (players : List Player) : List Player :=
  jsSort (fun a b => (b.score : Int) - (a.score : Int)) players

def nextQuestion (ref : Nat) (room : Room) (now : Int) (fx : Fx) : Option (Room × Fx) :=
  let c := clearRoomTimers room fx
  let room1 := { c.1 with currentQuestionIndex := c.1.currentQuestionIndex + 1, answers := [] }
  if room1.currentQuestionIndex ≥ (QUESTIONS.length : Int) then
    let room2 := { room1 with state := Phase.results, questionStartTs := none }
    let fx1 := emit c.2 (Emit.results room2.token (standings room2.players))
    some (room2, emit fx1 (Emit.roomState room2.token (publicRoomState room2)))
  else
    let room2 := { room1 with questionStartTs := some now }
    match questionAt room2.currentQuestionIndex with
    | none => none
    | some q =>
      let fx1 := emit c.2 (Emit.question room2.token room2.currentQuestionIndex QUESTIONS.length
        q.text q.options now QUESTION_TIME_SECONDS)
      let t := setTimeout fx1 (Callback.endQuestion ref) (QUESTION_TIME_SECONDS * 1000 + 50) now
      some ({ room2 with timeouts := { room2.timeouts with question := some t.1 } }, t.2)

def endQuestion (ref : Nat) (room : Room) (now : Int) (fx : Fx) : Option (Room × Fx) :=
  let sorted := correctAnswers room.answers
  let room1 := { room with players := applyAwards 0 sorted room.players }
  match questionAt room.currentQuestionIndex with
  | none => none
  | some q =>
    let fx1 := emit fx (Emit.questionEnd room1.token room1.currentQuestionIndex q.correct
      (scoredFrom 0 sorted))
    some (room1, (setTimeout fx1 (Callback.advance ref) 1500 now).2)

def resetToWaiting (ref : Nat) (room : Room) (now : Int) (fx : Fx) : Room × Fx :=
  let c := clearRoomTimers room fx
  let room1 := { c.1 with
    state := Phase.waiting
    currentQuestionIndex := -1
    questionStartTs := none
    answers := []
    players := c.1.players.map (fun p => { p with score := 0 })
    createdAt := now }
  let e := ensureWaitingExpiry ref room1 now c.2
  match e.1.managerId with
  | some m =>
    if m = "" then e
    else (e.1, emit e.2 (Emit.graceInfo m 20 (e.1.createdAt + WAITING_GRACE_MS)))
  | none => e

/-! ## The server: heap of rooms, registry, event loop -/

/-- The state of the process. -/
structure Server where
  /-- The room objects allocated so far; a reference is an index. -/
  heap : List Room
  /-- The registry `rooms`: token to room reference, in insertion order. -/
  rooms : List (String × Nat)
  fx : Fx
deriving DecidableEq, Repr

/-- The state at process start. -/
def Server.start : Server := ⟨[], [], ⟨[], 1, []⟩⟩

/-- The argument handed to a handler's `callback`. -/
inductive Reply where
  /-- The reply `{ ok: true }`. -/
  | ok
  /-- The reply `{ ok: true, token, isManager, player }` of `joinRoom`. -/
  | joined (token : String) (isManager : Bool) (player : Player)
  /-- The reply `{ ok: false, error }`; `none` when there is no `error` field. -/
  | fail (error : Option String)
deriving DecidableEq, Repr

/-- Truthiness of a `string | null` value such as `room.managerId`. -/
def truthyId (m : Option String) : Bool :=
  match m with
  | none => false
  | some x => x != ""

/-- The lookup `rooms.get(token)`: the reference and the object it denotes. -/
def getRoom (s : Server) (token : String) : Option (Nat × Room) :=
  match mapGet s.rooms token with
  | none => none
  | some ref =>
    match s.heap[ref]? with
    | none => none
    | some room => some (ref, room)

/-- Write back a mutated room object together with the effects of the mutation. -/
def putRoom (s : Server) (ref : Nat) (room : Room) (fx : Fx) : Server :=
  { s with heap := s.heap.set ref room, fx := fx }

/-- The body of `joinRoom` once its three guards have passed, on the room found. -/
def admitPlayer (ref : Nat) (room : Room) (socketId token : String) (name : Option String)
    (now : Int) (fx : Fx) : Room × Fx :=
  let player : Player := { id := socketId, name := sanitizeName name, score := 0 }
  let room1 := { room with players := room.players ++ [player] }
  let wasWithoutManager := !truthyId room1.managerId
  let room2 := { room1 with
    managerId := if truthyId room1.managerId then room1.managerId else some socketId }
  let c := clearCleanupTimer room2 fx
  let e := ensureWaitingExpiry ref c.1 now c.2
  let fx1 :=
    if truthyId e.1.managerId && (wasWithoutManager || e.1.managerId == some socketId)
        && e.1.state == Phase.waiting then
      emit e.2 (Emit.graceInfo (stringOrEmpty e.1.managerId) 20
        ((if e.1.createdAt = 0 then now else e.1.createdAt) + WAITING_GRACE_MS))
    else e.2
  (e.1, emit fx1 (Emit.roomState token (publicRoomState e.1)))

def joinRoom (s : Server) (socketId token : String) (name : Option String) (now : Int) :
    Server × Reply :=
  match getRoom s token with
  | none => (s, Reply.fail (some "La sala no existe"))
  | some (ref, room) =>
    if room.state ≠ Phase.waiting then (s, Reply.fail (some "La partida ya comenzó"))
    else if room.players.length ≥ MAX_PLAYERS then (s, Reply.fail (some "Sala llena (máx. 12)"))
    else
      let a := admitPlayer ref room socketId token name now s.fx
      (putRoom s ref a.1 a.2,
        Reply.joined token (a.1.managerId == some socketId)
          { id := socketId, name := sanitizeName name, score := 0 })

/-- The handler of `room:create`; `token` is the value returned by `nanoid()`. -/
def onRoomCreate (s : Server) (socketId : String) (name : Option String) (token : String)
    (now : Int) : Server × Reply :=
  let room := createRoom token now
  let s1 := { s with heap := s.heap ++ [room], rooms := mapSet s.rooms token s.heap.length }
  joinRoom s1 socketId token name now

/-- The handler of `room:join`. -/
def onRoomJoin (s : Server) (socketId token : String) (name : Option String) (now : Int) :
    Server × Reply :=
  joinRoom s socketId token name now

/-- The body of `startGame` on the room found. -/
def startRoom (ref : Nat) (room : Room) (token : String) (now : Int) (fx : Fx) :
    Option (Room × Fx) :=
  let room1 := { room with
    state := Phase.in_progress
    currentQuestionIndex := -1
    players := room.players.map (fun p => { p with score := 0 }) }
  let c := clearWaitingExpiryTimer room1 fx
  match nextQuestion ref c.1 now c.2 with
  | none => none
  | some n => some (n.1, emit n.2 (Emit.roomState token (publicRoomState n.1)))

def startGame (s : Server) (token : String) (now : Int) : Option Server :=
  match getRoom s token with
  | none => some s
  | some (ref, room) =>
    match startRoom ref room token now s.fx with
    | none => none
    | some r => some (putRoom s ref r.1 r.2)

/-- The handler of `game:start`. -/
def onGameStart (s : Server) (socketId token : String) (now : Int) : Option (Server × Reply) :=
  match getRoom s token with
  | none => some (s, Reply.fail (some "Sala no existe"))
  | some (_, room) =>
    if room.managerId ≠ some socketId then
      some (s, Reply.fail (some "Solo el Manager puede iniciar"))
    else if room.state ≠ Phase.waiting then some (s, Reply.fail (some "El juego ya inició"))
    else if room.players.length < MIN_PLAYERS_TO_START then
      some (s, Reply.fail (some "Se requiere al menos 1 jugador"))
    else
      match startGame s token now with
      | none => none
      | some s1 => some (s1, Reply.ok)

/-- The test `!room.questionStartTs || (now - room.questionStartTs) > QUESTION_TIME_SECONDS * 1000`. -/
def isLate (questionStartTs : Option Int) (now : Int) : Bool :=
  match questionStartTs with
  | none => true
  | some start => start == 0 || decide (now - start > QUESTION_TIME_SECONDS * 1000)

/-- The body of the `game:answer` handler once the room, the phase, the player and the absence
of an earlier answer have been checked. -/
def recordAnswer (room : Room) (socketId : String) (option : Option String) (now : Int)
    (fx : Fx) : Option (Room × Fx × Reply) :=
  let optionUpper := jsToUpperCase (jsTrim (stringOrEmpty option))
  match questionAt room.currentQuestionIndex with
  | none => none
  | some currentQ =>
    let correct := optionUpper == currentQ.correct
    if isLate room.questionStartTs now then some (room, fx, Reply.fail (some "Tiempo agotado"))
    else
      some ({ room with
          answers := mapSet room.answers socketId
            { option := optionUpper, ts := now, correct := correct } },
        emit fx (Emit.answerAck socketId), Reply.ok)

/-- The handler of `game:answer`. -/
def onGameAnswer (s : Server) (socketId token : String) (option : Option String) (now : Int) :
    Option (Server × Reply) :=
  match getRoom s token with
  | none => some (s, Reply.fail none)
  | some (ref, room) =>
    if room.state ≠ Phase.in_progress then some (s, Reply.fail none)
    else if !(room.players.any (fun p => p.id == socketId)) then some (s, Reply.fail none)
    else if mapHas room.answers socketId then some (s, Reply.fail (some "Respuesta ya enviada"))
    else
      match recordAnswer room socketId option now s.fx with
      | none => none
      | some r => some (putRoom s ref r.1 r.2.1, r.2.2)

/-- The handler of `game:restart`. -/
def onGameRestart (s : Server) (socketId token : String) (now : Int) : Server × Reply :=
  match getRoom s token with
  | none => (s, Reply.fail (some "Sala no existe"))
  | some (ref, room) =>
    if room.managerId ≠ some socketId then
      (s, Reply.fail (some "Solo el Manager puede reiniciar"))
    else
      let r := resetToWaiting ref room now s.fx
      (putRoom s ref r.1 (emit r.2 (Emit.roomState token (publicRoomState r.1))), Reply.ok)

/-- The expression `room.players[0]?.id || null`. -/
def firstPlayerId (players : List Player) : Option String :=
  match players with
  | [] => none
  | p :: _ => if p.id = "" then none else some p.id

/-- The body of the loop of the `disconnect` handler, for one entry of `rooms`. -/
def disconnectRoom (socketId : String) (now : Int) (token : String) (ref : Nat) (room : Room)
    (fx : Fx) : Room × Fx :=
  let before := room.players.length
  let room1 := { room with players := room.players.filter (fun p => p.id != socketId) }
  let changed := before != room1.players.length
  let room2 := { room1 with
    managerId :=
      if room1.managerId = some socketId then firstPlayerId room1.players else room1.managerId }
  let changed2 := changed || decide (room1.managerId = some socketId)
  let fx1 := if changed2 then emit fx (Emit.roomState token (publicRoomState room2)) else fx
  if room2.players.length = 0 ∧ room2.timeouts.cleanup = none then
    let t := setTimeout fx1 (Callback.cleanup ref token) (2 * 60 * 1000) now
    ({ room2 with timeouts := { room2.timeouts with cleanup := some t.1 } }, t.2)
  else (room2, fx1)

/-- The loop `for (const [token, room] of rooms)` of the `disconnect` handler over `entries`. -/
def disconnectLoop (socketId : String) (now : Int) : List (String × Nat) → Server → Server
  | [], s => s
  | (token, ref) :: rest, s =>
    match s.heap[ref]? with
    | none => disconnectLoop socketId now rest s
    | some room =>
      let d := disconnectRoom socketId now token ref room s.fx
      disconnectLoop socketId now rest (putRoom s ref d.1 d.2)

/-- The handler of `disconnect`. -/
def onDisconnect (s : Server) (socketId : String) (now : Int) : Server :=
  disconnectLoop socketId now s.rooms s

/-- The callback of a timer that fires at time `now`. -/
def runCallback (s : Server) (now : Int) : Callback → Option Server
  | Callback.cleanup ref token =>
    match s.heap[ref]? with
    | none => some s
    | some room =>
      let c := clearRoomTimers room s.fx
      some { heap := s.heap.set ref c.1, rooms := mapDelete s.rooms token, fx := c.2 }
  | Callback.endQuestion ref =>
    match s.heap[ref]? with
    | none => some s
    | some room =>
      match endQuestion ref room now s.fx with
      | none => none
      | some r => some (putRoom s ref r.1 r.2)
  | Callback.advance ref =>
    match s.heap[ref]? with
    | none => some s
    | some room =>
      match nextQuestion ref room now s.fx with
      | none => none
      | some r =>
        some (putRoom s ref r.1 (emit r.2 (Emit.roomState r.1.token (publicRoomState r.1))))
  | Callback.waitingExpiry ref =>
    match s.heap[ref]? with
    | none => some s
    | some room =>
      if room.state = Phase.waiting then
        let c := clearRoomTimers room (emit s.fx (Emit.expired room.token "timeout"))
        some { heap := s.heap.set ref c.1, rooms := mapDelete s.rooms c.1.token, fx := c.2 }
      else some s

/-- The pending timer with handle `h`, if any. -/
def pendingTimer (s : Server) (h : Nat) : Option Timer :=
  s.fx.timers.find? (fun t => t.handle == h)

/-- The event loop runs the pending timer with handle `h`: it leaves the pending set, then its
callback runs. -/
def fireTimer (s : Server) (h : Nat) (now : Int) : Option Server :=
  match pendingTimer s h with
  | none => none
  | some t => runCallback { s with fx := clearTimeout s.fx h } now t.callback

/-! ## Runs of the server -/

/-- What the server reacts to: the commands of a connection, and a timer coming due. -/
inductive Input where
  | roomCreate (socketId : String) (name : Option String) (token : String)
  | roomJoin (socketId token : String) (name : Option String)
  | gameStart (socketId token : String)
  | gameAnswer (socketId token : String) (option : Option String)
  | gameRestart (socketId token : String)
  | disconnect (socketId : String)
  | timer (handle : Nat)
deriving DecidableEq, Repr

/-- One reaction of the server at time `now`; `none` when the handler throws. -/
def step (s : Server) (now : Int) : Input → Option Server
  | Input.roomCreate socketId name token => some (onRoomCreate s socketId name token now).1
  | Input.roomJoin socketId token name => some (onRoomJoin s socketId token name now).1
  | Input.gameStart socketId token => (onGameStart s socketId token now).map Prod.fst
  | Input.gameAnswer socketId token option =>
    (onGameAnswer s socketId token option now).map Prod.fst
  | Input.gameRestart socketId token => some (onGameRestart s socketId token now).1
  | Input.disconnect socketId => some (onDisconnect s socketId now)
  | Input.timer h => fireTimer s h now

/-- What the environment guarantees of an input at time `now`, the previous reaction having
happened at time `clock`: the clock is positive and does not go back, a connection id is not
empty, `nanoid()` returns a token that is not in the registry, and a timer does not fire before
it is due. -/
def admissible (s : Server) (clock now : Int) : Input → Bool
  | Input.roomCreate socketId _ token =>
    decide (clock ≤ now) && decide (0 < now) && socketId != "" && !(mapHas s.rooms token)
  | Input.roomJoin socketId _ _ => decide (clock ≤ now) && decide (0 < now) && socketId != ""
  | Input.gameStart socketId _ => decide (clock ≤ now) && decide (0 < now) && socketId != ""
  | Input.gameAnswer socketId _ _ => decide (clock ≤ now) && decide (0 < now) && socketId != ""
  | Input.gameRestart socketId _ => decide (clock ≤ now) && decide (0 < now) && socketId != ""
  | Input.disconnect socketId => decide (clock ≤ now) && decide (0 < now) && socketId != ""
  | Input.timer h =>
    decide (clock ≤ now) && decide (0 < now) &&
      (match pendingTimer s h with
       | none => false
       | some t => decide (t.due ≤ now))

/-- The states the server reaches from process start, with the time of the last reaction. -/
inductive Reachable : Int → Server → Prop where
  | start : Reachable 0 Server.start
  | step {clock : Int} {s : Server} (now : Int) (i : Input) (s1 : Server) :
      Reachable clock s → admissible s clock now i = true → step s now i = some s1 →
      Reachable now s1

/-- Run a list of timed inputs; `none` when an input is not admissible or a handler throws. -/
def run : Server → Int → List (Int × Input) → Option Server
  | s, _, [] => some s
  | s, clock, (now, i) :: rest =>
    if admissible s clock now i then
      match step s now i with
      | none => none
      | some s1 => run s1 now rest
    else none

/-- The room registered under `token`, if any. -/
def roomOf (s : Server) (token : String) : Option Room :=
  (getRoom s token).map Prod.snd

/-- The pending timers whose callback satisfies `p`. -/
def pendingWith (s : Server) (p : Callback → Bool) : List Timer :=
  s.fx.timers.filter (fun t => p t.callback)

/-! ## Invariants of the reachable states -/

/-- The ids of the players of a room, in join order. -/
def Room.ids (room : Room) : List String :=
  room.players.map (fun p => p.id)

/-- What holds of every room object the server has allocated. -/
structure RoomOk (room : Room) : Prop where
  ids_nonempty : "" ∉ room.ids
  manager_mem : ∀ m, room.managerId = some m → m ∈ room.ids
  manager_none : room.managerId = none → room.ids = []
  players_le : room.ids.length ≤ MAX_PLAYERS
  answers_nodup : (room.answers.map Prod.fst).Nodup
  index_ge : -1 ≤ room.currentQuestionIndex
  index_lt : room.state = Phase.in_progress →
    0 ≤ room.currentQuestionIndex ∧ room.currentQuestionIndex < (QUESTIONS.length : Int)
  start_set : room.state = Phase.in_progress →
    ∃ t : Int, room.questionStartTs = some t ∧ 0 < t

/-- The room a callback closes over. -/
def Callback.target : Callback → Nat
  | Callback.cleanup ref _ => ref
  | Callback.endQuestion ref => ref
  | Callback.advance ref => ref
  | Callback.waitingExpiry ref => ref

/-- A pending timer of a room is the one whose handle the room holds in `timeouts`; the timer of
the pause between two questions is held nowhere. -/
def tracked (room : Room) (t : Timer) : Prop :=
  match t.callback with
  | Callback.cleanup _ _ => room.timeouts.cleanup = some t.handle
  | Callback.endQuestion _ => room.timeouts.question = some t.handle
  | Callback.advance _ => True
  | Callback.waitingExpiry _ => room.timeouts.waitingExpiry = some t.handle

/-- The pending timers that close over `ref` are tracked by `room`. -/
def LocalOk (ref : Nat) (room : Room) (timers : List Timer) : Prop :=
  ∀ t ∈ timers, t.callback.target = ref → tracked room t

/-- The timers of `new` that do not close over `ref` were already in `old`. -/
def Frame (ref : Nat) (old new : List Timer) : Prop :=
  ∀ t ∈ new, t.callback.target ≠ ref → t ∈ old

/-- Every pending timer closes over an allocated room that tracks it. -/
def TimersTracked (s : Server) : Prop :=
  ∀ t ∈ s.fx.timers, ∃ room, s.heap[t.callback.target]? = some room ∧ tracked room t

/-- The registry refers to allocated rooms, each under one token only. -/
structure RegistryOk (s : Server) : Prop where
  keys_nodup : (s.rooms.map Prod.fst).Nodup
  refs_nodup : (s.rooms.map Prod.snd).Nodup
  refs_lt : ∀ e ∈ s.rooms, e.2 < s.heap.length

/-- The invariant of the server. -/
structure Inv (s : Server) : Prop where
  rooms_ok : ∀ room ∈ s.heap, RoomOk room
  timers_ok : TimersTracked s
  registry_ok : RegistryOk s

/-- The pending timers left by `clearTimeout` of the handle held in a slot of `timeouts`; an
empty slot removes nothing. -/
def dropHandle (h? : Option Nat) (timers : List Timer) : List Timer :=
  timers.filter (fun t => decide (h? ≠ some t.handle))


/-! ## Concrete runs -/

/-- The time of the last reaction of a run that starts at time `clock`. -/
def endClock : Int → List (Int × Input) → Int
  | clock, [] => clock
  | _, (now, _) :: rest => endClock now rest

/-- A game in its first question: A creates the room at 1 s, B joins, A starts the game at 2 s
and answers at 5 s. -/
def firstQuestionRun : List (Int × Input) :=
  [ (1000, Input.roomCreate "A" (some " Ana ") "ROOM01"),
    (1500, Input.roomJoin "B" "ROOM01" (some "Bo")),
    (2000, Input.gameStart "A" "ROOM01"),
    (5000, Input.gameAnswer "A" "ROOM01" (some " b ")) ]

/-- The state after `firstQuestionRun`. -/
def firstQuestionServer : Server :=
  (run Server.start 0 firstQuestionRun).getD Server.start

/-- The room `ROOM01` after `firstQuestionRun`. -/
def firstQuestionRoom : Room :=
  { token := "ROOM01"
    players := [⟨"A", "Ana", 0⟩, ⟨"B", "Bo", 0⟩]
    managerId := some "A"
    state := Phase.in_progress
    currentQuestionIndex := 0
    questionStartTs := some 2000
    answers := [("A", ⟨"B", 5000, true⟩)]
    timeouts := ⟨some 2, none, none⟩
    createdAt := 1000 }

/-- A lobby: A creates the room `ROOM01` at 1 s. -/
def lobbyRun : List (Int × Input) :=
  [ (1000, Input.roomCreate "A" (some " Ana ") "ROOM01") ]

/-- The state after `lobbyRun`. -/
def lobbyServer : Server :=
  (run Server.start 0 lobbyRun).getD Server.start

/-- The room `ROOM01` after `lobbyRun`. -/
def lobbyRoom : Room :=
  { token := "ROOM01"
    players := [⟨"A", "Ana", 0⟩]
    managerId := some "A"
    state := Phase.waiting
    currentQuestionIndex := -1
    questionStartTs := none
    answers := []
    timeouts := ⟨none, none, some 1⟩
    createdAt := 1000 }

/-- A full lobby: P01 creates the room `FULL01` and eleven more connections join it. -/
def fullRun : List (Int × Input) :=
  [ (1000, Input.roomCreate "P01" none "FULL01"),
    (1100, Input.roomJoin "P02" "FULL01" none),
    (1200, Input.roomJoin "P03" "FULL01" none),
    (1300, Input.roomJoin "P04" "FULL01" none),
    (1400, Input.roomJoin "P05" "FULL01" none),
    (1500, Input.roomJoin "P06" "FULL01" none),
    (1600, Input.roomJoin "P07" "FULL01" none),
    (1700, Input.roomJoin "P08" "FULL01" none),
    (1800, Input.roomJoin "P09" "FULL01" none),
    (1900, Input.roomJoin "P10" "FULL01" none),
    (2000, Input.roomJoin "P11" "FULL01" none),
    (2100, Input.roomJoin "P12" "FULL01" none) ]

/-- The state after `fullRun`. -/
def fullServer : Server :=
  (run Server.start 0 fullRun).getD Server.start

/-- The room `FULL01` after `fullRun`. -/
def fullRoom : Room :=
  { token := "FULL01"
    players :=
      [⟨"P01", "Jugador", 0⟩, ⟨"P02", "Jugador", 0⟩, ⟨"P03", "Jugador", 0⟩,
       ⟨"P04", "Jugador", 0⟩, ⟨"P05", "Jugador", 0⟩, ⟨"P06", "Jugador", 0⟩,
       ⟨"P07", "Jugador", 0⟩, ⟨"P08", "Jugador", 0⟩, ⟨"P09", "Jugador", 0⟩,
       ⟨"P10", "Jugador", 0⟩, ⟨"P11", "Jugador", 0⟩, ⟨"P12", "Jugador", 0⟩]
    managerId := some "P01"
    state := Phase.waiting
    currentQuestionIndex := -1
    questionStartTs := none
    answers := []
    timeouts := ⟨none, none, some 1⟩
    createdAt := 1000 }

/-- Is the callback the empty-room cleanup? -/
def Callback.isCleanup : Callback → Bool
  | Callback.cleanup _ _ => true
  | _ => false

/-- Is the callback the waiting expiry? -/
def Callback.isWaitingExpiry : Callback → Bool
  | Callback.waitingExpiry _ => true
  | _ => false

/-- A room that empties during a game, every timer firing exactly when it is due: A creates the
room at 1 s, starts the game at 2 s and disconnects at 3 s (the cleanup timer, handle 3, is due
at 123 s); the question timer fires at 17.05 s, the pause timer at 18.55 s, the second question
timer at 33.6 s and the second pause timer at 35.1 s. -/
def emptiedDuringGameRun : List (Int × Input) :=
  [ (1000, Input.roomCreate "A" (some "Ana") "ROOM01"),
    (2000, Input.gameStart "A" "ROOM01"),
    (3000, Input.disconnect "A"),
    (17050, Input.timer 2),
    (18550, Input.timer 4),
    (33600, Input.timer 5),
    (35100, Input.timer 6) ]

/-- A restart during the pause between two questions, every timer firing exactly when it is due:
A creates the room at 1 s and starts the game at 2 s; the question timer fires at 17.05 s and
schedules the pause timer (handle 3, due at 18.55 s); A restarts at 18 s; the pause timer fires
at 18.55 s. -/
def restartDuringPauseRun : List (Int × Input) :=
  [ (1000, Input.roomCreate "A" (some "Ana") "ROOM01"),
    (2000, Input.gameStart "A" "ROOM01"),
    (17050, Input.timer 2),
    (18000, Input.gameRestart "A" "ROOM01"),
    (18550, Input.timer 3) ]

/-- The end-to-end game of the specification up to the last pause: P1 creates the room at 1 s,
P2 joins, P1 starts the game at 2 s; P2 answers correctly 1 s after the start and P1 2 s after
it; the question timer fires at 17.05 s, the pause timer at 18.55 s, and the timer of the second
question, which nobody answers, at 33.6 s. -/
def twoPlayersRun : List (Int × Input) :=
  [ (1000, Input.roomCreate "P1" (some "Uno") "RACE01"),
    (1500, Input.roomJoin "P2" "RACE01" (some "Dos")),
    (2000, Input.gameStart "P1" "RACE01"),
    (3000, Input.gameAnswer "P2" "RACE01" (some "B")),
    (4000, Input.gameAnswer "P1" "RACE01" (some "b")),
    (17050, Input.timer 2),
    (18550, Input.timer 3),
    (33600, Input.timer 4) ]

/-- The state after `twoPlayersRun`. -/
def twoPlayersServer : Server :=
  (run Server.start 0 twoPlayersRun).getD Server.start

/-- The room `RACE01` after `twoPlayersRun`. -/
def twoPlayersRoom : Room :=
  { token := "RACE01"
    players := [⟨"P1", "Uno", 10⟩, ⟨"P2", "Dos", 20⟩]
    managerId := some "P1"
    state := Phase.in_progress
    currentQuestionIndex := 1
    questionStartTs := some 18550
    answers := []
    timeouts := ⟨some 4, none, none⟩
    createdAt := 1000 }

/-- The input is not a `room:join` by a connection that is already a player of the room. -/
def noRejoin (s : Server) : Input → Bool
  | Input.roomJoin socketId token _ =>
    match getRoom s token with
    | none => true
    | some (_, room) => !(room.players.any (fun p => p.id == socketId))
  | _ => true

/-- The states the server reaches when no connection joins a room it is already in. -/
inductive ReachableNoRejoin : Int → Server → Prop where
  | start : ReachableNoRejoin 0 Server.start
  | step {clock : Int} {s : Server} (now : Int) (i : Input) (s1 : Server) :
      ReachableNoRejoin clock s → admissible s clock now i = true → noRejoin s i = true →
      step s now i = some s1 → ReachableNoRejoin now s1

/-- Run a list of timed inputs as `run` does, and stop at a join by a connection that is already
in the room. -/
def runNoRejoin : Server → Int → List (Int × Input) → Option Server
  | s, _, [] => some s
  | s, clock, (now, i) :: rest =>
    if admissible s clock now i && noRejoin s i then
      match step s now i with
      | none => none
      | some s1 => runNoRejoin s1 now rest
    else none

/-- A double join: A creates the room `ROOM01` at 1 s and sends `room:join` for it at 1.5 s. -/
def rejoinRun : List (Int × Input) :=
  [ (1000, Input.roomCreate "A" (some "Ana") "ROOM01"),
    (1500, Input.roomJoin "A" "ROOM01" (some "Ana")) ]

/-- A question that ends after a correct answerer has left: P1 creates the room, P2 and P3 join,
P1 starts the game at 2 s; P2 answers correctly at 3 s, P3 wrongly at 3.5 s, P1 correctly at
4 s; P2 disconnects at 5 s. -/
def departedRun : List (Int × Input) :=
  [ (1000, Input.roomCreate "P1" (some "Uno") "RACE01"),
    (1200, Input.roomJoin "P2" "RACE01" (some "Dos")),
    (1400, Input.roomJoin "P3" "RACE01" (some "Tres")),
    (2000, Input.gameStart "P1" "RACE01"),
    (3000, Input.gameAnswer "P2" "RACE01" (some "B")),
    (3500, Input.gameAnswer "P3" "RACE01" (some "A")),
    (4000, Input.gameAnswer "P1" "RACE01" (some "b")),
    (5000, Input.disconnect "P2") ]

/-- The state after `departedRun`. -/
def departedServer : Server :=
  (run Server.start 0 departedRun).getD Server.start

/-- The room `RACE01` after `departedRun`. -/
def departedRoom : Room :=
  { token := "RACE01"
    players := [⟨"P1", "Uno", 0⟩, ⟨"P3", "Tres", 0⟩]
    managerId := some "P1"
    state := Phase.in_progress
    currentQuestionIndex := 0
    questionStartTs := some 2000
    answers := [("P2", ⟨"B", 3000, true⟩), ("P3", ⟨"A", 3500, false⟩), ("P1", ⟨"B", 4000, true⟩)]
    timeouts := ⟨some 2, none, none⟩
    createdAt := 1000 }

/-- The index of the room is that of a question of the bank. -/
def indexInRange (room : Room) : Prop :=
  0 ≤ room.currentQuestionIndex ∧ room.currentQuestionIndex < (QUESTIONS.length : Int)

/-- The pending question timers of the room `ref` were armed, 15050 ms before they are due, for
the question the room is at. -/
def QuestionLocal (ref : Nat) (room : Room) (timers : List Timer) : Prop :=
  ∀ t ∈ timers, t.callback = Callback.endQuestion ref →
    indexInRange room ∧ room.questionStartTs = some (t.due - 15050)

/-- Every pending question timer closes over a room that is at the question it was armed for. -/
def QuestionTimersOk (s : Server) : Prop :=
  ∀ t ∈ s.fx.timers, ∀ ref, t.callback = Callback.endQuestion ref →
    ∃ room, s.heap[ref]? = some room ∧ QuestionLocal ref room [t]

/-! ## Lemmas on `jsSort` -/

theorem insertSorted_perm {α : Type} (cmp : α → α → Int) (a : α) (l : List α) :
    (insertSorted cmp a l).Perm (a :: l) := by
  induction l with
  | nil => simp [insertSorted]
  | cons b l ih =>
    unfold insertSorted
    split
    · exact List.Perm.refl _
    · exact (List.Perm.cons b ih).trans (List.Perm.swap a b l)

theorem jsSort_perm {α : Type} (cmp : α → α → Int) (l : List α) : (jsSort cmp l).Perm l := by
  induction l with
  | nil => simp [jsSort]
  | cons a l ih =>
    unfold jsSort
    exact (insertSorted_perm cmp a _).trans (List.Perm.cons a ih)

theorem insertSorted_pairwise {α : Type} (cmp : α → α → Int) (key : α → Int)
    (hc : ∀ a b, cmp a b = key a - key b) (a : α) (l : List α)
    (hl : l.Pairwise (fun x y => key x ≤ key y)) :
    (insertSorted cmp a l).Pairwise (fun x y => key x ≤ key y) := by
  induction l with
  | nil => simp [insertSorted]
  | cons b l ih =>
    have hb := List.pairwise_cons.mp hl
    unfold insertSorted
    split
    · rename_i h
      rw [hc] at h
      refine List.pairwise_cons.mpr ⟨?_, hl⟩
      intro x hx
      rcases List.mem_cons.mp hx with rfl | hx
      · omega
      · have := hb.1 x hx
        omega
    · rename_i h
      rw [hc] at h
      refine List.pairwise_cons.mpr ⟨?_, ih hb.2⟩
      intro x hx
      rcases List.mem_cons.mp ((insertSorted_perm cmp a l).mem_iff.mp hx) with rfl | hx
      · omega
      · exact hb.1 x hx

theorem jsSort_pairwise {α : Type} (cmp : α → α → Int) (key : α → Int)
    (hc : ∀ a b, cmp a b = key a - key b) (l : List α) :
    (jsSort cmp l).Pairwise (fun x y => key x ≤ key y) := by
  induction l with
  | nil => simp [jsSort]
  | cons a l ih =>
    unfold jsSort
    exact insertSorted_pairwise cmp key hc a _ ih

theorem insertSorted_filter {α : Type} (cmp : α → α → Int) (key : α → Int)
    (hc : ∀ a b, cmp a b = key a - key b) (k : Int) (a : α) (l : List α) :
    (insertSorted cmp a l).filter (fun x => decide (key x = k)) =
      (a :: l).filter (fun x => decide (key x = k)) := by
  induction l with
  | nil => simp [insertSorted]
  | cons b l ih =>
    unfold insertSorted
    split
    · rfl
    · rename_i h
      rw [hc] at h
      by_cases hak : key a = k
      · have hbk : key b ≠ k := by omega
        rw [List.filter_cons_of_neg (by simpa using hbk), ih]
        simp [List.filter_cons, hak, hbk]
      · by_cases hbk : key b = k
        · rw [List.filter_cons_of_pos (by simpa using hbk), ih]
          simp [List.filter_cons, hak, hbk]
        · rw [List.filter_cons_of_neg (by simpa using hbk), ih]
          simp [List.filter_cons, hak, hbk]

theorem jsSort_filter {α : Type} (cmp : α → α → Int) (key : α → Int)
    (hc : ∀ a b, cmp a b = key a - key b) (k : Int) (l : List α) :
    (jsSort cmp l).filter (fun x => decide (key x = k)) =
      l.filter (fun x => decide (key x = k)) := by
  induction l with
  | nil => simp [jsSort]
  | cons a l ih =>
    unfold jsSort
    rw [insertSorted_filter cmp key hc, List.filter_cons, List.filter_cons, ih]

theorem collectCorrect_eq (answers : List (String × Answer)) :
    collectCorrect answers =
      (answers.filter (fun e => e.2.correct)).map (fun e => ⟨e.1, e.2.ts⟩) := by
  induction answers with
  | nil => rfl
  | cons e rest ih =>
    obtain ⟨k, a⟩ := e
    unfold collectCorrect
    by_cases h : a.correct = true
    · simp [h, ih]
    · simp [h, ih]

theorem scoredFrom_getElem? (l : List CorrectAnswer) (idx i : Nat) :
    (scoredFrom idx l)[i]? = (l[i]?).map (fun e => ⟨e.playerId, award (idx + i)⟩) := by
  induction l generalizing idx i with
  | nil => simp [scoredFrom]
  | cons e rest ih =>
    unfold scoredFrom
    cases i with
    | zero => simp
    | succ j =>
      simp only [List.getElem?_cons_succ]
      rw [ih]
      congr 2
      funext e
      congr 2
      omega

/-- C1: the award list `scored` of `endQuestion` holds exactly the correct answers, in ascending
order of timestamp with equal timestamps in insertion order, with 20, 10, 5 points for the first
three positions and 1 point for every later one; it is the payload `endQuestion` emits. -/
theorem C1_scored_ranking (answers : List (String × Answer)) :
    collectCorrect answers =
        (answers.filter (fun e => e.2.correct)).map (fun e => ⟨e.1, e.2.ts⟩)
    ∧ (correctAnswers answers).Perm (collectCorrect answers)
    ∧ (correctAnswers answers).Pairwise (fun a b => a.ts ≤ b.ts)
    ∧ (∀ t : Int, (correctAnswers answers).filter (fun a => decide (a.ts = t)) =
        (collectCorrect answers).filter (fun a => decide (a.ts = t)))
    ∧ (∀ i : Nat, (scored answers)[i]? = ((correctAnswers answers)[i]?).map (fun e =>
        ⟨e.playerId, if i = 0 then 20 else if i = 1 then 10 else if i = 2 then 5 else 1⟩))
    ∧ (∀ (ref : Nat) (room : Room) (now : Int) (fx : Fx),
        (endQuestion ref room now fx).map (fun r => r.2.emitted) =
          (questionAt room.currentQuestionIndex).map (fun q =>
            fx.emitted ++ [Emit.questionEnd room.token room.currentQuestionIndex q.correct
              (scored room.answers)])) := by
  refine ⟨collectCorrect_eq answers, jsSort_perm _ _, ?_, ?_, ?_, ?_⟩
  · exact jsSort_pairwise _ (fun a : CorrectAnswer => a.ts) (fun _ _ => rfl) _
  · intro t
    exact jsSort_filter _ (fun a : CorrectAnswer => a.ts) (fun _ _ => rfl) t _
  · intro i
    unfold scored
    rw [scoredFrom_getElem?]
    simp [award]
  · intro ref room now fx
    unfold endQuestion
    cases questionAt room.currentQuestionIndex with
    | none => rfl
    | some q => simp [scored, setTimeout, emit]

/-! ## Room-level lemmas -/

@[simp] theorem clearQuestionTimer_room (room : Room) (fx : Fx) :
    (clearQuestionTimer room fx).1 = { room with timeouts := { room.timeouts with question := none } } := by
  unfold clearQuestionTimer
  split
  · rfl
  · rename_i h
    cases room with
    | mk a b c d e f g t i => cases t; simp_all

@[simp] theorem clearCleanupTimer_room (room : Room) (fx : Fx) :
    (clearCleanupTimer room fx).1 = { room with timeouts := { room.timeouts with cleanup := none } } := by
  unfold clearCleanupTimer
  split
  · rfl
  · rename_i h
    cases room with
    | mk a b c d e f g t i => cases t; simp_all

@[simp] theorem clearWaitingExpiryTimer_room (room : Room) (fx : Fx) :
    (clearWaitingExpiryTimer room fx).1 =
      { room with timeouts := { room.timeouts with waitingExpiry := none } } := by
  unfold clearWaitingExpiryTimer
  split
  · rfl
  · rename_i h
    cases room with
    | mk a b c d e f g t i => cases t; simp_all

@[simp] theorem clearQuestionTimer_fx (room : Room) (fx : Fx) :
    (clearQuestionTimer room fx).2 =
      { fx with timers := dropHandle room.timeouts.question fx.timers } := by
  unfold clearQuestionTimer dropHandle
  split
  · rename_i h hq
    simp [clearTimeout, hq, eq_comm]
  · rename_i hq
    simp [hq]

@[simp] theorem clearCleanupTimer_fx (room : Room) (fx : Fx) :
    (clearCleanupTimer room fx).2 =
      { fx with timers := dropHandle room.timeouts.cleanup fx.timers } := by
  unfold clearCleanupTimer dropHandle
  split
  · rename_i h hq
    simp [clearTimeout, hq, eq_comm]
  · rename_i hq
    simp [hq]

@[simp] theorem clearWaitingExpiryTimer_fx (room : Room) (fx : Fx) :
    (clearWaitingExpiryTimer room fx).2 =
      { fx with timers := dropHandle room.timeouts.waitingExpiry fx.timers } := by
  unfold clearWaitingExpiryTimer dropHandle
  split
  · rename_i h hq
    simp [clearTimeout, hq, eq_comm]
  · rename_i hq
    simp [hq]

@[simp] theorem clearRoomTimers_room (room : Room) (fx : Fx) :
    (clearRoomTimers room fx).1 = { room with timeouts := ⟨none, none, none⟩ } := by
  simp [clearRoomTimers]

@[simp] theorem clearRoomTimers_fx (room : Room) (fx : Fx) :
    (clearRoomTimers room fx).2 =
      { fx with timers := (dropHandle room.timeouts.waitingExpiry (dropHandle
          room.timeouts.cleanup (dropHandle room.timeouts.question fx.timers))) } := by
  simp [clearRoomTimers]

theorem mem_dropHandle {h? : Option Nat} {timers : List Timer} {t : Timer} :
    t ∈ dropHandle h? timers ↔ t ∈ timers ∧ h? ≠ some t.handle := by
  simp [dropHandle]

theorem Frame.refl (ref : Nat) (timers : List Timer) : Frame ref timers timers :=
  fun _ ht _ => ht

theorem Frame.trans {ref : Nat} {a b c : List Timer} (h1 : Frame ref a b) (h2 : Frame ref b c) :
    Frame ref a c :=
  fun t ht hne => h1 t (h2 t ht hne) hne

theorem Frame.of_subset {ref : Nat} {a b : List Timer} (h : ∀ t ∈ b, t ∈ a) : Frame ref a b :=
  fun t ht _ => h t ht

theorem Frame.append_own {ref : Nat} {a b : List Timer} (h : Frame ref a b) (t : Timer)
    (ht : t.callback.target = ref) : Frame ref a (b ++ [t]) := by
  intro u hu hne
  rcases List.mem_append.mp hu with hu | hu
  · exact h u hu hne
  · simp at hu
    subst hu
    exact absurd ht hne

theorem clearRoomTimers_localOk {ref : Nat} {room : Room} {fx : Fx}
    (h : LocalOk ref room fx.timers) :
    LocalOk ref (clearRoomTimers room fx).1 (clearRoomTimers room fx).2.timers := by
  intro t ht htarget
  simp only [clearRoomTimers_fx, mem_dropHandle] at ht
  have := h t ht.1.1.1 htarget
  simp only [clearRoomTimers_room]
  unfold tracked at this ⊢
  cases hc : t.callback <;> simp_all

theorem clearRoomTimers_frame (ref : Nat) (room : Room) (fx : Fx) :
    Frame ref fx.timers (clearRoomTimers room fx).2.timers := by
  apply Frame.of_subset
  intro t ht
  simp only [clearRoomTimers_fx, mem_dropHandle] at ht
  exact ht.1.1.1

theorem clearCleanupTimer_localOk {ref : Nat} {room : Room} {fx : Fx}
    (h : LocalOk ref room fx.timers) :
    LocalOk ref (clearCleanupTimer room fx).1 (clearCleanupTimer room fx).2.timers := by
  intro t ht htarget
  simp only [clearCleanupTimer_fx, mem_dropHandle] at ht
  have := h t ht.1 htarget
  simp only [clearCleanupTimer_room]
  unfold tracked at this ⊢
  cases hc : t.callback <;> simp_all

theorem clearWaitingExpiryTimer_localOk {ref : Nat} {room : Room} {fx : Fx}
    (h : LocalOk ref room fx.timers) :
    LocalOk ref (clearWaitingExpiryTimer room fx).1 (clearWaitingExpiryTimer room fx).2.timers := by
  intro t ht htarget
  simp only [clearWaitingExpiryTimer_fx, mem_dropHandle] at ht
  have := h t ht.1 htarget
  simp only [clearWaitingExpiryTimer_room]
  unfold tracked at this ⊢
  cases hc : t.callback <;> simp_all

theorem clearCleanupTimer_frame (ref : Nat) (room : Room) (fx : Fx) :
    Frame ref fx.timers (clearCleanupTimer room fx).2.timers := by
  apply Frame.of_subset
  intro t ht
  simp only [clearCleanupTimer_fx, mem_dropHandle] at ht
  exact ht.1

theorem clearWaitingExpiryTimer_frame (ref : Nat) (room : Room) (fx : Fx) :
    Frame ref fx.timers (clearWaitingExpiryTimer room fx).2.timers := by
  apply Frame.of_subset
  intro t ht
  simp only [clearWaitingExpiryTimer_fx, mem_dropHandle] at ht
  exact ht.1

/-- The predicate `RoomOk` only reads the ids, the manager, the answers, the phase, the index and the start. -/
theorem RoomOk.congr {r r1 : Room} (h : RoomOk r) (hids : r1.ids = r.ids)
    (hm : r1.managerId = r.managerId) (ha : r1.answers = r.answers) (hs : r1.state = r.state)
    (hi : r1.currentQuestionIndex = r.currentQuestionIndex)
    (hq : r1.questionStartTs = r.questionStartTs) : RoomOk r1 := by
  constructor
  · rw [hids]; exact h.ids_nonempty
  · rw [hids, hm]; exact h.manager_mem
  · rw [hids, hm]; exact h.manager_none
  · rw [hids]; exact h.players_le
  · rw [ha]; exact h.answers_nodup
  · rw [hi]; exact h.index_ge
  · rw [hi, hs]; exact h.index_lt
  · rw [hq, hs]; exact h.start_set

theorem ensureWaitingExpiry_roomOk {ref : Nat} {room : Room} {now : Int} {fx : Fx}
    (h : RoomOk room) : RoomOk (ensureWaitingExpiry ref room now fx).1 := by
  unfold ensureWaitingExpiry
  split
  · exact h
  · split
    · exact h
    · exact h.congr rfl rfl rfl rfl rfl rfl

theorem ensureWaitingExpiry_localOk {ref : Nat} {room : Room} {now : Int} {fx : Fx}
    (h : LocalOk ref room fx.timers) :
    LocalOk ref (ensureWaitingExpiry ref room now fx).1
      (ensureWaitingExpiry ref room now fx).2.timers := by
  unfold ensureWaitingExpiry
  split
  · exact h
  · split
    · exact h
    · rename_i hw hnone
      intro t ht htarget
      simp only [setTimeout, List.mem_append, List.mem_singleton] at ht
      rcases ht with ht | ht
      · have := h t ht htarget
        unfold tracked at this ⊢
        cases hc : t.callback <;> simp_all
      · subst ht
        simp [tracked, setTimeout]

theorem ensureWaitingExpiry_frame (ref : Nat) (room : Room) (now : Int) (fx : Fx) :
    Frame ref fx.timers (ensureWaitingExpiry ref room now fx).2.timers := by
  unfold ensureWaitingExpiry
  split
  · exact Frame.refl _ _
  · split
    · exact Frame.refl _ _
    · exact Frame.append_own (Frame.refl _ _) _ rfl

theorem addScore_ids (id : String) (pts : Nat) (ps : List Player) :
    (addScore id pts ps).map (fun p => p.id) = ps.map (fun p => p.id) := by
  induction ps with
  | nil => rfl
  | cons p ps ih =>
    unfold addScore
    split
    · simp
    · simp [ih]

theorem applyAwards_ids (idx : Nat) (l : List CorrectAnswer) (ps : List Player) :
    (applyAwards idx l ps).map (fun p => p.id) = ps.map (fun p => p.id) := by
  induction l generalizing idx ps with
  | nil => rfl
  | cons e rest ih =>
    unfold applyAwards
    rw [ih, addScore_ids]

theorem questionAt_isSome {i : Int} (h0 : 0 ≤ i) (h1 : i < (QUESTIONS.length : Int)) :
    ∃ q, questionAt i = some q := by
  unfold questionAt
  rw [if_pos h0]
  have : i.toNat < QUESTIONS.length := by omega
  exact ⟨QUESTIONS[i.toNat], List.getElem?_eq_getElem this⟩

/-- The function `nextQuestion` establishes the room invariant from its part on players and manager and
from `-1 ≤ currentQuestionIndex`: `startGame` calls it with the index just reset. -/
theorem nextQuestion_roomOk_of {ref : Nat} {room : Room} {now : Int} {fx : Fx} {r : Room × Fx}
    (hr : nextQuestion ref room now fx = some r) (h1 : "" ∉ room.ids)
    (h2 : ∀ m, room.managerId = some m → m ∈ room.ids) (h3 : room.managerId = none → room.ids = [])
    (h4 : room.ids.length ≤ MAX_PLAYERS) (h5 : -1 ≤ room.currentQuestionIndex)
    (hnow : 0 < now) : RoomOk r.1 := by
  unfold nextQuestion at hr
  simp only [clearRoomTimers_room, clearRoomTimers_fx] at hr
  split at hr
  · simp only [Option.some.injEq] at hr
    subst hr
    exact ⟨h1, h2, h3, h4, by simp, by simp only; omega, by simp, by simp⟩
  · rename_i hlt
    split at hr
    · simp at hr
    · simp only [Option.some.injEq] at hr
      subst hr
      exact ⟨h1, h2, h3, h4, by simp, by simp only; omega,
        fun _ => ⟨by simp only; omega, by simpa using hlt⟩,
        fun _ => ⟨now, rfl, hnow⟩⟩

theorem nextQuestion_roomOk {ref : Nat} {room : Room} {now : Int} {fx : Fx} {r : Room × Fx}
    (hr : nextQuestion ref room now fx = some r) (h : RoomOk room) (hnow : 0 < now) :
    RoomOk r.1 :=
  nextQuestion_roomOk_of hr h.ids_nonempty h.manager_mem h.manager_none h.players_le h.index_ge
    hnow

theorem nextQuestion_localOk {ref : Nat} {room : Room} {now : Int} {fx : Fx} {r : Room × Fx}
    (hr : nextQuestion ref room now fx = some r) (h : LocalOk ref room fx.timers) :
    LocalOk ref r.1 r.2.timers := by
  have hc := clearRoomTimers_localOk h
  unfold nextQuestion at hr
  simp only [clearRoomTimers_room, clearRoomTimers_fx] at hr hc
  split at hr
  · simp only [Option.some.injEq] at hr
    subst hr
    intro t ht htarget
    have := hc t (by simpa [emit] using ht) htarget
    unfold tracked at this ⊢
    cases hcb : t.callback <;> simp_all
  · split at hr
    · simp at hr
    · simp only [Option.some.injEq] at hr
      subst hr
      intro t ht htarget
      simp only [setTimeout, emit, List.mem_append, List.mem_singleton] at ht
      rcases ht with ht | ht
      · have := hc t ht htarget
        unfold tracked at this ⊢
        cases hcb : t.callback <;> simp_all
      · subst ht
        simp [tracked, setTimeout, emit]

theorem nextQuestion_frame {ref : Nat} {room : Room} {now : Int} {fx : Fx} {r : Room × Fx}
    (hr : nextQuestion ref room now fx = some r) : Frame ref fx.timers r.2.timers := by
  have hc := clearRoomTimers_frame ref room fx
  unfold nextQuestion at hr
  simp only [clearRoomTimers_room, clearRoomTimers_fx] at hr hc
  split at hr
  · simp only [Option.some.injEq] at hr
    subst hr
    simpa [emit] using hc
  · split at hr
    · simp at hr
    · simp only [Option.some.injEq] at hr
      subst hr
      exact Frame.append_own hc _ rfl

theorem endQuestion_roomOk {ref : Nat} {room : Room} {now : Int} {fx : Fx} {r : Room × Fx}
    (hr : endQuestion ref room now fx = some r) (h : RoomOk room) : RoomOk r.1 := by
  unfold endQuestion at hr
  split at hr
  · simp at hr
  · simp only [Option.some.injEq] at hr
    subst hr
    exact h.congr (applyAwards_ids _ _ _) rfl rfl rfl rfl rfl

theorem endQuestion_localOk {ref : Nat} {room : Room} {now : Int} {fx : Fx} {r : Room × Fx}
    (hr : endQuestion ref room now fx = some r) (h : LocalOk ref room fx.timers) :
    LocalOk ref r.1 r.2.timers := by
  unfold endQuestion at hr
  split at hr
  · simp at hr
  · simp only [Option.some.injEq] at hr
    subst hr
    intro t ht htarget
    simp only [setTimeout, emit, List.mem_append, List.mem_singleton] at ht
    rcases ht with ht | ht
    · have := h t ht htarget
      unfold tracked at this ⊢
      cases hcb : t.callback <;> simp_all
    · subst ht
      simp [tracked]

theorem endQuestion_frame {ref : Nat} {room : Room} {now : Int} {fx : Fx} {r : Room × Fx}
    (hr : endQuestion ref room now fx = some r) : Frame ref fx.timers r.2.timers := by
  unfold endQuestion at hr
  split at hr
  · simp at hr
  · simp only [Option.some.injEq] at hr
    subst hr
    exact Frame.append_own (Frame.refl _ _) _ rfl

theorem resetToWaiting_room (ref : Nat) (room : Room) (now : Int) (fx : Fx) :
    (resetToWaiting ref room now fx).1 =
      (ensureWaitingExpiry ref
        { room with
          state := Phase.waiting
          currentQuestionIndex := -1
          questionStartTs := none
          answers := []
          players := room.players.map (fun p => { p with score := 0 })
          createdAt := now
          timeouts := ⟨none, none, none⟩ } now (clearRoomTimers room fx).2).1 := by
  unfold resetToWaiting
  simp only [clearRoomTimers_room]
  split
  · split <;> rfl
  · rfl

theorem resetToWaiting_timers (ref : Nat) (room : Room) (now : Int) (fx : Fx) :
    (resetToWaiting ref room now fx).2.timers =
      (ensureWaitingExpiry ref
        { room with
          state := Phase.waiting
          currentQuestionIndex := -1
          questionStartTs := none
          answers := []
          players := room.players.map (fun p => { p with score := 0 })
          createdAt := now
          timeouts := ⟨none, none, none⟩ } now (clearRoomTimers room fx).2).2.timers := by
  unfold resetToWaiting
  simp only [clearRoomTimers_room]
  split
  · split
    · rfl
    · simp [emit]
  · rfl

theorem resetToWaiting_roomOk {ref : Nat} {room : Room} {now : Int} {fx : Fx}
    (h : RoomOk room) : RoomOk (resetToWaiting ref room now fx).1 := by
  rw [resetToWaiting_room]
  apply ensureWaitingExpiry_roomOk
  exact ⟨by simpa [Room.ids, Function.comp_def] using h.ids_nonempty,
    by simpa [Room.ids, Function.comp_def] using h.manager_mem,
    by simpa [Room.ids, Function.comp_def] using h.manager_none,
    by simpa [Room.ids, Function.comp_def] using h.players_le,
    by simp, by simp, by simp, by simp⟩

theorem resetToWaiting_localOk {ref : Nat} {room : Room} {now : Int} {fx : Fx}
    (h : LocalOk ref room fx.timers) :
    LocalOk ref (resetToWaiting ref room now fx).1 (resetToWaiting ref room now fx).2.timers := by
  rw [resetToWaiting_room, resetToWaiting_timers]
  apply ensureWaitingExpiry_localOk
  have hc := clearRoomTimers_localOk h
  simp only [clearRoomTimers_room] at hc
  intro t ht htarget
  have := hc t ht htarget
  unfold tracked at this ⊢
  cases hcb : t.callback <;> simp_all

theorem resetToWaiting_frame (ref : Nat) (room : Room) (now : Int) (fx : Fx) :
    Frame ref fx.timers (resetToWaiting ref room now fx).2.timers := by
  rw [resetToWaiting_timers]
  exact (clearRoomTimers_frame ref room fx).trans (ensureWaitingExpiry_frame _ _ _ _)

/-! ## Lemmas on the registry and the heap -/

theorem mapDelete_sublist {α : Type} (m : List (String × α)) (k : String) :
    (mapDelete m k).Sublist m := by
  induction m with
  | nil => exact List.Sublist.refl _
  | cons e m ih =>
    obtain ⟨k1, v1⟩ := e
    unfold mapDelete
    split
    · exact List.sublist_cons_self _ _
    · exact ih.cons₂ _

theorem mapGet_eq_none {α : Type} (m : List (String × α)) (k : String) :
    mapGet m k = none ↔ k ∉ m.map Prod.fst := by
  induction m with
  | nil => simp [mapGet]
  | cons e m ih =>
    obtain ⟨k1, v1⟩ := e
    unfold mapGet
    by_cases h : k1 = k
    · simp [h]
    · simp [h, ih, Ne.symm h]

theorem mapGet_mem {α : Type} {m : List (String × α)} {k : String} {v : α}
    (h : mapGet m k = some v) : (k, v) ∈ m := by
  induction m with
  | nil => simp [mapGet] at h
  | cons e m ih =>
    obtain ⟨k1, v1⟩ := e
    unfold mapGet at h
    by_cases hk : k1 = k
    · simp [hk] at h
      simp [hk, h]
    · simp [hk] at h
      exact List.mem_cons_of_mem _ (ih h)

theorem mapSet_fresh {α : Type} (m : List (String × α)) (k : String) (v : α)
    (h : mapHas m k = false) : mapSet m k v = m ++ [(k, v)] := by
  induction m with
  | nil => rfl
  | cons e m ih =>
    obtain ⟨k1, v1⟩ := e
    unfold mapHas mapGet at h
    unfold mapSet
    by_cases hk : k1 = k
    · simp [hk] at h
    · simp only [hk, if_false] at h ⊢
      rw [ih h]
      rfl

theorem mapSet_keys_nodup {α : Type} (m : List (String × α)) (k : String) (v : α)
    (h : (m.map Prod.fst).Nodup) : ((mapSet m k v).map Prod.fst).Nodup := by
  induction m with
  | nil => simp [mapSet]
  | cons e m ih =>
    obtain ⟨k1, v1⟩ := e
    simp only [List.map_cons, List.nodup_cons] at h
    unfold mapSet
    by_cases hk : k1 = k
    · simp only [hk, if_true, List.map_cons, List.nodup_cons]
      exact ⟨hk ▸ h.1, h.2⟩
    · simp only [hk, if_false, List.map_cons, List.nodup_cons]
      refine ⟨?_, ih h.2⟩
      intro hmem
      apply h.1
      clear ih h
      induction m with
      | nil =>
        simp only [mapSet, List.map_cons, List.map_nil, List.mem_singleton] at hmem
        exact absurd hmem hk
      | cons e2 m ih2 =>
        obtain ⟨k2, v2⟩ := e2
        unfold mapSet at hmem
        by_cases hk2 : k2 = k
        · simp only [hk2, if_true, List.map_cons, List.mem_cons] at hmem
          rcases hmem with hmem | hmem
          · exact absurd hmem hk
          · simp [hmem]
        · simp only [hk2, if_false, List.map_cons, List.mem_cons] at hmem
          rcases hmem with hmem | hmem
          · simp [hmem]
          · simp [ih2 hmem]

theorem getRoom_heap {s : Server} {token : String} {ref : Nat} {room : Room}
    (h : getRoom s token = some (ref, room)) :
    mapGet s.rooms token = some ref ∧ s.heap[ref]? = some room := by
  unfold getRoom at h
  split at h
  · simp at h
  · rename_i r hr
    split at h
    · simp at h
    · rename_i room1 hroom
      simp only [Option.some.injEq, Prod.mk.injEq] at h
      obtain ⟨h1, h2⟩ := h
      subst h1 h2
      exact ⟨hr, hroom⟩

@[simp] theorem emit_timers (fx : Fx) (e : Emit) : (emit fx e).timers = fx.timers := rfl

@[simp] theorem emit_nextHandle (fx : Fx) (e : Emit) : (emit fx e).nextHandle = fx.nextHandle :=
  rfl

theorem Inv.localOk {s : Server} (h : Inv s) {ref : Nat} {room : Room}
    (hget : s.heap[ref]? = some room) : LocalOk ref room s.fx.timers := by
  intro t ht htarget
  obtain ⟨room1, h1, h2⟩ := h.timers_ok t ht
  rw [htarget, hget] at h1
  simp only [Option.some.injEq] at h1
  subst h1
  exact h2

theorem Inv.roomOk {s : Server} (h : Inv s) {ref : Nat} {room : Room}
    (hget : s.heap[ref]? = some room) : RoomOk room :=
  h.rooms_ok room (List.getElem?_mem hget)

/-- A handler that mutates the room at `ref` and only adds timers of that room keeps `Inv`. -/
theorem Inv.put {s : Server} (h : Inv s) {ref : Nat} {room room1 : Room} {fx1 : Fx}
    (hget : s.heap[ref]? = some room) (hok : RoomOk room1)
    (hloc : LocalOk ref room1 fx1.timers) (hfr : Frame ref s.fx.timers fx1.timers) :
    Inv (putRoom s ref room1 fx1) := by
  have hlt : ref < s.heap.length := by
    rcases List.getElem?_eq_some.mp hget with ⟨hlt, _⟩
    exact hlt
  refine ⟨?_, ?_, ?_⟩
  · intro r hr
    rcases List.mem_or_eq_of_mem_set hr with hr | hr
    · exact h.rooms_ok r hr
    · exact hr ▸ hok
  · intro t ht
    by_cases htarget : t.callback.target = ref
    · refine ⟨room1, ?_, hloc t ht htarget⟩
      simp [putRoom, htarget, hlt]
    · obtain ⟨r, h1, h2⟩ := h.timers_ok t (hfr t ht htarget)
      refine ⟨r, ?_, h2⟩
      simp only [putRoom]
      rw [List.getElem?_set_ne (Ne.symm htarget)]
      exact h1
  · exact ⟨h.registry_ok.keys_nodup, h.registry_ok.refs_nodup,
      by simpa [putRoom] using h.registry_ok.refs_lt⟩

/-! ## The handler bodies keep the room invariants -/

theorem LocalOk.of_timeouts {ref : Nat} {room room1 : Room} {timers : List Timer}
    (h : LocalOk ref room timers) (ht : room1.timeouts = room.timeouts) :
    LocalOk ref room1 timers := by
  intro t hmem htarget
  have := h t hmem htarget
  unfold tracked at this ⊢
  rw [ht]
  exact this

theorem truthyId_eq_true {m : Option String} (h : truthyId m = true) :
    ∃ x, m = some x ∧ x ≠ "" := by
  cases m with
  | none => simp [truthyId] at h
  | some x => exact ⟨x, rfl, by simpa [truthyId] using h⟩

@[simp] theorem ite_emit_timers (c : Prop) [Decidable c] (fx : Fx) (e : Emit) :
    (if c then emit fx e else fx).timers = fx.timers := by
  split <;> rfl

/-- The room `joinRoom` hands to `ensureWaitingExpiry`. -/
theorem admitPlayer_room (ref : Nat) (room : Room) (socketId token : String)
    (name : Option String) (now : Int) (fx : Fx) :
    (admitPlayer ref room socketId token name now fx).1 =
      (ensureWaitingExpiry ref
        { room with
          players := room.players ++ [{ id := socketId, name := sanitizeName name, score := 0 }]
          managerId := if truthyId room.managerId then room.managerId else some socketId
          timeouts := { room.timeouts with cleanup := none } } now
        { fx with timers := dropHandle room.timeouts.cleanup fx.timers }).1 := by
  simp [admitPlayer]

theorem admitPlayer_timers (ref : Nat) (room : Room) (socketId token : String)
    (name : Option String) (now : Int) (fx : Fx) :
    (admitPlayer ref room socketId token name now fx).2.timers =
      (ensureWaitingExpiry ref
        { room with
          players := room.players ++ [{ id := socketId, name := sanitizeName name, score := 0 }]
          managerId := if truthyId room.managerId then room.managerId else some socketId
          timeouts := { room.timeouts with cleanup := none } } now
        { fx with timers := dropHandle room.timeouts.cleanup fx.timers }).2.timers := by
  simp [admitPlayer]

theorem admitPlayer_roomOk {ref : Nat} {room : Room} {socketId token : String}
    {name : Option String} {now : Int} {fx : Fx}
    (h : RoomOk room) (hid : socketId ≠ "") (hlen : ¬ room.players.length ≥ MAX_PLAYERS) :
    RoomOk (admitPlayer ref room socketId token name now fx).1 := by
  rw [admitPlayer_room]
  apply ensureWaitingExpiry_roomOk
  refine ⟨?_, ?_, ?_, ?_, h.answers_nodup, h.index_ge, h.index_lt, h.start_set⟩
  · have := h.ids_nonempty
    simp only [Room.ids, List.map_append, List.map_cons, List.map_nil, List.mem_append,
      List.mem_singleton] at this ⊢
    rintro (h1 | h1)
    · exact this h1
    · exact hid h1.symm
  · intro m hm
    simp only [Room.ids, List.map_append, List.map_cons, List.map_nil, List.mem_append,
      List.mem_singleton]
    by_cases ht : truthyId room.managerId = true
    · simp only [ht, if_true] at hm
      exact Or.inl (h.manager_mem m hm)
    · simp only [ht] at hm
      simp only [Bool.false_eq_true, if_false, Option.some.injEq] at hm
      exact Or.inr hm.symm
  · intro hm
    exfalso
    by_cases ht : truthyId room.managerId = true
    · simp [ht] at hm
      obtain ⟨x, hx, _⟩ := truthyId_eq_true ht
      simp [hx] at hm
    · simp [ht] at hm
  · simp only [Room.ids, List.map_append, List.map_cons, List.map_nil, List.length_append,
      List.length_map, List.length_singleton]
    omega

theorem admitPlayer_localOk {ref : Nat} {room : Room} {socketId token : String}
    {name : Option String} {now : Int} {fx : Fx} (h : LocalOk ref room fx.timers) :
    LocalOk ref (admitPlayer ref room socketId token name now fx).1
      (admitPlayer ref room socketId token name now fx).2.timers := by
  rw [admitPlayer_room, admitPlayer_timers]
  apply ensureWaitingExpiry_localOk
  have h1 := clearCleanupTimer_localOk h
  simp only [clearCleanupTimer_room, clearCleanupTimer_fx] at h1
  exact h1.of_timeouts rfl

theorem admitPlayer_frame (ref : Nat) (room : Room) (socketId token : String)
    (name : Option String) (now : Int) (fx : Fx) :
    Frame ref fx.timers (admitPlayer ref room socketId token name now fx).2.timers := by
  rw [admitPlayer_timers]
  have h1 := clearCleanupTimer_frame ref room fx
  simp only [clearCleanupTimer_fx] at h1
  exact h1.trans (ensureWaitingExpiry_frame _ _ _ _)

theorem startRoom_roomOk {ref : Nat} {room : Room} {token : String} {now : Int} {fx : Fx}
    {r : Room × Fx} (hr : startRoom ref room token now fx = some r) (h : RoomOk room)
    (hnow : 0 < now) : RoomOk r.1 := by
  unfold startRoom at hr
  simp only [clearWaitingExpiryTimer_room, clearWaitingExpiryTimer_fx] at hr
  split at hr
  · simp at hr
  · rename_i n hn
    simp only [Option.some.injEq] at hr
    subst hr
    show RoomOk n.1
    exact nextQuestion_roomOk_of hn
      (by simpa [Room.ids, Function.comp_def] using h.ids_nonempty)
      (by simpa [Room.ids, Function.comp_def] using h.manager_mem)
      (by simpa [Room.ids, Function.comp_def] using h.manager_none)
      (by simpa [Room.ids, Function.comp_def] using h.players_le)
      (by simp) hnow

theorem startRoom_localOk {ref : Nat} {room : Room} {token : String} {now : Int} {fx : Fx}
    {r : Room × Fx} (hr : startRoom ref room token now fx = some r)
    (h : LocalOk ref room fx.timers) : LocalOk ref r.1 r.2.timers := by
  unfold startRoom at hr
  dsimp only at hr
  split at hr
  · simp at hr
  · rename_i n hn
    simp only [Option.some.injEq] at hr
    subst hr
    have h1 : LocalOk ref { room with
        state := Phase.in_progress
        currentQuestionIndex := -1
        players := room.players.map (fun p => { p with score := 0 }) } fx.timers :=
      h.of_timeouts rfl
    show LocalOk ref n.1 n.2.timers
    exact nextQuestion_localOk hn (clearWaitingExpiryTimer_localOk h1)

theorem startRoom_frame {ref : Nat} {room : Room} {token : String} {now : Int} {fx : Fx}
    {r : Room × Fx} (hr : startRoom ref room token now fx = some r) :
    Frame ref fx.timers r.2.timers := by
  unfold startRoom at hr
  dsimp only at hr
  split at hr
  · simp at hr
  · rename_i n hn
    simp only [Option.some.injEq] at hr
    subst hr
    show Frame ref fx.timers n.2.timers
    exact (clearWaitingExpiryTimer_frame ref _ fx).trans (nextQuestion_frame hn)

theorem recordAnswer_roomOk {room : Room} {socketId : String} {option : Option String}
    {now : Int} {fx : Fx} {r : Room × Fx × Reply}
    (hr : recordAnswer room socketId option now fx = some r) (h : RoomOk room) : RoomOk r.1 := by
  unfold recordAnswer at hr
  dsimp only at hr
  split at hr
  · simp at hr
  · split at hr
    · simp only [Option.some.injEq] at hr
      subst hr
      exact h
    · simp only [Option.some.injEq] at hr
      subst hr
      exact ⟨h.ids_nonempty, h.manager_mem, h.manager_none, h.players_le,
        mapSet_keys_nodup _ _ _ h.answers_nodup, h.index_ge, h.index_lt, h.start_set⟩

theorem recordAnswer_timeouts {room : Room} {socketId : String} {option : Option String}
    {now : Int} {fx : Fx} {r : Room × Fx × Reply}
    (hr : recordAnswer room socketId option now fx = some r) :
    r.1.timeouts = room.timeouts ∧ r.2.1.timers = fx.timers := by
  unfold recordAnswer at hr
  dsimp only at hr
  split at hr
  · simp at hr
  · split at hr
    · simp only [Option.some.injEq] at hr
      subst hr
      exact ⟨rfl, rfl⟩
    · simp only [Option.some.injEq] at hr
      subst hr
      exact ⟨rfl, rfl⟩

theorem firstPlayerId_mem {ps : List Player} {m : String} (h : firstPlayerId ps = some m) :
    m ∈ ps.map (fun p => p.id) := by
  cases ps with
  | nil => simp [firstPlayerId] at h
  | cons p ps =>
    simp only [firstPlayerId] at h
    split at h
    · simp at h
    · simp only [Option.some.injEq] at h
      simp [h]

theorem firstPlayerId_none {ps : List Player} (h : firstPlayerId ps = none)
    (hne : "" ∉ ps.map (fun p => p.id)) : ps = [] := by
  cases ps with
  | nil => rfl
  | cons p ps =>
    simp only [firstPlayerId] at h
    split at h
    · rename_i hp
      simp [hp] at hne
    · simp at h

theorem filter_ids (socketId : String) (ps : List Player) :
    (ps.filter (fun p => p.id != socketId)).map (fun p => p.id) =
      (ps.map (fun p => p.id)).filter (fun x => x != socketId) := by
  induction ps with
  | nil => rfl
  | cons p ps ih =>
    by_cases hp : p.id = socketId
    · simp [List.filter_cons, hp, ih]
    · simp [List.filter_cons, hp, ih]

/-- The players and the manager of a room after the `disconnect` loop body. -/
theorem disconnectRoom_room (socketId : String) (now : Int) (token : String) (ref : Nat)
    (room : Room) (fx : Fx) :
    ∃ ts, (disconnectRoom socketId now token ref room fx).1 =
      { room with
        players := room.players.filter (fun p => p.id != socketId)
        managerId :=
          if room.managerId = some socketId then
            firstPlayerId (room.players.filter (fun p => p.id != socketId))
          else room.managerId
        timeouts := ts } := by
  unfold disconnectRoom
  dsimp only
  split
  · exact ⟨_, rfl⟩
  · exact ⟨_, rfl⟩

theorem disconnectRoom_roomOk {socketId : String} {now : Int} {token : String} {ref : Nat}
    {room : Room} {fx : Fx} (h : RoomOk room) :
    RoomOk (disconnectRoom socketId now token ref room fx).1 := by
  obtain ⟨ts, hts⟩ := disconnectRoom_room socketId now token ref room fx
  rw [hts]
  have hsub : ∀ x, x ∈ (room.ids.filter (fun x => x != socketId)) → x ∈ room.ids :=
    fun x hx => (List.mem_filter.mp hx).1
  refine ⟨?_, ?_, ?_, ?_, h.answers_nodup, h.index_ge, h.index_lt, h.start_set⟩
  · simp only [Room.ids, filter_ids]
    exact fun hx => h.ids_nonempty (hsub _ hx)
  · intro m hm
    simp only [Room.ids, filter_ids]
    simp only at hm
    split at hm
    · have := firstPlayerId_mem hm
      rwa [filter_ids] at this
    · rename_i hne
      refine List.mem_filter.mpr ⟨h.manager_mem m hm, ?_⟩
      simp only [bne_iff_ne, ne_eq]
      intro hms
      exact hne (hms ▸ hm)
  · intro hm
    simp only [Room.ids, filter_ids]
    simp only at hm
    split at hm
    · have := firstPlayerId_none hm (by
        rw [filter_ids]
        exact fun hx => h.ids_nonempty (hsub _ hx))
      have h2 := congrArg (List.map (fun p : Player => p.id)) this
      rwa [filter_ids] at h2
    · have := h.manager_none hm
      simp only [Room.ids] at this
      simp [this]
  · simp only [Room.ids, filter_ids]
    exact le_trans (List.length_filter_le _ _) h.players_le

theorem disconnectRoom_localOk {socketId : String} {now : Int} {token : String} {ref : Nat}
    {room : Room} {fx : Fx} (h : LocalOk ref room fx.timers) :
    LocalOk ref (disconnectRoom socketId now token ref room fx).1
      (disconnectRoom socketId now token ref room fx).2.timers := by
  unfold disconnectRoom
  dsimp only
  split
  · rename_i hc
    intro t ht htarget
    simp only [setTimeout, ite_emit_timers, List.mem_append, List.mem_singleton] at ht
    rcases ht with ht | ht
    · have := h t ht htarget
      unfold tracked at this ⊢
      cases hcb : t.callback <;> simp_all
    · subst ht
      simp [tracked, setTimeout]
  · intro t ht htarget
    simp only [ite_emit_timers] at ht
    exact (h.of_timeouts rfl) t ht htarget

theorem disconnectRoom_frame (socketId : String) (now : Int) (token : String) (ref : Nat)
    (room : Room) (fx : Fx) :
    Frame ref fx.timers (disconnectRoom socketId now token ref room fx).2.timers := by
  unfold disconnectRoom
  dsimp only
  split
  · simp only [setTimeout, ite_emit_timers]
    exact Frame.append_own (Frame.refl _ _) _ rfl
  · simp only [ite_emit_timers]
    exact Frame.refl _ _


/-! ## Every reaction keeps the invariant -/

theorem Inv.start : Inv Server.start := by
  refine ⟨?_, ?_, ?_⟩
  · intro r hr
    simp [Server.start] at hr
  · intro t ht
    simp [Server.start] at ht
  · exact ⟨by simp [Server.start], by simp [Server.start], by simp [Server.start]⟩

theorem createRoom_roomOk (token : String) (now : Int) : RoomOk (createRoom token now) :=
  ⟨by simp [createRoom, Room.ids], by simp [createRoom], by simp [createRoom, Room.ids],
    by simp [createRoom, Room.ids], by simp [createRoom], by simp [createRoom],
    by simp [createRoom], by simp [createRoom]⟩

theorem clearRoomTimers_roomOk {room : Room} {fx : Fx} (h : RoomOk room) :
    RoomOk (clearRoomTimers room fx).1 := by
  rw [clearRoomTimers_room]
  exact h.congr rfl rfl rfl rfl rfl rfl

theorem joinRoom_inv {s : Server} (h : Inv s) (socketId token : String) (name : Option String)
    (now : Int) (hid : socketId ≠ "") : Inv (joinRoom s socketId token name now).1 := by
  unfold joinRoom
  split
  · exact h
  · rename_i ref room hget
    have hheap := (getRoom_heap hget).2
    split
    · exact h
    · split
      · exact h
      · rename_i hw hlen
        exact h.put hheap (admitPlayer_roomOk (h.roomOk hheap) hid hlen)
          (admitPlayer_localOk (h.localOk hheap)) (admitPlayer_frame _ _ _ _ _ _ _)

theorem onRoomCreate_inv {s : Server} (h : Inv s) (socketId : String) (name : Option String)
    (token : String) (now : Int) (hid : socketId ≠ "") (hfresh : mapHas s.rooms token = false) :
    Inv (onRoomCreate s socketId name token now).1 := by
  unfold onRoomCreate
  apply joinRoom_inv _ _ _ _ _ hid
  rw [mapSet_fresh _ _ _ hfresh]
  refine ⟨?_, ?_, ?_⟩
  · intro r hr
    simp only [List.mem_append, List.mem_singleton] at hr
    rcases hr with hr | hr
    · exact h.rooms_ok r hr
    · exact hr ▸ createRoom_roomOk token now
  · intro t ht
    obtain ⟨r, h1, h2⟩ := h.timers_ok t ht
    refine ⟨r, ?_, h2⟩
    have hlt : t.callback.target < s.heap.length := (List.getElem?_eq_some.mp h1).1
    simp only
    rw [List.getElem?_append_left hlt]
    exact h1
  · refine ⟨?_, ?_, ?_⟩
    · simp only [List.map_append, List.map_cons, List.map_nil]
      refine List.Nodup.append h.registry_ok.keys_nodup (by simp) ?_
      intro x hx hx2
      simp only [List.mem_singleton] at hx2
      subst hx2
      have : mapGet s.rooms x = none := by
        unfold mapHas at hfresh
        cases hg : mapGet s.rooms x <;> simp_all
      exact (mapGet_eq_none _ _).mp this hx
    · simp only [List.map_append, List.map_cons, List.map_nil]
      refine List.Nodup.append h.registry_ok.refs_nodup (by simp) ?_
      intro x hx hx2
      simp only [List.mem_singleton] at hx2
      subst hx2
      obtain ⟨e, he, heq⟩ := List.mem_map.mp hx
      have := h.registry_ok.refs_lt e he
      omega
    · intro e he
      simp only [List.mem_append, List.mem_singleton] at he
      simp only [List.length_append, List.length_singleton]
      rcases he with he | he
      · have := h.registry_ok.refs_lt e he
        omega
      · subst he
        simp

theorem onGameStart_inv {s s1 : Server} {rep : Reply} {socketId token : String} {now : Int}
    (hs : onGameStart s socketId token now = some (s1, rep)) (h : Inv s) (hnow : 0 < now) :
    Inv s1 := by
  unfold onGameStart at hs
  split at hs
  · simp only [Option.some.injEq, Prod.mk.injEq] at hs
    exact hs.1 ▸ h
  · rename_i ref room hget
    have hheap := (getRoom_heap hget).2
    split at hs
    · simp only [Option.some.injEq, Prod.mk.injEq] at hs
      exact hs.1 ▸ h
    · split at hs
      · simp only [Option.some.injEq, Prod.mk.injEq] at hs
        exact hs.1 ▸ h
      · split at hs
        · simp only [Option.some.injEq, Prod.mk.injEq] at hs
          exact hs.1 ▸ h
        · unfold startGame at hs
          rw [hget] at hs
          dsimp only at hs
          split at hs
          · simp at hs
          · rename_i s2 hs2
            split at hs2
            · simp at hs2
            · rename_i r hr
              simp only [Option.some.injEq, Prod.mk.injEq] at hs hs2
              rw [← hs.1, ← hs2]
              exact h.put hheap (startRoom_roomOk hr (h.roomOk hheap) hnow)
                (startRoom_localOk hr (h.localOk hheap)) (startRoom_frame hr)

theorem onGameAnswer_inv {s s1 : Server} {rep : Reply} {socketId token : String}
    {option : Option String} {now : Int}
    (hs : onGameAnswer s socketId token option now = some (s1, rep)) (h : Inv s) : Inv s1 := by
  unfold onGameAnswer at hs
  split at hs
  · simp only [Option.some.injEq, Prod.mk.injEq] at hs
    exact hs.1 ▸ h
  · rename_i ref room hget
    have hheap := (getRoom_heap hget).2
    split at hs
    · simp only [Option.some.injEq, Prod.mk.injEq] at hs
      exact hs.1 ▸ h
    · split at hs
      · simp only [Option.some.injEq, Prod.mk.injEq] at hs
        exact hs.1 ▸ h
      · split at hs
        · simp only [Option.some.injEq, Prod.mk.injEq] at hs
          exact hs.1 ▸ h
        · split at hs
          · simp at hs
          · rename_i r hr
            simp only [Option.some.injEq, Prod.mk.injEq] at hs
            rw [← hs.1]
            have ht := recordAnswer_timeouts hr
            refine h.put hheap (recordAnswer_roomOk hr (h.roomOk hheap)) ?_ ?_
            · rw [ht.2]
              exact (h.localOk hheap).of_timeouts ht.1
            · rw [ht.2]
              exact Frame.refl _ _

theorem onGameRestart_inv {s : Server} (h : Inv s) (socketId token : String) (now : Int) :
    Inv (onGameRestart s socketId token now).1 := by
  unfold onGameRestart
  split
  · exact h
  · rename_i ref room hget
    have hheap := (getRoom_heap hget).2
    split
    · exact h
    · exact h.put hheap (resetToWaiting_roomOk (h.roomOk hheap))
        (by simpa using resetToWaiting_localOk (h.localOk hheap))
        (by simpa using resetToWaiting_frame ref room now s.fx)

theorem disconnectLoop_inv (socketId : String) (now : Int) (entries : List (String × Nat))
    {s : Server} (h : Inv s) : Inv (disconnectLoop socketId now entries s) := by
  induction entries generalizing s with
  | nil => exact h
  | cons e rest ih =>
    obtain ⟨token, ref⟩ := e
    unfold disconnectLoop
    split
    · exact ih h
    · rename_i room hheap
      exact ih (h.put hheap (disconnectRoom_roomOk (h.roomOk hheap))
        (disconnectRoom_localOk (h.localOk hheap)) (disconnectRoom_frame _ _ _ _ _ _))

theorem onDisconnect_inv {s : Server} (h : Inv s) (socketId : String) (now : Int) :
    Inv (onDisconnect s socketId now) :=
  disconnectLoop_inv socketId now s.rooms h

theorem Inv.clearTimeout {s : Server} (h : Inv s) (hd : Nat) :
    Inv { s with fx := clearTimeout s.fx hd } := by
  refine ⟨h.rooms_ok, ?_, ⟨h.registry_ok.keys_nodup, h.registry_ok.refs_nodup,
    h.registry_ok.refs_lt⟩⟩
  intro t ht
  simp only [TrivialRacing.clearTimeout, List.mem_filter] at ht
  exact h.timers_ok t ht.1

/-- Deleting a registry entry keeps the invariant. -/
theorem Inv.delete {s : Server} (h : Inv s) (token : String) :
    Inv { s with rooms := mapDelete s.rooms token } := by
  have hsub := mapDelete_sublist s.rooms token
  refine ⟨h.rooms_ok, h.timers_ok, ⟨?_, ?_, ?_⟩⟩
  · exact (hsub.map Prod.fst).nodup h.registry_ok.keys_nodup
  · exact (hsub.map Prod.snd).nodup h.registry_ok.refs_nodup
  · intro e he
    exact h.registry_ok.refs_lt e (hsub.subset he)

theorem runCallback_inv {s s1 : Server} {now : Int} {cb : Callback}
    (hs : runCallback s now cb = some s1) (h : Inv s) (hnow : 0 < now) : Inv s1 := by
  cases cb with
  | cleanup ref token =>
    simp only [runCallback] at hs
    split at hs
    · simp only [Option.some.injEq] at hs
      exact hs ▸ h
    · rename_i room hheap
      simp only [Option.some.injEq] at hs
      subst hs
      have h1 : Inv (putRoom s ref (clearRoomTimers room s.fx).1 (clearRoomTimers room s.fx).2) :=
        h.put hheap (clearRoomTimers_roomOk (h.roomOk hheap))
          (clearRoomTimers_localOk (h.localOk hheap)) (clearRoomTimers_frame _ _ _)
      exact h1.delete token
  | endQuestion ref =>
    simp only [runCallback] at hs
    split at hs
    · simp only [Option.some.injEq] at hs
      exact hs ▸ h
    · rename_i room hheap
      split at hs
      · simp at hs
      · rename_i r hr
        simp only [Option.some.injEq] at hs
        subst hs
        exact h.put hheap (endQuestion_roomOk hr (h.roomOk hheap))
          (endQuestion_localOk hr (h.localOk hheap)) (endQuestion_frame hr)
  | advance ref =>
    simp only [runCallback] at hs
    split at hs
    · simp only [Option.some.injEq] at hs
      exact hs ▸ h
    · rename_i room hheap
      split at hs
      · simp at hs
      · rename_i r hr
        simp only [Option.some.injEq] at hs
        subst hs
        exact h.put hheap (nextQuestion_roomOk hr (h.roomOk hheap) hnow)
          (by simpa using nextQuestion_localOk hr (h.localOk hheap))
          (by simpa using nextQuestion_frame hr)
  | waitingExpiry ref =>
    simp only [runCallback] at hs
    split at hs
    · simp only [Option.some.injEq] at hs
      exact hs ▸ h
    · rename_i room hheap
      split at hs
      · simp only [Option.some.injEq] at hs
        subst hs
        have h1 : Inv (putRoom s ref
            (clearRoomTimers room (emit s.fx (Emit.expired room.token "timeout"))).1
            (clearRoomTimers room (emit s.fx (Emit.expired room.token "timeout"))).2) :=
          h.put hheap (clearRoomTimers_roomOk (h.roomOk hheap))
            (@clearRoomTimers_localOk ref room (emit s.fx _) (h.localOk hheap))
            (clearRoomTimers_frame _ _ (emit s.fx _))
        exact h1.delete _
      · simp only [Option.some.injEq] at hs
        exact hs ▸ h

theorem fireTimer_inv {s s1 : Server} {hd : Nat} {now : Int}
    (hs : fireTimer s hd now = some s1) (h : Inv s) (hnow : 0 < now) : Inv s1 := by
  unfold fireTimer at hs
  split at hs
  · simp at hs
  · exact runCallback_inv hs (h.clearTimeout hd) hnow

theorem step_inv {s s1 : Server} {clock now : Int} {i : Input}
    (ha : admissible s clock now i = true) (hs : step s now i = some s1) (h : Inv s) :
    Inv s1 := by
  cases i with
  | roomCreate socketId name token =>
    simp only [admissible, Bool.and_eq_true, decide_eq_true_eq, bne_iff_ne, ne_eq,
      Bool.not_eq_true'] at ha
    simp only [step, Option.some.injEq] at hs
    exact hs ▸ onRoomCreate_inv h socketId name token now ha.1.2 ha.2
  | roomJoin socketId token name =>
    simp only [admissible, Bool.and_eq_true, decide_eq_true_eq, bne_iff_ne, ne_eq] at ha
    simp only [step, Option.some.injEq] at hs
    exact hs ▸ joinRoom_inv h socketId token name now ha.2
  | gameStart socketId token =>
    simp only [admissible, Bool.and_eq_true, decide_eq_true_eq, bne_iff_ne, ne_eq] at ha
    simp only [step, Option.map_eq_some', Prod.exists, exists_and_right, exists_eq_right] at hs
    obtain ⟨rep, hrep⟩ := hs
    exact onGameStart_inv hrep h ha.1.2
  | gameAnswer socketId token option =>
    simp only [step, Option.map_eq_some', Prod.exists, exists_and_right, exists_eq_right] at hs
    obtain ⟨rep, hrep⟩ := hs
    exact onGameAnswer_inv hrep h
  | gameRestart socketId token =>
    simp only [step, Option.some.injEq] at hs
    exact hs ▸ onGameRestart_inv h socketId token now
  | disconnect socketId =>
    simp only [step, Option.some.injEq] at hs
    exact hs ▸ onDisconnect_inv h socketId now
  | timer hd =>
    simp only [admissible, Bool.and_eq_true, decide_eq_true_eq] at ha
    simp only [step] at hs
    exact fireTimer_inv hs h ha.1.2

/-- Every reachable state satisfies the invariant. -/
theorem Reachable.inv {clock : Int} {s : Server} (h : Reachable clock s) : Inv s := by
  induction h with
  | start => exact Inv.start
  | step now i s1 _ ha hs ih => exact step_inv ha hs ih


/-! ## Runs are reachable -/

theorem run_reachable {clock : Int} {s s1 : Server} (tr : List (Int × Input))
    (h : Reachable clock s) (hr : run s clock tr = some s1) : Reachable (endClock clock tr) s1 := by
  induction tr generalizing clock s with
  | nil =>
    simp only [run, Option.some.injEq] at hr
    exact hr ▸ h
  | cons e rest ih =>
    obtain ⟨now, i⟩ := e
    simp only [run] at hr
    split at hr
    · rename_i ha
      split at hr
      · simp at hr
      · rename_i s2 hs2
        exact ih (Reachable.step now i s2 h ha hs2) hr
    · simp at hr

theorem firstQuestionServer_reachable : Reachable 5000 firstQuestionServer :=
  run_reachable firstQuestionRun Reachable.start (by rfl)

theorem roomOf_eq_some {s : Server} {token : String} {room : Room}
    (h : roomOf s token = some room) : ∃ ref, getRoom s token = some (ref, room) := by
  unfold roomOf at h
  cases hg : getRoom s token with
  | none => simp [hg] at h
  | some p =>
    obtain ⟨ref, r⟩ := p
    simp only [hg, Option.map_some', Option.some.injEq] at h
    exact ⟨ref, by rw [h]⟩

theorem Reachable.registered_ok {clock : Int} {s : Server} (h : Reachable clock s) {token : String}
    {room : Room} (hroom : roomOf s token = some room) : RoomOk room := by
  obtain ⟨ref, hget⟩ := roomOf_eq_some hroom
  exact h.inv.roomOk (getRoom_heap hget).2

/-! ## C2: a second answer to the same question -/

/-- C2: in a room in phase `in_progress`, a player who already has an answer recorded gets
"Respuesta ya enviada" whatever the option and the time, and the server (the recorded answer
and the rest of the room included) is unchanged; in every reachable state the answers map of a
room holds at most one entry per player id. -/
theorem C2_second_answer_rejected :
    (∀ (s : Server) (socketId token : String) (option : Option String) (now : Int) (ref : Nat)
        (room : Room),
        getRoom s token = some (ref, room) → room.state = Phase.in_progress →
        room.players.any (fun p => p.id == socketId) = true →
        mapHas room.answers socketId = true →
        onGameAnswer s socketId token option now =
          some (s, Reply.fail (some "Respuesta ya enviada")))
    ∧ (∀ (clock : Int) (s : Server) (token : String) (room : Room),
        Reachable clock s → roomOf s token = some room →
        (room.answers.map Prod.fst).Nodup) := by
  constructor
  · intro s socketId token option now ref room hget hstate hplayer hans
    unfold onGameAnswer
    rw [hget]
    simp [hstate, hplayer, hans]
  · intro clock s token room hreach hroom
    exact (hreach.registered_ok hroom).answers_nodup

/-- C2 at the state of `firstQuestionRun`: A, who answered at 5 s, answers again at 6 s. -/
theorem C2_second_answer_rejected_witness :
    onGameAnswer firstQuestionServer "A" "ROOM01" (some "c") 6000 =
        some (firstQuestionServer, Reply.fail (some "Respuesta ya enviada"))
    ∧ (firstQuestionRoom.answers.map Prod.fst).Nodup :=
  ⟨C2_second_answer_rejected.1 firstQuestionServer "A" "ROOM01" (some "c") 6000 0
      firstQuestionRoom (by rfl) (by rfl) (by rfl) (by rfl),
    C2_second_answer_rejected.2 5000 firstQuestionServer "ROOM01" firstQuestionRoom
      firstQuestionServer_reachable (by rfl)⟩

/-! ## C3: the 15 s window -/

theorem set_same {α : Type} (l : List α) (i : Nat) (a : α) (h : l[i]? = some a) :
    l.set i a = l := by
  induction l generalizing i with
  | nil => rfl
  | cons b l ih =>
    cases i with
    | zero =>
      simp only [List.getElem?_cons_zero, Option.some.injEq] at h
      simp [h]
    | succ j =>
      simp only [List.getElem?_cons_succ] at h
      simp [ih j h]

theorem putRoom_same {s : Server} {ref : Nat} {room : Room} (h : s.heap[ref]? = some room) :
    putRoom s ref room s.fx = s := by
  unfold putRoom
  rw [set_same _ _ _ h]

/-- C3: in a reachable state, for a room in phase `in_progress` and a player of it without an
answer for the current question, the question-start timestamp is set, and an answer received at
time `now` is recorded with `ts = now` and acknowledged exactly when
`now - questionStartTs ≤ 15000`; otherwise the reply is "Tiempo agotado" and the server is
unchanged.  The pending timers play no part in the outcome, and the guard counts a missing
start timestamp as late. -/
theorem C3_answer_window (clock : Int) (s : Server) (socketId token : String)
    (option : Option String) (now : Int) (ref : Nat) (room : Room)
    (hreach : Reachable clock s) (hget : getRoom s token = some (ref, room))
    (hstate : room.state = Phase.in_progress)
    (hplayer : room.players.any (fun p => p.id == socketId) = true)
    (hnone : mapHas room.answers socketId = false) :
    (∃ (start : Int) (q : Question),
      room.questionStartTs = some start ∧ questionAt room.currentQuestionIndex = some q ∧
      onGameAnswer s socketId token option now =
        if now - start ≤ 15000 then
          some (putRoom s ref
            { room with
              answers := room.answers ++
                [(socketId,
                  { option := jsToUpperCase (jsTrim (stringOrEmpty option))
                    ts := now
                    correct := jsToUpperCase (jsTrim (stringOrEmpty option)) == q.correct })] }
            (emit s.fx (Emit.answerAck socketId)), Reply.ok)
        else some (s, Reply.fail (some "Tiempo agotado")))
    ∧ isLate none now = true := by
  have hok := hreach.inv.roomOk (getRoom_heap hget).2
  obtain ⟨start, hstart, hpos⟩ := hok.start_set hstate
  obtain ⟨q, hq⟩ := questionAt_isSome (hok.index_lt hstate).1 (hok.index_lt hstate).2
  refine ⟨⟨start, q, hstart, hq, ?_⟩, rfl⟩
  unfold onGameAnswer
  rw [hget]
  simp only [hstate, hplayer, hnone, recordAnswer, hq, hstart, isLate, ne_eq, not_true_eq_false,
    if_false, Bool.not_true, Bool.false_eq_true, mapSet_fresh _ _ _ hnone]
  have h0 : (start == 0) = false := by
    simp only [beq_eq_false_iff_ne, ne_eq]
    omega
  by_cases hle : now - start ≤ 15000
  · have : ¬ (now - start > QUESTION_TIME_SECONDS * 1000) := by
      simp only [QUESTION_TIME_SECONDS]; omega
    simp [h0, hle, this]
  · have : now - start > QUESTION_TIME_SECONDS * 1000 := by
      simp only [QUESTION_TIME_SECONDS]; omega
    simp [h0, hle, this, putRoom_same (getRoom_heap hget).2]

/-- C3 at the state of `firstQuestionRun` (question started at 2 s, its timer due at 17.05 s and
still pending): B is accepted at 17 s, exactly 15000 ms after the start, and gets
"Tiempo agotado" at 17.001 s. -/
theorem C3_answer_window_witness :
    (⟨2, 17050, Callback.endQuestion 0⟩ : Timer) ∈ firstQuestionServer.fx.timers
    ∧ onGameAnswer firstQuestionServer "B" "ROOM01" (some "b") 17000 =
        some (putRoom firstQuestionServer 0
          { firstQuestionRoom with
            answers := firstQuestionRoom.answers ++ [("B", ⟨"B", 17000, true⟩)] }
          (emit firstQuestionServer.fx (Emit.answerAck "B")), Reply.ok)
    ∧ onGameAnswer firstQuestionServer "B" "ROOM01" (some "b") 17001 =
        some (firstQuestionServer, Reply.fail (some "Tiempo agotado")) := by
  obtain ⟨⟨start, q, hs, hq, h⟩, _⟩ :=
    C3_answer_window 5000 firstQuestionServer "B" "ROOM01" (some "b") 17000 0 firstQuestionRoom
      firstQuestionServer_reachable (by rfl) (by rfl) (by rfl) (by rfl)
  obtain ⟨⟨start1, q1, hs1, hq1, h1⟩, _⟩ :=
    C3_answer_window 5000 firstQuestionServer "B" "ROOM01" (some "b") 17001 0 firstQuestionRoom
      firstQuestionServer_reachable (by rfl) (by rfl) (by rfl) (by rfl)
  have e : start = 2000 := by
    have : firstQuestionRoom.questionStartTs = some 2000 := rfl
    rw [this] at hs
    exact (Option.some.inj hs).symm
  have e1 : start1 = 2000 := by
    have : firstQuestionRoom.questionStartTs = some 2000 := rfl
    rw [this] at hs1
    exact (Option.some.inj hs1).symm
  have eq : q.correct = "B" := by
    have : questionAt firstQuestionRoom.currentQuestionIndex = some
        ⟨1, "¿Qué producto de Control de Miopía tiene el estudio más largo realizado en niños?",
          ["A) Lente Oftálmica", "B) MiSight 1 day", "C) Lentilla Multifocal", "D) Orto-K"],
          "B"⟩ := rfl
    rw [this] at hq
    rw [← Option.some.inj hq]
  subst e e1
  refine ⟨by decide, ?_, ?_⟩
  · rw [h, eq, if_pos (by decide)]
    rfl
  · rw [h1, if_neg (by decide)]

/-! ## C5: the manager is a player -/

/-- C5: in every reachable state the manager id of a registered room is absent or the id of one
of its players, and it is absent only if the room has no player. -/
theorem C5_manager_is_player (clock : Int) (s : Server) (token : String) (room : Room)
    (hreach : Reachable clock s) (hroom : roomOf s token = some room) :
    (room.managerId = none ∨ ∃ p ∈ room.players, room.managerId = some p.id)
    ∧ (room.managerId = none → room.players = []) := by
  have hok := hreach.registered_ok hroom
  constructor
  · cases hm : room.managerId with
    | none => exact Or.inl rfl
    | some m =>
      right
      have := hok.manager_mem m hm
      simp only [Room.ids, List.mem_map] at this
      obtain ⟨p, hp, hpm⟩ := this
      exact ⟨p, hp, by rw [hpm]⟩
  · intro hm
    have := hok.manager_none hm
    simpa [Room.ids] using this

/-- C5 at the state of `firstQuestionRun`. -/
theorem C5_manager_is_player_witness :
    (firstQuestionRoom.managerId = none ∨
      ∃ p ∈ firstQuestionRoom.players, firstQuestionRoom.managerId = some p.id)
    ∧ (firstQuestionRoom.managerId = none → firstQuestionRoom.players = []) :=
  C5_manager_is_player 5000 firstQuestionServer "ROOM01" firstQuestionRoom
    firstQuestionServer_reachable (by rfl)

/-! ## C4: the manager after a disconnect -/

theorem disconnectLoop_rooms (socketId : String) (now : Int) (entries : List (String × Nat))
    (s : Server) : (disconnectLoop socketId now entries s).rooms = s.rooms := by
  induction entries generalizing s with
  | nil => rfl
  | cons e rest ih =>
    obtain ⟨token, ref⟩ := e
    unfold disconnectLoop
    split
    · exact ih s
    · rw [ih]
      rfl

theorem disconnectLoop_other (socketId : String) (now : Int) (entries : List (String × Nat))
    (s : Server) (ref : Nat) (h : ref ∉ entries.map Prod.snd) :
    (disconnectLoop socketId now entries s).heap[ref]? = s.heap[ref]? := by
  induction entries generalizing s with
  | nil => rfl
  | cons e rest ih =>
    obtain ⟨token, ref1⟩ := e
    simp only [List.map_cons, List.mem_cons, not_or] at h
    unfold disconnectLoop
    split
    · exact ih s h.2
    · rw [ih _ h.2]
      simp only [putRoom]
      exact List.getElem?_set_ne (Ne.symm h.1)

theorem disconnectLoop_at (socketId : String) (now : Int) (entries : List (String × Nat))
    (s : Server) (token : String) (ref : Nat) (room : Room) (hmem : (token, ref) ∈ entries)
    (hnd : (entries.map Prod.snd).Nodup) (hheap : s.heap[ref]? = some room) :
    ∃ fx0, (disconnectLoop socketId now entries s).heap[ref]? =
      some (disconnectRoom socketId now token ref room fx0).1 := by
  induction entries generalizing s with
  | nil => simp at hmem
  | cons e rest ih =>
    obtain ⟨token1, ref1⟩ := e
    simp only [List.map_cons, List.nodup_cons] at hnd
    unfold disconnectLoop
    rcases List.mem_cons.mp hmem with heq | hrest
    · simp only [Prod.mk.injEq] at heq
      obtain ⟨ht, hr⟩ := heq
      subst ht hr
      simp only [hheap]
      refine ⟨s.fx, ?_⟩
      rw [disconnectLoop_other _ _ _ _ _ hnd.1]
      simp only [putRoom]
      have hlt : ref < s.heap.length := (List.getElem?_eq_some.mp hheap).1
      simp [hlt]
    · have hne : ref1 ≠ ref := by
        intro h
        apply hnd.1
        rw [h]
        exact List.mem_map.mpr ⟨(token, ref), hrest, rfl⟩
      split
      · exact ih s hrest hnd.2 hheap
      · apply ih _ hrest hnd.2
        simp only [putRoom]
        rw [List.getElem?_set_ne hne]
        exact hheap

theorem firstPlayerId_eq_head {ps : List Player} (h : "" ∉ ps.map (fun p => p.id)) :
    firstPlayerId ps = ps.head?.map (fun p => p.id) := by
  cases ps with
  | nil => rfl
  | cons p ps =>
    simp only [List.map_cons, List.mem_cons, not_or] at h
    simp [firstPlayerId, Ne.symm h.1]

/-- C4: in a reachable state, a disconnect of `socketId` leaves in every registered room the
players with another id, in their order; if `socketId` was the manager, the new manager is the
first of them, or absent when none remains; otherwise the manager is unchanged. -/
theorem C4_manager_succession (clock : Int) (s : Server) (socketId token : String) (now : Int)
    (ref : Nat) (room : Room) (hreach : Reachable clock s)
    (hget : getRoom s token = some (ref, room)) :
    ∃ room1, getRoom (onDisconnect s socketId now) token = some (ref, room1)
      ∧ room1.players = room.players.filter (fun p => p.id != socketId)
      ∧ (room.managerId = some socketId →
          room1.managerId = room1.players.head?.map (fun p => p.id))
      ∧ (room.managerId ≠ some socketId → room1.managerId = room.managerId) := by
  have hinv := hreach.inv
  obtain ⟨hmap, hheap⟩ := getRoom_heap hget
  have hok := hinv.roomOk hheap
  obtain ⟨fx0, hfx0⟩ := disconnectLoop_at socketId now s.rooms s token ref room
    (mapGet_mem hmap) hinv.registry_ok.refs_nodup hheap
  obtain ⟨ts, hts⟩ := disconnectRoom_room socketId now token ref room fx0
  refine ⟨(disconnectRoom socketId now token ref room fx0).1, ?_, ?_, ?_, ?_⟩
  · unfold getRoom onDisconnect
    rw [disconnectLoop_rooms, hmap]
    simp only [hfx0]
  · rw [hts]
  · intro hm
    rw [hts]
    simp only [hm, if_true]
    apply firstPlayerId_eq_head
    rw [filter_ids]
    exact fun hx => hok.ids_nonempty (List.mem_filter.mp hx).1
  · intro hm
    rw [hts]
    simp only [hm, if_false]

/-- C4 at the state of `firstQuestionRun`: when the manager A disconnects, B becomes the
manager; when B disconnects, A stays the manager. -/
theorem C4_manager_succession_witness :
    (∃ room1, getRoom (onDisconnect firstQuestionServer "A" 6000) "ROOM01" = some (0, room1)
      ∧ room1.players = firstQuestionRoom.players.filter (fun p => p.id != "A")
      ∧ room1.managerId = room1.players.head?.map (fun p => p.id))
    ∧ (∃ room1, getRoom (onDisconnect firstQuestionServer "B" 6000) "ROOM01" = some (0, room1)
      ∧ room1.players = firstQuestionRoom.players.filter (fun p => p.id != "B")
      ∧ room1.managerId = firstQuestionRoom.managerId) :=
  ⟨(C4_manager_succession 5000 firstQuestionServer "A" "ROOM01" 6000 0 firstQuestionRoom
      firstQuestionServer_reachable (by rfl)).imp
      (fun _ h => ⟨h.1, h.2.1, h.2.2.1 (by rfl)⟩),
    (C4_manager_succession 5000 firstQuestionServer "B" "ROOM01" 6000 0 firstQuestionRoom
      firstQuestionServer_reachable (by rfl)).imp
      (fun _ h => ⟨h.1, h.2.1, h.2.2.2 (by decide)⟩)⟩

/-! ## C6: restart -/

theorem getRoom_putRoom {s : Server} {token : String} {ref : Nat} {room : Room}
    (h : getRoom s token = some (ref, room)) (room1 : Room) (fx1 : Fx) :
    getRoom (putRoom s ref room1 fx1) token = some (ref, room1) := by
  obtain ⟨hmap, hheap⟩ := getRoom_heap h
  have hlt : ref < s.heap.length := (List.getElem?_eq_some.mp hheap).1
  simp [getRoom, putRoom, hmap, hlt]

/-- After `clearRoomTimers` the only pending timers of the room are pause timers. -/
theorem clearRoomTimers_pending {ref : Nat} {room : Room} {fx : Fx}
    (h : LocalOk ref room fx.timers) :
    ∀ t ∈ (clearRoomTimers room fx).2.timers, t.callback.target = ref →
      t.callback = Callback.advance ref := by
  intro t ht htarget
  have h1 := clearRoomTimers_localOk h t ht htarget
  simp only [clearRoomTimers_room] at h1
  unfold tracked at h1
  cases hcb : t.callback with
  | cleanup r tok => simp [hcb] at h1
  | endQuestion r => simp [hcb] at h1
  | waitingExpiry r => simp [hcb] at h1
  | advance r =>
    rw [hcb] at htarget
    simp only [Callback.target] at htarget
    rw [htarget]

/-- C6: in a reachable state, a restart by the manager at time `now` leaves the room in phase
`waiting` with index -1, no start timestamp, no answers, all scores 0, `createdAt = now`, no
question or cleanup handle, and its waiting-expiry handle naming a pending timer due at
`now + 20 min`; the players' ids, names and order and the manager are as before, and no
question, cleanup or other waiting-expiry timer of the room is pending.  A restart by anyone
else gets "Solo el Manager puede reiniciar" and changes nothing. -/
theorem C6_restart (clock : Int) (s : Server) (socketId token : String) (now : Int) (ref : Nat)
    (room : Room) (hreach : Reachable clock s) (hget : getRoom s token = some (ref, room)) :
    (room.managerId = some socketId →
      (onGameRestart s socketId token now).2 = Reply.ok
      ∧ getRoom (onGameRestart s socketId token now).1 token = some (ref,
          { room with
            state := Phase.waiting
            currentQuestionIndex := -1
            questionStartTs := none
            answers := []
            players := room.players.map (fun p => { p with score := 0 })
            createdAt := now
            timeouts := ⟨none, none, some s.fx.nextHandle⟩ })
      ∧ (⟨s.fx.nextHandle, now + WAITING_GRACE_MS, Callback.waitingExpiry ref⟩ : Timer) ∈
          (onGameRestart s socketId token now).1.fx.timers
      ∧ (∀ t ∈ (onGameRestart s socketId token now).1.fx.timers, t.callback.target = ref →
          t.callback = Callback.advance ref ∨
          t = ⟨s.fx.nextHandle, now + WAITING_GRACE_MS, Callback.waitingExpiry ref⟩))
    ∧ (room.managerId ≠ some socketId →
        onGameRestart s socketId token now =
          (s, Reply.fail (some "Solo el Manager puede reiniciar"))) := by
  have hheap := (getRoom_heap hget).2
  have hloc := hreach.inv.localOk hheap
  constructor
  · intro hm
    have hpend := clearRoomTimers_pending hloc
    have hroom : (resetToWaiting ref room now s.fx).1 =
        { room with
          state := Phase.waiting
          currentQuestionIndex := -1
          questionStartTs := none
          answers := []
          players := room.players.map (fun p => { p with score := 0 })
          createdAt := now
          timeouts := ⟨none, none, some s.fx.nextHandle⟩ } := by
      rw [resetToWaiting_room]
      simp [ensureWaitingExpiry, setTimeout]
    have htimers : (resetToWaiting ref room now s.fx).2.timers =
        (clearRoomTimers room s.fx).2.timers ++
          [⟨s.fx.nextHandle, now + WAITING_GRACE_MS, Callback.waitingExpiry ref⟩] := by
      rw [resetToWaiting_timers]
      have hpos : (0 : Int) ≤ WAITING_GRACE_MS := by simp [WAITING_GRACE_MS]
      simp [ensureWaitingExpiry, setTimeout, hpos]
    have hres : onGameRestart s socketId token now =
        (putRoom s ref (resetToWaiting ref room now s.fx).1
          (emit (resetToWaiting ref room now s.fx).2
            (Emit.roomState token (publicRoomState (resetToWaiting ref room now s.fx).1))),
          Reply.ok) := by
      unfold onGameRestart
      rw [hget]
      simp [hm]
    rw [hres]
    refine ⟨rfl, ?_, ?_, ?_⟩
    · rw [← hroom]
      exact getRoom_putRoom hget _ _
    · simp only [putRoom, emit_timers, htimers]
      simp
    · intro t ht htarget
      simp only [putRoom, emit_timers, htimers, List.mem_append, List.mem_singleton] at ht
      rcases ht with ht | ht
      · exact Or.inl (hpend t ht htarget)
      · exact Or.inr ht
  · intro hm
    unfold onGameRestart
    rw [hget]
    simp [hm]

/-- C6 at the state of `firstQuestionRun`: the manager A restarts at 6 s, in mid-question; the
same command from B is refused. -/
theorem C6_restart_witness :
    ((onGameRestart firstQuestionServer "A" "ROOM01" 6000).2 = Reply.ok
      ∧ getRoom (onGameRestart firstQuestionServer "A" "ROOM01" 6000).1 "ROOM01" = some (0,
          { firstQuestionRoom with
            state := Phase.waiting
            currentQuestionIndex := -1
            questionStartTs := none
            answers := []
            players := firstQuestionRoom.players.map (fun p => { p with score := 0 })
            createdAt := 6000
            timeouts := ⟨none, none, some firstQuestionServer.fx.nextHandle⟩ })
      ∧ (⟨firstQuestionServer.fx.nextHandle, 6000 + WAITING_GRACE_MS,
            Callback.waitingExpiry 0⟩ : Timer) ∈
          (onGameRestart firstQuestionServer "A" "ROOM01" 6000).1.fx.timers
      ∧ (∀ t ∈ (onGameRestart firstQuestionServer "A" "ROOM01" 6000).1.fx.timers,
          t.callback.target = 0 →
          t.callback = Callback.advance 0 ∨
          t = ⟨firstQuestionServer.fx.nextHandle, 6000 + WAITING_GRACE_MS,
            Callback.waitingExpiry 0⟩))
    ∧ onGameRestart firstQuestionServer "B" "ROOM01" 6000 =
        (firstQuestionServer, Reply.fail (some "Solo el Manager puede reiniciar")) :=
  ⟨(C6_restart 5000 firstQuestionServer "A" "ROOM01" 6000 0 firstQuestionRoom
      firstQuestionServer_reachable (by rfl)).1 (by rfl),
    (C6_restart 5000 firstQuestionServer "B" "ROOM01" 6000 0 firstQuestionRoom
      firstQuestionServer_reachable (by rfl)).2 (by decide)⟩

/-! ## C9: join -/

/-- The function `ensureWaitingExpiry` only writes `createdAt` and `timeouts`. -/
theorem ensureWaitingExpiry_room (ref : Nat) (room : Room) (now : Int) (fx : Fx) :
    ∃ ts c, (ensureWaitingExpiry ref room now fx).1 = { room with timeouts := ts, createdAt := c } := by
  unfold ensureWaitingExpiry
  split
  · exact ⟨room.timeouts, room.createdAt, rfl⟩
  · split
    · exact ⟨room.timeouts, room.createdAt, rfl⟩
    · exact ⟨_, _, rfl⟩

theorem mapHas_false_getRoom {s : Server} {token : String} (h : mapHas s.rooms token = false) :
    getRoom s token = none := by
  unfold mapHas at h
  unfold getRoom
  cases hg : mapGet s.rooms token with
  | none => rfl
  | some r => simp [hg] at h

/-- C9: in a reachable state, `joinRoom` replies "La sala no existe" for a token that is not in
the registry, "La partida ya comenzó" for a room that is not waiting, "Sala llena (máx. 12)" for
a waiting room that has 12 players, and in these cases changes nothing; otherwise it succeeds,
appends the new player (sanitized name, score 0) after the existing ones, makes the caller the
manager exactly if there was none, and leaves phase, index, start timestamp and answers as they
were.  A registered room never has more than 12 players. -/
theorem C9_join (clock : Int) (s : Server) (socketId token : String) (name : Option String)
    (now : Int) (hreach : Reachable clock s) :
    (mapHas s.rooms token = false →
      joinRoom s socketId token name now = (s, Reply.fail (some "La sala no existe")))
    ∧ (∀ ref room, getRoom s token = some (ref, room) →
        room.players.length ≤ 12
        ∧ (room.state ≠ Phase.waiting →
            joinRoom s socketId token name now = (s, Reply.fail (some "La partida ya comenzó")))
        ∧ (room.state = Phase.waiting → room.players.length = 12 →
            joinRoom s socketId token name now = (s, Reply.fail (some "Sala llena (máx. 12)")))
        ∧ (room.state = Phase.waiting → room.players.length < 12 →
            ∃ room1,
              getRoom (joinRoom s socketId token name now).1 token = some (ref, room1)
              ∧ (joinRoom s socketId token name now).2 =
                  Reply.joined token (room1.managerId == some socketId)
                    { id := socketId, name := sanitizeName name, score := 0 }
              ∧ room1.players =
                  room.players ++ [{ id := socketId, name := sanitizeName name, score := 0 }]
              ∧ room1.managerId =
                  (if room.managerId = none then some socketId else room.managerId)
              ∧ room1.state = room.state
              ∧ room1.currentQuestionIndex = room.currentQuestionIndex
              ∧ room1.questionStartTs = room.questionStartTs
              ∧ room1.answers = room.answers)) := by
  constructor
  · intro h
    unfold joinRoom
    rw [mapHas_false_getRoom h]
  · intro ref room hget
    have hok := hreach.inv.roomOk (getRoom_heap hget).2
    have hlen : room.players.length ≤ 12 := by
      have := hok.players_le
      simpa [Room.ids, MAX_PLAYERS] using this
    refine ⟨hlen, ?_, ?_, ?_⟩
    · intro hs
      unfold joinRoom
      rw [hget]
      simp [hs]
    · intro hs hfull
      unfold joinRoom
      rw [hget]
      simp [hs, hfull, MAX_PLAYERS]
    · intro hs hlt
      have hres : joinRoom s socketId token name now =
          (putRoom s ref (admitPlayer ref room socketId token name now s.fx).1
              (admitPlayer ref room socketId token name now s.fx).2,
            Reply.joined token
              ((admitPlayer ref room socketId token name now s.fx).1.managerId == some socketId)
              { id := socketId, name := sanitizeName name, score := 0 }) := by
        unfold joinRoom
        rw [hget]
        have : ¬ room.players.length ≥ MAX_PLAYERS := by
          simp only [MAX_PLAYERS]; omega
        simp [hs, this]
      have hmgr : (if truthyId room.managerId then room.managerId else some socketId) =
          (if room.managerId = none then some socketId else room.managerId) := by
        cases hm : room.managerId with
        | none => simp [truthyId]
        | some m =>
          have hmem := hok.manager_mem m hm
          have hne : m ≠ "" := fun h => hok.ids_nonempty (h ▸ hmem)
          simp [truthyId, hne]
      obtain ⟨ts, c, he⟩ := ensureWaitingExpiry_room ref
        { room with
          players := room.players ++ [{ id := socketId, name := sanitizeName name, score := 0 }]
          managerId := if truthyId room.managerId then room.managerId else some socketId
          timeouts := { room.timeouts with cleanup := none } } now
        { s.fx with timers := dropHandle room.timeouts.cleanup s.fx.timers }
      have hroom := admitPlayer_room ref room socketId token name now s.fx
      rw [he] at hroom
      refine ⟨(admitPlayer ref room socketId token name now s.fx).1, ?_, ?_, ?_, ?_, ?_, ?_, ?_,
        ?_⟩
      · rw [hres]
        exact getRoom_putRoom hget _ _
      · rw [hres]
      · rw [hroom]
      · rw [hroom]
        exact hmgr
      · rw [hroom]
      · rw [hroom]
      · rw [hroom]
      · rw [hroom]

theorem lobbyServer_reachable : Reachable 1000 lobbyServer :=
  run_reachable lobbyRun Reachable.start (by rfl)

theorem fullServer_reachable : Reachable 2100 fullServer :=
  run_reachable fullRun Reachable.start (by rfl)

/-- C9 at concrete states: an unknown token, a game in progress, a full lobby (a thirteenth
connection), and B joining the lobby of A. -/
theorem C9_join_witness :
    joinRoom lobbyServer "B" "NOROOM" (some "Bo") 1500 =
        (lobbyServer, Reply.fail (some "La sala no existe"))
    ∧ joinRoom firstQuestionServer "C" "ROOM01" (some "Cy") 6000 =
        (firstQuestionServer, Reply.fail (some "La partida ya comenzó"))
    ∧ joinRoom fullServer "P13" "FULL01" none 2200 =
        (fullServer, Reply.fail (some "Sala llena (máx. 12)"))
    ∧ (∃ room1,
        getRoom (joinRoom lobbyServer "B" "ROOM01" (some "Bo") 1500).1 "ROOM01" = some (0, room1)
        ∧ (joinRoom lobbyServer "B" "ROOM01" (some "Bo") 1500).2 =
            Reply.joined "ROOM01" (room1.managerId == some "B")
              { id := "B", name := sanitizeName (some "Bo"), score := 0 }
        ∧ room1.players =
            lobbyRoom.players ++ [{ id := "B", name := sanitizeName (some "Bo"), score := 0 }]
        ∧ room1.managerId = (if lobbyRoom.managerId = none then some "B" else lobbyRoom.managerId)
        ∧ room1.state = lobbyRoom.state
        ∧ room1.currentQuestionIndex = lobbyRoom.currentQuestionIndex
        ∧ room1.questionStartTs = lobbyRoom.questionStartTs
        ∧ room1.answers = lobbyRoom.answers) :=
  ⟨(C9_join 1000 lobbyServer "B" "NOROOM" (some "Bo") 1500 lobbyServer_reachable).1 (by rfl),
    ((C9_join 5000 firstQuestionServer "C" "ROOM01" (some "Cy") 6000
      firstQuestionServer_reachable).2 0 firstQuestionRoom (by rfl)).2.1 (by decide),
    ((C9_join 2100 fullServer "P13" "FULL01" none 2200 fullServer_reachable).2 0 fullRoom
      (by rfl)).2.2.1 (by rfl) (by rfl),
    ((C9_join 1000 lobbyServer "B" "ROOM01" (some "Bo") 1500 lobbyServer_reachable).2 0
      lobbyRoom (by rfl)).2.2.2 (by rfl) (by decide)⟩

/-! ## C10: start -/

/-- The room with which `startGame` leaves `room`, and the pending timers. -/
theorem startRoom_map (ref : Nat) (room : Room) (token : String) (now : Int) (fx : Fx) :
    (startRoom ref room token now fx).map (fun r => (r.1, r.2.timers)) = some
        ({ room with
            state := Phase.in_progress
            currentQuestionIndex := 0
            players := room.players.map (fun p => { p with score := 0 })
            answers := []
            questionStartTs := some now
            timeouts := ⟨some fx.nextHandle, none, none⟩ },
          (clearRoomTimers { room with timeouts := { room.timeouts with waitingExpiry := none } }
            (clearWaitingExpiryTimer room fx).2).2.timers ++
          [⟨fx.nextHandle, now + 15050, Callback.endQuestion ref⟩]) := by
  have hq : questionAt 0 = some
      { id := 1
        text := "¿Qué producto de Control de Miopía tiene el estudio más largo realizado en niños?"
        options :=
          ["A) Lente Oftálmica", "B) MiSight 1 day", "C) Lentilla Multifocal", "D) Orto-K"]
        correct := "B" } := by rfl
  unfold startRoom nextQuestion
  simp only [clearWaitingExpiryTimer_room, clearWaitingExpiryTimer_fx, clearRoomTimers_room,
    clearRoomTimers_fx]
  have h2 : ¬ ((-1 : Int) + 1 ≥ (QUESTIONS.length : Int)) := by decide
  simp only [h2, if_false]
  have h0 : (-1 : Int) + 1 = 0 := by decide
  simp only [h0, hq]
  simp [setTimeout, QUESTION_TIME_SECONDS]

theorem startRoom_eq (ref : Nat) (room : Room) (token : String) (now : Int) (fx : Fx) :
    ∃ fx1, startRoom ref room token now fx = some
        ({ room with
            state := Phase.in_progress
            currentQuestionIndex := 0
            players := room.players.map (fun p => { p with score := 0 })
            answers := []
            questionStartTs := some now
            timeouts := ⟨some fx.nextHandle, none, none⟩ }, fx1)
      ∧ fx1.timers =
          (clearRoomTimers { room with timeouts := { room.timeouts with waitingExpiry := none } }
            (clearWaitingExpiryTimer room fx).2).2.timers ++
          [⟨fx.nextHandle, now + 15050, Callback.endQuestion ref⟩] := by
  have h := startRoom_map ref room token now fx
  cases hs : startRoom ref room token now fx with
  | none => simp [hs] at h
  | some r =>
    obtain ⟨r1, r2⟩ := r
    simp only [hs, Option.map_some', Option.some.injEq, Prod.mk.injEq] at h
    exact ⟨r2, by rw [h.1], h.2⟩

/-- C10: `game:start` always replies; in a reachable state it succeeds exactly when the room
exists, the caller is its manager, the phase is `waiting` and there is at least one player;
every failure leaves the server unchanged; a success leaves the room in phase `in_progress` at
question 0 with all scores 0, no answers, the start timestamp `now`, no waiting-expiry or
cleanup handle, and its question handle naming a pending timer due at `now + 15050` ms, the
players and the manager being as before and no waiting-expiry timer of the room pending. -/
theorem C10_start (clock : Int) (s : Server) (socketId token : String) (now : Int)
    (hreach : Reachable clock s) :
    (∃ r, onGameStart s socketId token now = some r)
    ∧ ((∃ s1, onGameStart s socketId token now = some (s1, Reply.ok)) ↔
        ∃ ref room, getRoom s token = some (ref, room) ∧ room.managerId = some socketId
          ∧ room.state = Phase.waiting ∧ 1 ≤ room.players.length)
    ∧ (∀ s1 rep, onGameStart s socketId token now = some (s1, rep) → rep ≠ Reply.ok → s1 = s)
    ∧ (∀ ref room s1, getRoom s token = some (ref, room) →
        onGameStart s socketId token now = some (s1, Reply.ok) →
        getRoom s1 token = some (ref,
          { room with
            state := Phase.in_progress
            currentQuestionIndex := 0
            players := room.players.map (fun p => { p with score := 0 })
            answers := []
            questionStartTs := some now
            timeouts := ⟨some s.fx.nextHandle, none, none⟩ })
        ∧ (⟨s.fx.nextHandle, now + 15050, Callback.endQuestion ref⟩ : Timer) ∈ s1.fx.timers
        ∧ (∀ t ∈ s1.fx.timers, t.callback.target = ref →
            t.callback = Callback.advance ref ∨
            t = ⟨s.fx.nextHandle, now + 15050, Callback.endQuestion ref⟩)) := by
  cases hget : getRoom s token with
  | none =>
    have hres : onGameStart s socketId token now =
        some (s, Reply.fail (some "Sala no existe")) := by
      unfold onGameStart
      rw [hget]
    refine ⟨⟨_, hres⟩, ?_, ?_, ?_⟩
    · rw [hres]
      simp
    · intro s1 rep h _
      rw [hres] at h
      simp only [Option.some.injEq, Prod.mk.injEq] at h
      exact h.1.symm
    · intro ref room s1 h
      simp at h
  | some p =>
    obtain ⟨ref, room⟩ := p
    have hheap := (getRoom_heap hget).2
    obtain ⟨fx1, hstart, htimers⟩ := startRoom_eq ref room token now s.fx
    by_cases hok : room.managerId = some socketId ∧ room.state = Phase.waiting ∧
        1 ≤ room.players.length
    · obtain ⟨hm, hs, hl⟩ := hok
      have hres : onGameStart s socketId token now = some (putRoom s ref
          { room with
            state := Phase.in_progress
            currentQuestionIndex := 0
            players := room.players.map (fun p => { p with score := 0 })
            answers := []
            questionStartTs := some now
            timeouts := ⟨some s.fx.nextHandle, none, none⟩ } fx1, Reply.ok) := by
        unfold onGameStart startGame
        rw [hget]
        have : ¬ room.players.length < MIN_PLAYERS_TO_START := by
          simp only [MIN_PLAYERS_TO_START]; omega
        simp [hm, hs, this, hstart]
      refine ⟨⟨_, hres⟩, ?_, ?_, ?_⟩
      · rw [hres]
        exact ⟨fun _ => ⟨ref, room, rfl, hm, hs, hl⟩, fun _ => ⟨_, rfl⟩⟩
      · intro s1 rep h hne
        rw [hres] at h
        simp only [Option.some.injEq, Prod.mk.injEq] at h
        exact absurd h.2.symm hne
      · intro ref1 room1 s1 hg h
        simp only [Option.some.injEq, Prod.mk.injEq] at hg
        obtain ⟨hr1, hr2⟩ := hg
        subst hr1 hr2
        rw [hres] at h
        simp only [Option.some.injEq, Prod.mk.injEq, and_true] at h
        subst h
        refine ⟨getRoom_putRoom hget _ _, ?_, ?_⟩
        · simp only [putRoom, htimers]
          simp
        · intro t ht htarget
          simp only [putRoom, htimers, List.mem_append, List.mem_singleton] at ht
          rcases ht with ht | ht
          · left
            have hloc : LocalOk ref
                { room with timeouts := { room.timeouts with waitingExpiry := none } }
                (clearWaitingExpiryTimer room s.fx).2.timers := by
              have := clearWaitingExpiryTimer_localOk (hreach.inv.localOk hheap)
              simpa using this
            exact clearRoomTimers_pending hloc t ht htarget
          · exact Or.inr ht
    · have hres : ∃ e, onGameStart s socketId token now = some (s, Reply.fail (some e)) := by
        unfold onGameStart
        rw [hget]
        dsimp only
        by_cases hm : room.managerId = some socketId
        · by_cases hs : room.state = Phase.waiting
          · have hl : room.players.length < MIN_PLAYERS_TO_START := by
              simp only [MIN_PLAYERS_TO_START]
              by_contra hl
              exact hok ⟨hm, hs, by omega⟩
            exact ⟨"Se requiere al menos 1 jugador", by simp [hm, hs, hl]⟩
          · exact ⟨"El juego ya inició", by simp [hm, hs]⟩
        · exact ⟨"Solo el Manager puede iniciar", by simp [hm]⟩
      obtain ⟨e, hres⟩ := hres
      refine ⟨⟨_, hres⟩, ?_, ?_, ?_⟩
      · rw [hres]
        constructor
        · rintro ⟨s1, h⟩
          simp at h
        · rintro ⟨ref1, room1, hg, h⟩
          simp only [Option.some.injEq, Prod.mk.injEq] at hg
          obtain ⟨hr1, hr2⟩ := hg
          subst hr1 hr2
          exact absurd h hok
      · intro s1 rep h _
        rw [hres] at h
        simp only [Option.some.injEq, Prod.mk.injEq] at h
        exact h.1.symm
      · intro ref1 room1 s1 _ h
        rw [hres] at h
        simp at h

/-- C10 at the state of `lobbyRun`: the manager A starts the game at 2 s; B cannot. -/
theorem C10_start_witness :
    (∃ s1, onGameStart lobbyServer "A" "ROOM01" 2000 = some (s1, Reply.ok)
      ∧ getRoom s1 "ROOM01" = some (0,
          { lobbyRoom with
            state := Phase.in_progress
            currentQuestionIndex := 0
            players := lobbyRoom.players.map (fun p => { p with score := 0 })
            answers := []
            questionStartTs := some 2000
            timeouts := ⟨some lobbyServer.fx.nextHandle, none, none⟩ })
      ∧ (⟨lobbyServer.fx.nextHandle, 2000 + 15050, Callback.endQuestion 0⟩ : Timer) ∈
          s1.fx.timers)
    ∧ ¬ (∃ s1, onGameStart lobbyServer "B" "ROOM01" 2000 = some (s1, Reply.ok)) := by
  have hA := C10_start 1000 lobbyServer "A" "ROOM01" 2000 lobbyServer_reachable
  have hB := C10_start 1000 lobbyServer "B" "ROOM01" 2000 lobbyServer_reachable
  have hg : getRoom lobbyServer "ROOM01" = some (0, lobbyRoom) := by rfl
  constructor
  · obtain ⟨s1, hs1⟩ := hA.2.1.mpr ⟨0, lobbyRoom, hg, by rfl, by rfl, by decide⟩
    have h := hA.2.2.2 0 lobbyRoom s1 hg hs1
    exact ⟨s1, hs1, h.1, h.2.1⟩
  · intro h
    obtain ⟨ref, room, hr, hm, _⟩ := hB.2.1.mp h
    rw [hg] at hr
    simp only [Option.some.injEq, Prod.mk.injEq] at hr
    rw [← hr.2] at hm
    revert hm
    decide

/-! ## C7 and C8: timers cancelled by `nextQuestion` -/

/-- C7 fails on the code: in `emptiedDuringGameRun` the disconnect at 3 s empties the room and
arms its cleanup timer, due at 123 s; when the pause timer fires at 18.55 s, `nextQuestion` calls
`clearRoomTimers`, which cancels it: the room is registered and empty, no join has happened, and
no cleanup timer is pending; when the game is over, at 35.1 s, no timer at all is pending, and
at 130 s, more than two minutes after it emptied, the room is still registered. -/
theorem C7_cleanup_cancelled_by_nextQuestion :
    (run Server.start 0 (emptiedDuringGameRun.take 3)).map (fun s =>
        ((roomOf s "ROOM01").map (fun r => (r.players, r.state, r.timeouts.cleanup)),
          pendingWith s Callback.isCleanup)) =
      some (some ([], Phase.in_progress, some 3), [⟨3, 123000, Callback.cleanup 0 "ROOM01"⟩])
    ∧ (run Server.start 0 (emptiedDuringGameRun.take 5)).map (fun s =>
        ((roomOf s "ROOM01").map (fun r => (r.players, r.state, r.timeouts.cleanup)),
          pendingWith s Callback.isCleanup)) =
      some (some ([], Phase.in_progress, none), [])
    ∧ (run Server.start 0 emptiedDuringGameRun).map (fun s =>
        ((roomOf s "ROOM01").map (fun r => (r.players, r.state, r.timeouts.cleanup)),
          s.fx.timers)) =
      some (some ([], Phase.results, none), [])
    ∧ (run Server.start 0 (emptiedDuringGameRun ++ [(130000, Input.gameStart "Z" "ROOM01")])).map
        (fun s =>
          ((roomOf s "ROOM01").map (fun r => (r.players, r.state, r.timeouts.cleanup)),
            s.fx.timers)) =
      some (some ([], Phase.results, none), []) := by
  refine ⟨?_, ?_, ?_, ?_⟩ <;> rfl

/-- C8 fails on the code: in `restartDuringPauseRun` the restart at 18 s cannot cancel the pause
timer of `endQuestion`, whose handle the room does not hold; when it fires at 18.55 s,
`nextQuestion` cancels the waiting-expiry timer the restart had armed for 1218 s: the room is
registered, in phase `waiting`, has the player who joined it, and no waiting-expiry timer is
pending.  The game that `nextQuestion` started then runs on by its own timers and leaves the
room in phase `results` at 51.65 s. -/
theorem C8_waiting_expiry_cancelled_by_pause_timer :
    (run Server.start 0 (restartDuringPauseRun.take 4)).map (fun s =>
        ((roomOf s "ROOM01").map (fun r =>
            (r.players.map (fun p => p.id), r.state, r.createdAt, r.timeouts.waitingExpiry)),
          pendingWith s Callback.isWaitingExpiry)) =
      some (some (["A"], Phase.waiting, 18000, some 4),
        [⟨4, 1218000, Callback.waitingExpiry 0⟩])
    ∧ (run Server.start 0 restartDuringPauseRun).map (fun s =>
        ((roomOf s "ROOM01").map (fun r =>
            (r.players.map (fun p => p.id), r.state, r.createdAt, r.timeouts.waitingExpiry)),
          pendingWith s Callback.isWaitingExpiry)) =
      some (some (["A"], Phase.waiting, 18000, none), [])
    ∧ (run Server.start 0 (restartDuringPauseRun ++
          [(33600, Input.timer 5), (35100, Input.timer 6), (50150, Input.timer 7),
           (51650, Input.timer 8)])).map (fun s =>
        ((roomOf s "ROOM01").map (fun r =>
            (r.players.map (fun p => p.id), r.state, r.createdAt, r.timeouts.waitingExpiry)),
          s.fx.timers)) =
      some (some (["A"], Phase.results, 18000, none), []) := by
  refine ⟨?_, ?_, ?_⟩ <;> rfl


/-! ## C15: the public state of a room -/

/-- C15: two rooms that agree on token, phase, players, manager, question index and start
timestamp have the same public state, whatever their answers, timers and creation time; the
public state consists of these six values, the players as (id, name, score) in join order, and
the duration 15. -/
theorem C15_public_state_hides_answers (r1 r2 : Room) (htoken : r1.token = r2.token)
    (hstate : r1.state = r2.state) (hplayers : r1.players = r2.players)
    (hmanager : r1.managerId = r2.managerId)
    (hindex : r1.currentQuestionIndex = r2.currentQuestionIndex)
    (hstart : r1.questionStartTs = r2.questionStartTs) :
    publicRoomState r1 = publicRoomState r2
    ∧ publicRoomState r1 =
        { token := r1.token
          state := r1.state
          players := r1.players
          managerId := r1.managerId
          currentQuestionIndex := r1.currentQuestionIndex
          questionStartTs := r1.questionStartTs
          timePerQuestion := 15 }
    ∧ (publicRoomState r1).players.map (fun p => (p.id, p.name, p.score)) =
        r1.players.map (fun p => (p.id, p.name, p.score)) := by
  have hmap : ∀ ps : List Player,
      ps.map (fun p => ({ id := p.id, name := p.name, score := p.score } : Player)) = ps := by
    intro ps
    induction ps with
    | nil => rfl
    | cons p ps ih => simp [ih]
  refine ⟨?_, ?_, ?_⟩
  · simp [publicRoomState, htoken, hstate, hplayers, hmanager, hindex, hstart]
  · simp [publicRoomState, hmap, QUESTION_TIME_SECONDS]
  · simp [publicRoomState, hmap]

/-- C15 at the room of `firstQuestionRun` and the same room without its answer, its timer handle
and with another creation time. -/
theorem C15_public_state_hides_answers_witness :
    publicRoomState firstQuestionRoom =
        publicRoomState { firstQuestionRoom with
          answers := [], timeouts := ⟨none, none, none⟩, createdAt := 7 }
    ∧ publicRoomState firstQuestionRoom =
        { token := "ROOM01"
          state := Phase.in_progress
          players := [⟨"A", "Ana", 0⟩, ⟨"B", "Bo", 0⟩]
          managerId := some "A"
          currentQuestionIndex := 0
          questionStartTs := some 2000
          timePerQuestion := 15 }
    ∧ (publicRoomState firstQuestionRoom).players.map (fun p => (p.id, p.name, p.score)) =
        firstQuestionRoom.players.map (fun p => (p.id, p.name, p.score)) :=
  C15_public_state_hides_answers firstQuestionRoom
    { firstQuestionRoom with answers := [], timeouts := ⟨none, none, none⟩, createdAt := 7 }
    rfl rfl rfl rfl rfl rfl

/-! ## C17: `sanitizeName` -/

/-- C17: `sanitizeName` returns a string of 1 to 24 code units: "Jugador" when the name is
missing or empty once trimmed, and otherwise the first 24 code units of the trimmed name, which
is the trimmed name itself when that has at most 24. -/
theorem C17_sanitizeName (name : Option String) :
    1 ≤ (sanitizeName name).length ∧ (sanitizeName name).length ≤ 24
    ∧ sanitizeName none = "Jugador"
    ∧ ((jsTrim (stringOrEmpty name)).length = 0 → sanitizeName name = "Jugador")
    ∧ ((jsTrim (stringOrEmpty name)).length ≠ 0 →
        sanitizeName name = String.mk ((jsTrim (stringOrEmpty name)).data.take 24))
    ∧ ((jsTrim (stringOrEmpty name)).length ≠ 0 → (jsTrim (stringOrEmpty name)).length ≤ 24 →
        sanitizeName name = jsTrim (stringOrEmpty name)) := by
  have hj : ("Jugador" : String).length = 7 := by decide
  refine ⟨?_, ?_, by rfl, ?_, ?_, ?_⟩
  · unfold sanitizeName
    dsimp only
    split
    · rw [hj]; omega
    · rename_i h
      simp only [String.length, List.length_take] at h ⊢
      omega
  · unfold sanitizeName
    dsimp only
    split
    · rw [hj]; omega
    · simp only [String.length, List.length_take]
      omega
  · intro h
    simp [sanitizeName, h]
  · intro h
    simp [sanitizeName, h]
  · intro h hle
    simp only [sanitizeName, h, if_false]
    simp only [String.length] at hle
    rw [List.take_of_length_le hle]

/-- C17 on a blank name and on a padded short name. -/
theorem C17_sanitizeName_witness :
    sanitizeName (some "   ") = "Jugador"
    ∧ sanitizeName (some " Ana ") = jsTrim (stringOrEmpty (some " Ana ")) :=
  ⟨(C17_sanitizeName (some "   ")).2.2.2.1 (by rfl),
    (C17_sanitizeName (some " Ana ")).2.2.2.2.2 (by decide) (by decide)⟩

/-! ## C11: the final standings -/

/-- C11: when `nextQuestion` finds the questions exhausted it returns, the phase is `results`,
the player list of the room is as before, and the standings it emits are a permutation of the
players in descending order of score in which players of equal score keep their join order. -/
theorem C11_final_standings (ref : Nat) (room : Room) (now : Int) (fx : Fx)
    (h : room.currentQuestionIndex + 1 ≥ (QUESTIONS.length : Int)) :
    ∃ r, nextQuestion ref room now fx = some r
      ∧ r.1.state = Phase.results
      ∧ r.1.players = room.players
      ∧ Emit.results room.token (standings room.players) ∈ r.2.emitted
      ∧ (standings room.players).Perm room.players
      ∧ (standings room.players).Pairwise (fun a b => b.score ≤ a.score)
      ∧ ∀ k : Nat, (standings room.players).filter (fun p => decide (p.score = k)) =
          room.players.filter (fun p => decide (p.score = k)) := by
  have hkey : ∀ a b : Player, (b.score : Int) - (a.score : Int) =
      (fun p : Player => -(p.score : Int)) a - (fun p : Player => -(p.score : Int)) b := by
    intro a b
    simp only
    omega
  have hres : nextQuestion ref room now fx = some
      ({ room with
          timeouts := ⟨none, none, none⟩
          currentQuestionIndex := room.currentQuestionIndex + 1
          answers := []
          state := Phase.results
          questionStartTs := none },
        emit (emit (clearRoomTimers room fx).2 (Emit.results room.token (standings room.players)))
          (Emit.roomState room.token (publicRoomState
            { room with
              timeouts := ⟨none, none, none⟩
              currentQuestionIndex := room.currentQuestionIndex + 1
              answers := []
              state := Phase.results
              questionStartTs := none }))) := by
    unfold nextQuestion
    simp only [clearRoomTimers_room, clearRoomTimers_fx, h, if_true]
  refine ⟨_, hres, rfl, rfl, ?_, jsSort_perm _ _, ?_, ?_⟩
  · simp [emit]
  · have := jsSort_pairwise (fun a b : Player => (b.score : Int) - (a.score : Int))
      (fun p : Player => -(p.score : Int)) hkey room.players
    refine this.imp ?_
    intro a b hab
    simp only at hab
    omega
  · intro k
    have := jsSort_filter (fun a b : Player => (b.score : Int) - (a.score : Int))
      (fun p : Player => -(p.score : Int)) hkey (-(k : Int)) room.players
    have hp : (fun p : Player => decide (-(p.score : Int) = -(k : Int))) =
        (fun p : Player => decide (p.score = k)) := by
      funext p
      simp
    rw [hp] at this
    exact this

/-- C11 at the end of the game of the specification: P2 has 20 points and P1 has 10 when the
last pause timer fires, and the standings list P2 before P1. -/
theorem C11_final_standings_witness :
    twoPlayersServer.heap[0]? = some twoPlayersRoom
    ∧ standings twoPlayersRoom.players = [⟨"P2", "Dos", 20⟩, ⟨"P1", "Uno", 10⟩]
    ∧ ∃ r, nextQuestion 0 twoPlayersRoom 35100 twoPlayersServer.fx = some r
      ∧ r.1.state = Phase.results
      ∧ r.1.players = twoPlayersRoom.players
      ∧ Emit.results twoPlayersRoom.token (standings twoPlayersRoom.players) ∈ r.2.emitted
      ∧ (standings twoPlayersRoom.players).Perm twoPlayersRoom.players
      ∧ (standings twoPlayersRoom.players).Pairwise (fun a b => b.score ≤ a.score)
      ∧ ∀ k : Nat, (standings twoPlayersRoom.players).filter (fun p => decide (p.score = k)) =
          twoPlayersRoom.players.filter (fun p => decide (p.score = k)) :=
  ⟨by rfl, by rfl,
    C11_final_standings 0 twoPlayersRoom 35100 twoPlayersServer.fx (by decide)⟩

/-! ## C16: the recorded answer -/

theorem mapGet_mapSet_self {α : Type} (m : List (String × α)) (k : String) (v : α) :
    mapGet (mapSet m k v) k = some v := by
  induction m with
  | nil => simp [mapSet, mapGet]
  | cons e m ih =>
    obtain ⟨k1, v1⟩ := e
    unfold mapSet
    by_cases hk : k1 = k
    · simp [hk, mapGet]
    · simp [hk, mapGet, ih]

/-- The reply of `game:answer` does not depend on the option. -/
theorem onGameAnswer_reply (s : Server) (socketId token : String) (option option1 : Option String)
    (now : Int) :
    (onGameAnswer s socketId token option now).map Prod.snd =
      (onGameAnswer s socketId token option1 now).map Prod.snd := by
  unfold onGameAnswer
  cases hg : getRoom s token with
  | none => rfl
  | some p =>
    obtain ⟨ref, room⟩ := p
    dsimp only
    by_cases h1 : room.state ≠ Phase.in_progress
    · rw [if_pos h1, if_pos h1]
    · rw [if_neg h1, if_neg h1]
      by_cases h2 : (!(room.players.any (fun p => p.id == socketId))) = true
      · rw [if_pos h2, if_pos h2]
      · rw [if_neg h2, if_neg h2]
        by_cases h3 : mapHas room.answers socketId = true
        · rw [if_pos h3, if_pos h3]
        · rw [if_neg h3, if_neg h3]
          unfold recordAnswer
          dsimp only
          cases hq : questionAt room.currentQuestionIndex with
          | none => rfl
          | some q =>
            dsimp only
            by_cases hl : isLate room.questionStartTs now = true
            · rw [if_pos hl, if_pos hl]
            · rw [if_neg hl, if_neg hl]
              rfl

/-- C16: when `game:answer` replies ok, the room holds for the caller the answer whose option is
the submitted option as a string (empty when missing), trimmed and uppercased, whose timestamp is
`now`, and whose `correct` flag is true exactly when that string is the `correct` key of the
question at `currentQuestionIndex`; and any other option would have been accepted too. -/
theorem C16_recorded_answer (s s1 : Server) (socketId token : String) (option : Option String)
    (now : Int) (h : onGameAnswer s socketId token option now = some (s1, Reply.ok)) :
    ∃ ref room q a, getRoom s token = some (ref, room)
      ∧ questionAt room.currentQuestionIndex = some q
      ∧ getRoom s1 token = some (ref, { room with answers := mapSet room.answers socketId a })
      ∧ mapGet (mapSet room.answers socketId a) socketId = some a
      ∧ a.option = jsToUpperCase (jsTrim (stringOrEmpty option))
      ∧ a.ts = now
      ∧ (a.correct = true ↔ jsToUpperCase (jsTrim (stringOrEmpty option)) = q.correct)
      ∧ ∀ option1, (onGameAnswer s socketId token option1 now).map Prod.snd = some Reply.ok := by
  have hrep : ∀ option1, (onGameAnswer s socketId token option1 now).map Prod.snd =
      some Reply.ok := by
    intro option1
    rw [onGameAnswer_reply s socketId token option1 option now, h]
    rfl
  unfold onGameAnswer at h
  split at h
  · simp at h
  · rename_i ref room hget
    split at h
    · simp at h
    · split at h
      · simp at h
      · split at h
        · simp at h
        · split at h
          · simp at h
          · rename_i r hr
            unfold recordAnswer at hr
            dsimp only at hr
            split at hr
            · simp at hr
            · rename_i q hq
              split at hr
              · simp only [Option.some.injEq] at hr
                subst hr
                simp at h
              · simp only [Option.some.injEq] at hr
                subst hr
                simp only [Option.some.injEq, Prod.mk.injEq, and_true] at h
                subst h
                exact ⟨ref, room, q, _, hget, hq, getRoom_putRoom hget _ _,
                  mapGet_mapSet_self _ _ _, rfl, rfl, by simp, hrep⟩

/-- C16 at the state of `firstQuestionRun`: B answers " zzz " at 6 s; the answer is accepted and
recorded as "ZZZ", incorrect. -/
theorem C16_recorded_answer_witness :
    ∃ ref room q a, getRoom firstQuestionServer "ROOM01" = some (ref, room)
      ∧ questionAt room.currentQuestionIndex = some q
      ∧ getRoom (putRoom firstQuestionServer 0
            { firstQuestionRoom with
              answers := firstQuestionRoom.answers ++ [("B", ⟨"ZZZ", 6000, false⟩)] }
            (emit firstQuestionServer.fx (Emit.answerAck "B"))) "ROOM01" =
          some (ref, { room with answers := mapSet room.answers "B" a })
      ∧ mapGet (mapSet room.answers "B" a) "B" = some a
      ∧ a.option = jsToUpperCase (jsTrim (stringOrEmpty (some " zzz ")))
      ∧ a.ts = 6000
      ∧ (a.correct = true ↔ jsToUpperCase (jsTrim (stringOrEmpty (some " zzz "))) = q.correct)
      ∧ ∀ option1,
          (onGameAnswer firstQuestionServer "B" "ROOM01" option1 6000).map Prod.snd =
            some Reply.ok :=
  C16_recorded_answer firstQuestionServer
    (putRoom firstQuestionServer 0
      { firstQuestionRoom with
        answers := firstQuestionRoom.answers ++ [("B", ⟨"ZZZ", 6000, false⟩)] }
      (emit firstQuestionServer.fx (Emit.answerAck "B")))
    "B" "ROOM01" (some " zzz ") 6000 (by rfl)

/-! ## C19: the manager is never alone without players -/

/-- C19: in a reachable state, a room whose manager is the caller has at least one player, so
`game:start` replies ok or one of "Sala no existe", "Solo el Manager puede iniciar" and
"El juego ya inició", never "Se requiere al menos 1 jugador". -/
theorem C19_insufficient_players_unreachable (clock : Int) (s : Server)
    (socketId token : String) (now : Int) (hreach : Reachable clock s) :
    (∀ ref room, getRoom s token = some (ref, room) → room.managerId = some socketId →
      MIN_PLAYERS_TO_START ≤ room.players.length)
    ∧ ∃ s1 rep, onGameStart s socketId token now = some (s1, rep)
      ∧ rep ≠ Reply.fail (some "Se requiere al menos 1 jugador")
      ∧ (rep = Reply.ok ∨ rep = Reply.fail (some "Sala no existe")
        ∨ rep = Reply.fail (some "Solo el Manager puede iniciar")
        ∨ rep = Reply.fail (some "El juego ya inició")) := by
  have hlen : ∀ ref room, getRoom s token = some (ref, room) →
      room.managerId = some socketId → MIN_PLAYERS_TO_START ≤ room.players.length := by
    intro ref room hget hm
    have hok := hreach.inv.roomOk (getRoom_heap hget).2
    have hmem := hok.manager_mem socketId hm
    simp only [Room.ids, List.mem_map] at hmem
    obtain ⟨p, hp, _⟩ := hmem
    have := List.length_pos_of_mem hp
    simp only [MIN_PLAYERS_TO_START]
    omega
  refine ⟨hlen, ?_⟩
  unfold onGameStart
  split
  · exact ⟨_, _, rfl, by decide, Or.inr (Or.inl rfl)⟩
  · rename_i ref room hget
    split
    · exact ⟨_, _, rfl, by decide, Or.inr (Or.inr (Or.inl rfl))⟩
    · rename_i hm
      split
      · exact ⟨_, _, rfl, by decide, Or.inr (Or.inr (Or.inr rfl))⟩
      · split
        · rename_i hlt
          have := hlen ref room hget (by simpa using hm)
          omega
        · obtain ⟨fx1, hstart, _⟩ := startRoom_eq ref room token now s.fx
          simp only [startGame, hget, hstart]
          exact ⟨_, _, rfl, by decide, Or.inl rfl⟩

/-- C19 at the state of `lobbyRun`, for the manager A. -/
theorem C19_insufficient_players_unreachable_witness :
    MIN_PLAYERS_TO_START ≤ lobbyRoom.players.length
    ∧ ∃ s1 rep, onGameStart lobbyServer "A" "ROOM01" 2000 = some (s1, rep)
      ∧ rep ≠ Reply.fail (some "Se requiere al menos 1 jugador")
      ∧ (rep = Reply.ok ∨ rep = Reply.fail (some "Sala no existe")
        ∨ rep = Reply.fail (some "Solo el Manager puede iniciar")
        ∨ rep = Reply.fail (some "El juego ya inició")) :=
  ⟨(C19_insufficient_players_unreachable 1000 lobbyServer "A" "ROOM01" 2000
      lobbyServer_reachable).1 0 lobbyRoom (by rfl) (by rfl),
    (C19_insufficient_players_unreachable 1000 lobbyServer "A" "ROOM01" 2000
      lobbyServer_reachable).2⟩

/-! ## C12: creating a room -/

theorem getRoom_alloc (s : Server) (token : String) (room : Room) :
    getRoom { s with heap := s.heap ++ [room], rooms := mapSet s.rooms token s.heap.length }
      token = some (s.heap.length, room) := by
  simp [getRoom, mapGet_mapSet_self]

/-- The players, the manager and the untouched fields of a room after `joinRoom` has admitted a
connection. -/
theorem admitPlayer_fields (ref : Nat) (room : Room) (socketId token : String)
    (name : Option String) (now : Int) (fx : Fx) :
    ∃ ts c, (admitPlayer ref room socketId token name now fx).1 =
      { room with
        players := room.players ++ [{ id := socketId, name := sanitizeName name, score := 0 }]
        managerId := if truthyId room.managerId then room.managerId else some socketId
        timeouts := ts
        createdAt := c } := by
  obtain ⟨ts, c, he⟩ := ensureWaitingExpiry_room ref
    { room with
      players := room.players ++ [{ id := socketId, name := sanitizeName name, score := 0 }]
      managerId := if truthyId room.managerId then room.managerId else some socketId
      timeouts := { room.timeouts with cleanup := none } } now
    { fx with timers := dropHandle room.timeouts.cleanup fx.timers }
  exact ⟨ts, c, by rw [admitPlayer_room, he]⟩

/-- C12, as the code has it: `room:create` makes no check of the token and never fails.  It
stores a new room (phase `waiting`, no players, no manager, index -1, no start timestamp, no
answers) under the token and joins the creator, who is then its only player and its manager;
for a token that is not in the registry, the registry gains this one entry, at its end, and
every room object that existed is unchanged. -/
theorem C12_create (s : Server) (socketId : String) (name : Option String) (token : String)
    (now : Int) :
    createRoom token now =
        { token := token, players := [], managerId := none, state := Phase.waiting,
          currentQuestionIndex := -1, questionStartTs := none, answers := [],
          timeouts := ⟨none, none, none⟩, createdAt := now }
    ∧ (onRoomCreate s socketId name token now).2 =
        Reply.joined token true { id := socketId, name := sanitizeName name, score := 0 }
    ∧ (∃ room1, getRoom (onRoomCreate s socketId name token now).1 token =
          some (s.heap.length, room1)
        ∧ room1.players = [{ id := socketId, name := sanitizeName name, score := 0 }]
        ∧ room1.managerId = some socketId
        ∧ room1.state = Phase.waiting
        ∧ room1.currentQuestionIndex = -1
        ∧ room1.questionStartTs = none
        ∧ room1.answers = [])
    ∧ (mapHas s.rooms token = false →
        (onRoomCreate s socketId name token now).1.rooms = s.rooms ++ [(token, s.heap.length)]
        ∧ ∀ (ref : Nat) (room : Room), s.heap[ref]? = some room →
            (onRoomCreate s socketId name token now).1.heap[ref]? = some room) := by
  have hget := getRoom_alloc s token (createRoom token now)
  obtain ⟨ts, c, hf⟩ := admitPlayer_fields s.heap.length (createRoom token now) socketId token
    name now s.fx
  have hres : onRoomCreate s socketId name token now =
      (putRoom { s with heap := s.heap ++ [createRoom token now],
                        rooms := mapSet s.rooms token s.heap.length } s.heap.length
          (admitPlayer s.heap.length (createRoom token now) socketId token name now s.fx).1
          (admitPlayer s.heap.length (createRoom token now) socketId token name now s.fx).2,
        Reply.joined token
          ((admitPlayer s.heap.length (createRoom token now) socketId token name now
            s.fx).1.managerId == some socketId)
          { id := socketId, name := sanitizeName name, score := 0 }) := by
    unfold onRoomCreate joinRoom
    dsimp only
    rw [hget]
    simp [createRoom, MAX_PLAYERS]
  refine ⟨rfl, ?_, ?_, ?_⟩
  · rw [hres, hf]
    simp [createRoom, truthyId]
  · refine ⟨_, by rw [hres]; exact getRoom_putRoom hget _ _, ?_⟩
    rw [hf]
    simp [createRoom, truthyId]
  · intro hfresh
    rw [hres]
    refine ⟨by simp [putRoom, mapSet_fresh _ _ _ hfresh], ?_⟩
    intro ref room hr
    have hlt : ref < s.heap.length := (List.getElem?_eq_some.mp hr).1
    simp only [putRoom]
    rw [List.getElem?_set_ne (by omega), List.getElem?_append_left hlt]
    exact hr

/-- C12 fails on the code: in the state of `lobbyRun` the token `ROOM01` names the room of A;
a `room:create` that draws the same token succeeds, and the registry then holds under `ROOM01`
a new room whose only player is the newcomer. -/
theorem C12_create_replaces_room :
    mapHas lobbyServer.rooms "ROOM01" = true
    ∧ roomOf lobbyServer "ROOM01" = some lobbyRoom
    ∧ (onRoomCreate lobbyServer "Z" none "ROOM01" 5000).2 =
        Reply.joined "ROOM01" true ⟨"Z", "Jugador", 0⟩
    ∧ (roomOf (onRoomCreate lobbyServer "Z" none "ROOM01" 5000).1 "ROOM01").map
        (fun r => (r.players, r.managerId, r.createdAt)) =
        some ([⟨"Z", "Jugador", 0⟩], some "Z", 5000) := by
  refine ⟨?_, ?_, ?_, ?_⟩ <;> rfl

/-- C12 at the state of `lobbyRun`: Z creates a room under the fresh token `ROOM02`; the registry
gains the entry and the room of A is as before. -/
theorem C12_create_witness :
    (onRoomCreate lobbyServer "Z" none "ROOM02" 5000).1.rooms =
        lobbyServer.rooms ++ [("ROOM02", lobbyServer.heap.length)]
    ∧ (onRoomCreate lobbyServer "Z" none "ROOM02" 5000).1.heap[0]? = some lobbyRoom :=
  ⟨((C12_create lobbyServer "Z" none "ROOM02" 5000).2.2.2 (by rfl)).1,
    ((C12_create lobbyServer "Z" none "ROOM02" 5000).2.2.2 (by rfl)).2 0 lobbyRoom (by rfl)⟩

/-! ## C13: the pause timer after a restart -/

/-- C13 fails on the code: in `restartDuringPauseRun` the room is, after the restart at 18 s, in
phase `waiting` with index -1, no start timestamp, no question handle and its waiting-expiry
handle set; the pause timer of `endQuestion` is still pending, and when it fires at 18.55 s
`nextQuestion` runs without looking at the phase: the room, still `waiting`, is at question 0
with start timestamp 18550 and a question timer, and has lost its waiting-expiry timer. -/
theorem C13_stale_pause_timer_runs_nextQuestion :
    (run Server.start 0 (restartDuringPauseRun.take 4)).map (fun s =>
        ((roomOf s "ROOM01").map (fun r =>
            (r.state, r.currentQuestionIndex, r.questionStartTs, r.timeouts)),
          s.fx.timers)) =
      some (some (Phase.waiting, -1, none, ⟨none, none, some 4⟩),
        [⟨3, 18550, Callback.advance 0⟩, ⟨4, 1218000, Callback.waitingExpiry 0⟩])
    ∧ (run Server.start 0 restartDuringPauseRun).map (fun s =>
        ((roomOf s "ROOM01").map (fun r =>
            (r.state, r.currentQuestionIndex, r.questionStartTs, r.timeouts)),
          s.fx.timers)) =
      some (some (Phase.waiting, 0, some 18550, ⟨some 5, none, none⟩),
        [⟨5, 33600, Callback.endQuestion 0⟩]) := by
  refine ⟨?_, ?_⟩ <;> rfl

/-! ## C20: distinct player ids -/

theorem forall_mem_set {α : Type} {P : α → Prop} {l : List α} (h : ∀ a ∈ l, P a) (i : Nat)
    {b : α} (hb : P b) : ∀ a ∈ l.set i b, P a := by
  intro a ha
  rcases List.mem_or_eq_of_mem_set ha with ha | ha
  · exact h a ha
  · exact ha ▸ hb

theorem nextQuestion_fields {ref : Nat} {room : Room} {now : Int} {fx : Fx} {r : Room × Fx}
    (hr : nextQuestion ref room now fx = some r) :
    r.1.players = room.players ∧ r.1.managerId = room.managerId ∧ r.1.token = room.token := by
  unfold nextQuestion at hr
  simp only [clearRoomTimers_room, clearRoomTimers_fx] at hr
  split at hr
  · simp only [Option.some.injEq] at hr
    subst hr
    exact ⟨rfl, rfl, rfl⟩
  · split at hr
    · simp at hr
    · simp only [Option.some.injEq] at hr
      subst hr
      exact ⟨rfl, rfl, rfl⟩

theorem endQuestion_room {ref : Nat} {room : Room} {now : Int} {fx : Fx} {r : Room × Fx}
    (hr : endQuestion ref room now fx = some r) :
    r.1 = { room with players := applyAwards 0 (correctAnswers room.answers) room.players } := by
  unfold endQuestion at hr
  split at hr
  · simp at hr
  · simp only [Option.some.injEq] at hr
    subst hr
    rfl

theorem recordAnswer_fields {room : Room} {socketId : String} {option : Option String}
    {now : Int} {fx : Fx} {r : Room × Fx × Reply}
    (hr : recordAnswer room socketId option now fx = some r) :
    r.1.players = room.players ∧ r.1.currentQuestionIndex = room.currentQuestionIndex
      ∧ r.1.questionStartTs = room.questionStartTs := by
  unfold recordAnswer at hr
  dsimp only at hr
  split at hr
  · simp at hr
  · split at hr
    · simp only [Option.some.injEq] at hr
      subst hr
      exact ⟨rfl, rfl, rfl⟩
    · simp only [Option.some.injEq] at hr
      subst hr
      exact ⟨rfl, rfl, rfl⟩

theorem resetToWaiting_fields (ref : Nat) (room : Room) (now : Int) (fx : Fx) :
    (resetToWaiting ref room now fx).1.ids = room.ids
      ∧ (resetToWaiting ref room now fx).1.currentQuestionIndex = -1
      ∧ (resetToWaiting ref room now fx).1.questionStartTs = none
      ∧ (resetToWaiting ref room now fx).1.state = Phase.waiting := by
  obtain ⟨ts, c, he⟩ := ensureWaitingExpiry_room ref
    { room with
      state := Phase.waiting
      currentQuestionIndex := -1
      questionStartTs := none
      answers := []
      players := room.players.map (fun p => { p with score := 0 })
      createdAt := now
      timeouts := ⟨none, none, none⟩ } now (clearRoomTimers room fx).2
  rw [resetToWaiting_room, he]
  exact ⟨by simp [Room.ids, Function.comp_def], rfl, rfl, rfl⟩

theorem startRoom_ids {ref : Nat} {room : Room} {token : String} {now : Int} {fx : Fx}
    {r : Room × Fx} (hr : startRoom ref room token now fx = some r) : r.1.ids = room.ids := by
  obtain ⟨fx1, h1, _⟩ := startRoom_eq ref room token now fx
  rw [h1] at hr
  simp only [Option.some.injEq] at hr
  subst hr
  simp [Room.ids, Function.comp_def]

/-- One reaction other than a repeated join keeps the player ids of every room distinct. -/
theorem step_ids_nodup {s s1 : Server} {now : Int} {i : Input}
    (hn : noRejoin s i = true) (hs : step s now i = some s1)
    (h : ∀ room ∈ s.heap, room.ids.Nodup) : ∀ room ∈ s1.heap, room.ids.Nodup := by
  have hjoin : ∀ (s : Server) (socketId token : String) (name : Option String),
      (∀ room ∈ s.heap, room.ids.Nodup) →
      (∀ ref room, getRoom s token = some (ref, room) →
        room.players.any (fun p => p.id == socketId) = false) →
      ∀ room ∈ (joinRoom s socketId token name now).1.heap, room.ids.Nodup := by
    intro s socketId token name h hfresh
    unfold joinRoom
    split
    · exact h
    · rename_i ref room hget
      split
      · exact h
      · split
        · exact h
        · apply forall_mem_set h
          obtain ⟨ts, c, hf⟩ := admitPlayer_fields ref room socketId token name now s.fx
          rw [hf]
          have hnd := h room (List.getElem?_mem (getRoom_heap hget).2)
          have hnot := hfresh ref room hget
          simp only [Room.ids, List.map_append, List.map_cons, List.map_nil] at hnd ⊢
          refine List.Nodup.append hnd (by simp) ?_
          intro x hx hx2
          simp only [List.mem_singleton] at hx2
          subst hx2
          simp only [List.any_eq_false, beq_iff_eq] at hnot
          obtain ⟨p, hp, hpx⟩ := List.mem_map.mp hx
          exact hnot p hp hpx
  cases i with
  | roomCreate socketId name token =>
    simp only [step, Option.some.injEq] at hs
    subst hs
    unfold onRoomCreate
    apply hjoin
    · intro room hroom
      simp only [List.mem_append, List.mem_singleton] at hroom
      rcases hroom with hroom | hroom
      · exact h room hroom
      · subst hroom
        simp [createRoom, Room.ids]
    · intro ref room hget
      rw [getRoom_alloc] at hget
      simp only [Option.some.injEq, Prod.mk.injEq] at hget
      rw [← hget.2]
      simp [createRoom]
  | roomJoin socketId token name =>
    simp only [step, Option.some.injEq] at hs
    subst hs
    unfold onRoomJoin
    apply hjoin _ _ _ _ h
    intro ref room hget
    simp only [noRejoin, hget, Bool.not_eq_true'] at hn
    exact hn
  | gameStart socketId token =>
    simp only [step, Option.map_eq_some', Prod.exists, exists_and_right, exists_eq_right] at hs
    obtain ⟨rep, hrep⟩ := hs
    unfold onGameStart at hrep
    split at hrep
    · simp only [Option.some.injEq, Prod.mk.injEq] at hrep
      exact hrep.1 ▸ h
    · rename_i ref room hget
      split at hrep
      · simp only [Option.some.injEq, Prod.mk.injEq] at hrep
        exact hrep.1 ▸ h
      · split at hrep
        · simp only [Option.some.injEq, Prod.mk.injEq] at hrep
          exact hrep.1 ▸ h
        · split at hrep
          · simp only [Option.some.injEq, Prod.mk.injEq] at hrep
            exact hrep.1 ▸ h
          · unfold startGame at hrep
            rw [hget] at hrep
            dsimp only at hrep
            split at hrep
            · simp at hrep
            · rename_i s2 hs2
              split at hs2
              · simp at hs2
              · rename_i r hr
                simp only [Option.some.injEq, Prod.mk.injEq] at hrep hs2
                rw [← hrep.1, ← hs2]
                apply forall_mem_set h
                rw [startRoom_ids hr]
                exact h room (List.getElem?_mem (getRoom_heap hget).2)
  | gameAnswer socketId token option =>
    simp only [step, Option.map_eq_some', Prod.exists, exists_and_right, exists_eq_right] at hs
    obtain ⟨rep, hrep⟩ := hs
    unfold onGameAnswer at hrep
    split at hrep
    · simp only [Option.some.injEq, Prod.mk.injEq] at hrep
      exact hrep.1 ▸ h
    · rename_i ref room hget
      split at hrep
      · simp only [Option.some.injEq, Prod.mk.injEq] at hrep
        exact hrep.1 ▸ h
      · split at hrep
        · simp only [Option.some.injEq, Prod.mk.injEq] at hrep
          exact hrep.1 ▸ h
        · split at hrep
          · simp only [Option.some.injEq, Prod.mk.injEq] at hrep
            exact hrep.1 ▸ h
          · split at hrep
            · simp at hrep
            · rename_i r hr
              simp only [Option.some.injEq, Prod.mk.injEq] at hrep
              rw [← hrep.1]
              apply forall_mem_set h
              simp only [Room.ids, (recordAnswer_fields hr).1]
              exact h room (List.getElem?_mem (getRoom_heap hget).2)
  | gameRestart socketId token =>
    simp only [step, Option.some.injEq] at hs
    subst hs
    unfold onGameRestart
    split
    · exact h
    · rename_i ref room hget
      split
      · exact h
      · apply forall_mem_set h
        rw [(resetToWaiting_fields ref room now s.fx).1]
        exact h room (List.getElem?_mem (getRoom_heap hget).2)
  | disconnect socketId =>
    simp only [step, Option.some.injEq] at hs
    subst hs
    unfold onDisconnect
    clear hn
    generalize s.rooms = entries
    induction entries generalizing s with
    | nil => exact h
    | cons e rest ih =>
      obtain ⟨token, ref⟩ := e
      unfold disconnectLoop
      split
      · exact ih h
      · rename_i room hheap
        apply ih
        apply forall_mem_set h
        obtain ⟨ts, hts⟩ := disconnectRoom_room socketId now token ref room s.fx
        rw [hts]
        simp only [Room.ids, filter_ids]
        exact (h room (List.getElem?_mem hheap)).filter _
  | timer hd =>
    simp only [step, fireTimer] at hs
    split at hs
    · simp at hs
    · rename_i t ht
      cases hcb : t.callback with
      | cleanup ref token =>
        simp only [hcb, runCallback] at hs
        split at hs
        · simp only [Option.some.injEq] at hs
          exact hs ▸ h
        · rename_i room hheap
          simp only [Option.some.injEq] at hs
          subst hs
          apply forall_mem_set h
          rw [clearRoomTimers_room]
          exact h room (List.getElem?_mem hheap)
      | endQuestion ref =>
        simp only [hcb, runCallback] at hs
        split at hs
        · simp only [Option.some.injEq] at hs
          exact hs ▸ h
        · rename_i room hheap
          split at hs
          · simp at hs
          · rename_i r hr
            simp only [Option.some.injEq] at hs
            subst hs
            apply forall_mem_set h
            rw [endQuestion_room hr]
            simp only [Room.ids, applyAwards_ids]
            exact h room (List.getElem?_mem hheap)
      | advance ref =>
        simp only [hcb, runCallback] at hs
        split at hs
        · simp only [Option.some.injEq] at hs
          exact hs ▸ h
        · rename_i room hheap
          split at hs
          · simp at hs
          · rename_i r hr
            simp only [Option.some.injEq] at hs
            subst hs
            apply forall_mem_set h
            simp only [Room.ids, (nextQuestion_fields hr).1]
            exact h room (List.getElem?_mem hheap)
      | waitingExpiry ref =>
        simp only [hcb, runCallback] at hs
        split at hs
        · simp only [Option.some.injEq] at hs
          exact hs ▸ h
        · rename_i room hheap
          split at hs
          · simp only [Option.some.injEq] at hs
            subst hs
            apply forall_mem_set h
            rw [clearRoomTimers_room]
            exact h room (List.getElem?_mem hheap)
          · simp only [Option.some.injEq] at hs
            exact hs ▸ h

theorem ReachableNoRejoin.ids_nodup {clock : Int} {s : Server} (h : ReachableNoRejoin clock s) :
    ∀ room ∈ s.heap, room.ids.Nodup := by
  induction h with
  | start =>
    intro room hroom
    simp [Server.start] at hroom
  | step now i s1 _ _ hn hs ih => exact step_ids_nodup hn hs ih

theorem runNoRejoin_reachable {clock : Int} {s s1 : Server} (tr : List (Int × Input))
    (h : ReachableNoRejoin clock s) (hr : runNoRejoin s clock tr = some s1) :
    ReachableNoRejoin (endClock clock tr) s1 := by
  induction tr generalizing clock s with
  | nil =>
    simp only [runNoRejoin, Option.some.injEq] at hr
    exact hr ▸ h
  | cons e rest ih =>
    obtain ⟨now, i⟩ := e
    simp only [runNoRejoin] at hr
    split at hr
    · rename_i ha
      simp only [Bool.and_eq_true] at ha
      split at hr
      · simp at hr
      · rename_i s2 hs2
        exact ih (ReachableNoRejoin.step now i s2 h ha.1 ha.2 hs2) hr
    · simp at hr

/-- C20, as the code has it: in every state reached without a `room:join` by a connection that
is already a player of the room it joins, the players of a registered room have pairwise
distinct ids. -/
theorem C20_distinct_ids_without_rejoin (clock : Int) (s : Server) (token : String)
    (room : Room) (h : ReachableNoRejoin clock s) (hroom : roomOf s token = some room) :
    room.ids.Nodup ∧ room.players.Pairwise (fun p q => p.id ≠ q.id) := by
  obtain ⟨ref, hget⟩ := roomOf_eq_some hroom
  have hnd := h.ids_nodup room (List.getElem?_mem (getRoom_heap hget).2)
  refine ⟨hnd, ?_⟩
  simp only [Room.ids, List.Nodup, List.pairwise_map] at hnd
  exact hnd

/-- C20 at the state of `firstQuestionRun`, in which A and B joined once each. -/
theorem C20_distinct_ids_without_rejoin_witness :
    firstQuestionRoom.ids.Nodup
    ∧ firstQuestionRoom.players.Pairwise (fun p q => p.id ≠ q.id) :=
  C20_distinct_ids_without_rejoin 5000 firstQuestionServer "ROOM01" firstQuestionRoom
    (runNoRejoin_reachable firstQuestionRun ReachableNoRejoin.start (by rfl)) (by rfl)

/-- C20 fails on the code: `joinRoom` does not look for the caller among the players.  After
`rejoinRun`, in which A sends `room:join` for the room it created, the room holds two players
with id "A". -/
theorem C20_rejoin_duplicates_player :
    ¬ (∀ (clock : Int) (s : Server) (token : String) (room : Room),
        Reachable clock s → roomOf s token = some room → room.ids.Nodup) := by
  intro h
  have hr : Reachable 1500 ((run Server.start 0 rejoinRun).getD Server.start) :=
    run_reachable rejoinRun Reachable.start (by rfl)
  have hroom : roomOf ((run Server.start 0 rejoinRun).getD Server.start) "ROOM01" = some
      { token := "ROOM01"
        players := [⟨"A", "Ana", 0⟩, ⟨"A", "Ana", 0⟩]
        managerId := some "A"
        state := Phase.waiting
        currentQuestionIndex := -1
        questionStartTs := none
        answers := []
        timeouts := ⟨none, none, some 1⟩
        createdAt := 1000 } := by rfl
  have := h 1500 _ "ROOM01" _ hr hroom
  revert this
  decide

/-! ## C14: what `endQuestion` changes -/

theorem addScore_getElem? (id : String) (pts : Nat) (ps : List Player)
    (hnd : (ps.map (fun p => p.id)).Nodup) (j : Nat) (p : Player) (hp : ps[j]? = some p) :
    (addScore id pts ps)[j]? =
      some (if p.id = id then { p with score := p.score + pts } else p) := by
  induction ps generalizing j with
  | nil => simp at hp
  | cons p0 ps ih =>
    simp only [List.map_cons, List.nodup_cons] at hnd
    unfold addScore
    cases j with
    | zero =>
      simp only [List.getElem?_cons_zero, Option.some.injEq] at hp
      subst hp
      by_cases h0 : p0.id = id
      · simp [h0]
      · simp [h0]
    | succ j =>
      simp only [List.getElem?_cons_succ] at hp
      by_cases h0 : p0.id = id
      · have hne : p.id ≠ id := by
          intro hpid
          apply hnd.1
          rw [h0, ← hpid]
          exact List.mem_map.mpr ⟨p, List.getElem?_mem hp, rfl⟩
        simp [h0, hne, hp]
      · simp only [h0, if_false, List.getElem?_cons_succ]
        exact ih hnd.2 j hp

/-- The player at each position after the awards of the entries `l`, ranked from `idx`. -/
theorem applyAwards_getElem? (l : List CorrectAnswer) (idx : Nat) (ps : List Player)
    (hl : (l.map (fun e => e.playerId)).Nodup) (hnd : (ps.map (fun p => p.id)).Nodup)
    (j : Nat) (p : Player) (hp : ps[j]? = some p) :
    ∃ p1, (applyAwards idx l ps)[j]? = some p1 ∧ p1.id = p.id ∧ p1.name = p.name
      ∧ (∀ i e, l[i]? = some e → e.playerId = p.id → p1.score = p.score + award (idx + i))
      ∧ ((∀ e ∈ l, e.playerId ≠ p.id) → p1.score = p.score) := by
  induction l generalizing idx ps p with
  | nil =>
    refine ⟨p, hp, rfl, rfl, ?_, fun _ => rfl⟩
    intro i e he
    simp at he
  | cons e0 rest ih =>
    simp only [List.map_cons, List.nodup_cons] at hl
    unfold applyAwards
    have hnd1 : ((addScore e0.playerId (award idx) ps).map (fun p => p.id)).Nodup := by
      rw [addScore_ids]
      exact hnd
    have hp1 := addScore_getElem? e0.playerId (award idx) ps hnd j p hp
    obtain ⟨p1, h1, hid, hname, ha, hb⟩ := ih (idx + 1) _ hl.2 hnd1 _ hp1
    by_cases h0 : p.id = e0.playerId
    · simp only [h0, if_true] at hid hname ha hb
      refine ⟨p1, h1, by rw [hid, h0], hname, ?_, ?_⟩
      · intro i e he hep
        cases i with
        | zero =>
          have hrest : ∀ e ∈ rest, e.playerId ≠ e0.playerId := by
            intro e1 he1 heq
            apply hl.1
            rw [← heq]
            exact List.mem_map.mpr ⟨e1, he1, rfl⟩
          simpa using hb hrest
        | succ i =>
          simp only [List.getElem?_cons_succ] at he
          exfalso
          apply hl.1
          rw [← h0, ← hep]
          exact List.mem_map.mpr ⟨e, List.getElem?_mem he, rfl⟩
      · intro hall
        exact absurd h0.symm (hall e0 (List.mem_cons_self _ _))
    · simp only [h0, if_false] at hid hname ha hb
      refine ⟨p1, h1, hid, hname, ?_, ?_⟩
      · intro i e he hep
        cases i with
        | zero =>
          simp only [List.getElem?_cons_zero, Option.some.injEq] at he
          subst he
          exact absurd hep.symm h0
        | succ i =>
          simp only [List.getElem?_cons_succ] at he
          rw [ha i e he hep]
          congr 2
          omega
      · intro hall
        exact hb (fun e he => hall e (List.mem_cons_of_mem _ he))

theorem collectCorrect_ids_sublist (answers : List (String × Answer)) :
    ((collectCorrect answers).map (fun e => e.playerId)).Sublist (answers.map Prod.fst) := by
  induction answers with
  | nil => exact List.Sublist.refl _
  | cons e rest ih =>
    obtain ⟨k, a⟩ := e
    unfold collectCorrect
    split
    · exact ih.cons₂ _
    · exact ih.cons _

theorem correctAnswers_ids_nodup (answers : List (String × Answer))
    (h : (answers.map Prod.fst).Nodup) :
    ((correctAnswers answers).map (fun e => e.playerId)).Nodup := by
  have h1 : ((collectCorrect answers).map (fun e => e.playerId)).Nodup :=
    (collectCorrect_ids_sublist answers).nodup h
  exact ((jsSort_perm _ (collectCorrect answers)).map _).nodup_iff.mpr h1

theorem mem_correctAnswers {answers : List (String × Answer)} {e : CorrectAnswer}
    (h : e ∈ correctAnswers answers) :
    ∃ a, (e.playerId, a) ∈ answers ∧ a.correct = true ∧ a.ts = e.ts := by
  have h1 : e ∈ collectCorrect answers := (jsSort_perm _ _).mem_iff.mp h
  rw [collectCorrect_eq] at h1
  obtain ⟨x, hx, hxe⟩ := List.mem_map.mp h1
  obtain ⟨hmem, hc⟩ := List.mem_filter.mp hx
  subst hxe
  exact ⟨x.2, hmem, hc, rfl⟩

/-- C14: for a room whose players have pairwise distinct ids (and whose answers map has one entry
per key), `endQuestion` returns when the question exists; it changes nothing of the room but the
scores; the player at each position keeps id and name, gains `award i` when the entry at rank
`i` of the sorted correct answers is theirs, and keeps the score when every answer of theirs is
incorrect or there is none.  The ranks are those of `correctAnswers room.answers`, in which the
players of the room play no part, and the list emitted is `scored room.answers`. -/
theorem C14_endQuestion_scores (ref : Nat) (room : Room) (now : Int) (fx : Fx) (q : Question)
    (hids : room.ids.Nodup) (hkeys : (room.answers.map Prod.fst).Nodup)
    (hq : questionAt room.currentQuestionIndex = some q) :
    ∃ r, endQuestion ref room now fx = some r
      ∧ r.1 = { room with players := r.1.players }
      ∧ r.1.players.length = room.players.length
      ∧ (∀ (j : Nat) (p : Player), room.players[j]? = some p →
          ∃ p1, r.1.players[j]? = some p1 ∧ p1.id = p.id ∧ p1.name = p.name
            ∧ (∀ i e, (correctAnswers room.answers)[i]? = some e → e.playerId = p.id →
                p1.score = p.score + award i)
            ∧ ((∀ a, (p.id, a) ∈ room.answers → a.correct = false) → p1.score = p.score))
      ∧ (∀ i : Nat, (scored room.answers)[i]? =
          ((correctAnswers room.answers)[i]?).map (fun e => ⟨e.playerId, award i⟩))
      ∧ Emit.questionEnd room.token room.currentQuestionIndex q.correct (scored room.answers) ∈
          r.2.emitted := by
  have hres : endQuestion ref room now fx = some
      ({ room with players := applyAwards 0 (correctAnswers room.answers) room.players },
        (setTimeout (emit fx (Emit.questionEnd room.token room.currentQuestionIndex q.correct
          (scoredFrom 0 (correctAnswers room.answers)))) (Callback.advance ref) 1500 now).2) := by
    unfold endQuestion
    simp only [hq]
  refine ⟨_, hres, rfl, ?_, ?_, ?_, ?_⟩
  · have := congrArg List.length (applyAwards_ids 0 (correctAnswers room.answers) room.players)
    simpa using this
  · intro j p hp
    obtain ⟨p1, h1, hid, hname, ha, hb⟩ := applyAwards_getElem? (correctAnswers room.answers) 0
      room.players (correctAnswers_ids_nodup _ hkeys) hids j p hp
    refine ⟨p1, h1, hid, hname, ?_, ?_⟩
    · intro i e he hep
      simpa using ha i e he hep
    · intro hall
      apply hb
      intro e he hep
      obtain ⟨a, hmem, hc, _⟩ := mem_correctAnswers he
      rw [hep] at hmem
      have := hall a hmem
      rw [hc] at this
      exact absurd this (by decide)
  · intro i
    unfold scored
    rw [scoredFrom_getElem?]
    simp
  · simp [setTimeout, emit, scored]

/-- C14 at the state of `departedRun`: P2, who has left, takes rank 0; P1 gets the 10 points of
rank 1; P3, whose answer was wrong, keeps 0. -/
theorem C14_endQuestion_scores_witness :
    departedServer.heap[0]? = some departedRoom
    ∧ scored departedRoom.answers = [⟨"P2", 20⟩, ⟨"P1", 10⟩]
    ∧ ∃ r, endQuestion 0 departedRoom 17050 departedServer.fx = some r
      ∧ r.1.players = [⟨"P1", "Uno", 10⟩, ⟨"P3", "Tres", 0⟩]
      ∧ r.1 = { departedRoom with players := r.1.players } := by
  obtain ⟨r, hr, hframe, _, _, _, _⟩ := C14_endQuestion_scores 0 departedRoom 17050
    departedServer.fx
    ⟨1, "¿Qué producto de Control de Miopía tiene el estudio más largo realizado en niños?",
      ["A) Lente Oftálmica", "B) MiSight 1 day", "C) Lentilla Multifocal", "D) Orto-K"], "B"⟩
    (by decide) (by decide) (by rfl)
  refine ⟨by rfl, by rfl, r, hr, ?_, hframe⟩
  have hplayers := endQuestion_room hr
  rw [hplayers]
  rfl

/-! ## C18: the lookups in the question bank -/

theorem QuestionTimersOk.local {s : Server} (h : QuestionTimersOk s) {ref : Nat} {room : Room}
    (hget : s.heap[ref]? = some room) : QuestionLocal ref room s.fx.timers := by
  intro t ht hcb
  obtain ⟨room1, h1, h2⟩ := h t ht ref hcb
  rw [hget] at h1
  simp only [Option.some.injEq] at h1
  subst h1
  exact h2 t (List.mem_singleton.mpr rfl) hcb

/-- A handler that mutates the room at `ref` and only adds timers of that room keeps the question
timers right, if it keeps those of the room right. -/
theorem QuestionTimersOk.lift {s : Server} (h : QuestionTimersOk s) {ref : Nat}
    {room room1 : Room} {fx1 : Fx} (hget : s.heap[ref]? = some room)
    (hloc : QuestionLocal ref room1 fx1.timers) (hfr : Frame ref s.fx.timers fx1.timers) :
    QuestionTimersOk (putRoom s ref room1 fx1) := by
  have hlt : ref < s.heap.length := (List.getElem?_eq_some.mp hget).1
  intro t ht r hcb
  by_cases hr : r = ref
  · subst hr
    refine ⟨room1, by simp [putRoom, hlt], ?_⟩
    intro u hu hucb
    simp only [List.mem_singleton] at hu
    subst hu
    exact hloc u ht hucb
  · have htarget : t.callback.target ≠ ref := by
      rw [hcb]
      exact hr
    obtain ⟨room2, h1, h2⟩ := h t (hfr t ht htarget) r hcb
    refine ⟨room2, ?_, h2⟩
    simp only [putRoom]
    rw [List.getElem?_set_ne (Ne.symm hr)]
    exact h1

/-- A function that keeps index and start timestamp and arms no question timer keeps the
question timers of the room right. -/
theorem QuestionLocal.keep {ref : Nat} {room room1 : Room} {old new : List Timer}
    (h : QuestionLocal ref room old)
    (hi : room1.currentQuestionIndex = room.currentQuestionIndex)
    (hq : room1.questionStartTs = room.questionStartTs)
    (hsub : ∀ t ∈ new, t.callback = Callback.endQuestion ref → t ∈ old) :
    QuestionLocal ref room1 new := by
  intro t ht hcb
  have := h t (hsub t ht hcb) hcb
  unfold indexInRange at this ⊢
  rw [hi, hq]
  exact this

/-- A room without pending question timer. -/
theorem QuestionLocal.of_none {ref : Nat} {room : Room} {timers : List Timer}
    (h : ∀ t ∈ timers, t.callback.target = ref → t.callback = Callback.advance ref) :
    QuestionLocal ref room timers := by
  intro t ht hcb
  have := h t ht (by rw [hcb]; rfl)
  rw [hcb] at this
  simp at this

theorem ensureWaitingExpiry_question (ref : Nat) (room : Room) (now : Int) (fx : Fx)
    (r : Nat) : ∀ t ∈ (ensureWaitingExpiry ref room now fx).2.timers,
      t.callback = Callback.endQuestion r → t ∈ fx.timers := by
  intro t ht hcb
  unfold ensureWaitingExpiry at ht
  split at ht
  · exact ht
  · split at ht
    · exact ht
    · simp only [setTimeout, List.mem_append, List.mem_singleton] at ht
      rcases ht with ht | ht
      · exact ht
      · rw [ht] at hcb
        simp at hcb

theorem admitPlayer_questionLocal {ref : Nat} {room : Room} {socketId token : String}
    {name : Option String} {now : Int} {fx : Fx} (h : QuestionLocal ref room fx.timers) :
    QuestionLocal ref (admitPlayer ref room socketId token name now fx).1
      (admitPlayer ref room socketId token name now fx).2.timers := by
  obtain ⟨ts, c, hf⟩ := admitPlayer_fields ref room socketId token name now fx
  refine h.keep (by rw [hf]) (by rw [hf]) ?_
  intro t ht hcb
  rw [admitPlayer_timers] at ht
  have := ensureWaitingExpiry_question _ _ _ _ ref t ht hcb
  exact (mem_dropHandle.mp this).1

theorem disconnectRoom_questionLocal {socketId : String} {now : Int} {token : String}
    {ref : Nat} {room : Room} {fx : Fx} (h : QuestionLocal ref room fx.timers) :
    QuestionLocal ref (disconnectRoom socketId now token ref room fx).1
      (disconnectRoom socketId now token ref room fx).2.timers := by
  obtain ⟨ts, hts⟩ := disconnectRoom_room socketId now token ref room fx
  refine h.keep (by rw [hts]) (by rw [hts]) ?_
  intro t ht hcb
  unfold disconnectRoom at ht
  dsimp only at ht
  split at ht
  · simp only [setTimeout, ite_emit_timers, List.mem_append, List.mem_singleton] at ht
    rcases ht with ht | ht
    · exact ht
    · rw [ht] at hcb
      simp at hcb
  · simpa using ht

theorem endQuestion_questionLocal {ref : Nat} {room : Room} {now : Int} {fx : Fx}
    {r : Room × Fx} (hr : endQuestion ref room now fx = some r)
    (h : QuestionLocal ref room fx.timers) : QuestionLocal ref r.1 r.2.timers := by
  have hroom := endQuestion_room hr
  refine h.keep (by rw [hroom]) (by rw [hroom]) ?_
  intro t ht hcb
  unfold endQuestion at hr
  split at hr
  · simp at hr
  · simp only [Option.some.injEq] at hr
    subst hr
    simp only [setTimeout, emit, List.mem_append, List.mem_singleton] at ht
    rcases ht with ht | ht
    · exact ht
    · rw [ht] at hcb
      simp at hcb

theorem nextQuestion_questionLocal {ref : Nat} {room : Room} {now : Int} {fx : Fx}
    {r : Room × Fx} (hr : nextQuestion ref room now fx = some r)
    (hloc : LocalOk ref room fx.timers) (hge : -1 ≤ room.currentQuestionIndex) :
    QuestionLocal ref r.1 r.2.timers := by
  have hpend := clearRoomTimers_pending hloc
  unfold nextQuestion at hr
  simp only [clearRoomTimers_room] at hr
  split at hr
  · simp only [Option.some.injEq] at hr
    subst hr
    exact QuestionLocal.of_none (by simpa [emit] using hpend)
  · rename_i hlt
    split at hr
    · simp at hr
    · simp only [Option.some.injEq] at hr
      subst hr
      intro t ht hcb
      simp only [setTimeout, emit, List.mem_append, List.mem_singleton] at ht
      rcases ht with ht | ht
      · have := hpend t ht (by rw [hcb]; rfl)
        rw [hcb] at this
        simp at this
      · subst ht
        refine ⟨⟨by simp only; omega, by simpa using hlt⟩, ?_⟩
        simp only [QUESTION_TIME_SECONDS]
        congr 1
        omega

theorem startRoom_questionLocal {ref : Nat} {room : Room} {token : String} {now : Int}
    {fx : Fx} {r : Room × Fx} (hr : startRoom ref room token now fx = some r)
    (hloc : LocalOk ref room fx.timers) : QuestionLocal ref r.1 r.2.timers := by
  unfold startRoom at hr
  dsimp only at hr
  split at hr
  · simp at hr
  · rename_i n hn
    simp only [Option.some.injEq] at hr
    subst hr
    have h1 : LocalOk ref { room with
        state := Phase.in_progress
        currentQuestionIndex := -1
        players := room.players.map (fun p => { p with score := 0 }) } fx.timers :=
      hloc.of_timeouts rfl
    show QuestionLocal ref n.1 n.2.timers
    exact nextQuestion_questionLocal hn (clearWaitingExpiryTimer_localOk h1) (by simp)

theorem resetToWaiting_questionLocal {ref : Nat} {room : Room} {now : Int} {fx : Fx}
    (hloc : LocalOk ref room fx.timers) :
    QuestionLocal ref (resetToWaiting ref room now fx).1
      (resetToWaiting ref room now fx).2.timers := by
  have hpend := clearRoomTimers_pending hloc
  intro t ht hcb
  rw [resetToWaiting_timers] at ht
  have h1 := ensureWaitingExpiry_question _ _ _ _ ref t ht hcb
  have := hpend t h1 (by rw [hcb]; rfl)
  rw [hcb] at this
  simp at this

theorem QuestionTimersOk.at_start : QuestionTimersOk Server.start := by
  intro t ht
  simp [Server.start] at ht

theorem joinRoom_questionTimersOk {s : Server} (h : QuestionTimersOk s)
    (socketId token : String) (name : Option String) (now : Int) :
    QuestionTimersOk (joinRoom s socketId token name now).1 := by
  unfold joinRoom
  split
  · exact h
  · rename_i ref room hget
    have hheap := (getRoom_heap hget).2
    split
    · exact h
    · split
      · exact h
      · exact h.lift hheap (admitPlayer_questionLocal (h.local hheap))
          (admitPlayer_frame _ _ _ _ _ _ _)

theorem disconnectLoop_questionTimersOk (socketId : String) (now : Int)
    (entries : List (String × Nat)) {s : Server} (hinv : Inv s) (h : QuestionTimersOk s) :
    QuestionTimersOk (disconnectLoop socketId now entries s) := by
  induction entries generalizing s with
  | nil => exact h
  | cons e rest ih =>
    obtain ⟨token, ref⟩ := e
    unfold disconnectLoop
    split
    · exact ih hinv h
    · rename_i room hheap
      exact ih (hinv.put hheap (disconnectRoom_roomOk (hinv.roomOk hheap))
          (disconnectRoom_localOk (hinv.localOk hheap)) (disconnectRoom_frame _ _ _ _ _ _))
        (h.lift hheap (disconnectRoom_questionLocal (h.local hheap))
          (disconnectRoom_frame _ _ _ _ _ _))

theorem runCallback_questionTimersOk {s s1 : Server} {now : Int} {cb : Callback}
    (hs : runCallback s now cb = some s1) (hinv : Inv s) (h : QuestionTimersOk s) :
    QuestionTimersOk s1 := by
  cases cb with
  | cleanup ref token =>
    simp only [runCallback] at hs
    split at hs
    · simp only [Option.some.injEq] at hs
      exact hs ▸ h
    · rename_i room hheap
      simp only [Option.some.injEq] at hs
      subst hs
      exact h.lift hheap
        (QuestionLocal.of_none (clearRoomTimers_pending (hinv.localOk hheap)))
        (clearRoomTimers_frame _ _ _)
  | endQuestion ref =>
    simp only [runCallback] at hs
    split at hs
    · simp only [Option.some.injEq] at hs
      exact hs ▸ h
    · rename_i room hheap
      split at hs
      · simp at hs
      · rename_i r hr
        simp only [Option.some.injEq] at hs
        subst hs
        exact h.lift hheap (endQuestion_questionLocal hr (h.local hheap)) (endQuestion_frame hr)
  | advance ref =>
    simp only [runCallback] at hs
    split at hs
    · simp only [Option.some.injEq] at hs
      exact hs ▸ h
    · rename_i room hheap
      split at hs
      · simp at hs
      · rename_i r hr
        simp only [Option.some.injEq] at hs
        subst hs
        have hq := nextQuestion_questionLocal hr (hinv.localOk hheap)
          (hinv.roomOk hheap).index_ge
        exact h.lift hheap (by simpa using hq) (by simpa using nextQuestion_frame hr)
  | waitingExpiry ref =>
    simp only [runCallback] at hs
    split at hs
    · simp only [Option.some.injEq] at hs
      exact hs ▸ h
    · rename_i room hheap
      split at hs
      · simp only [Option.some.injEq] at hs
        subst hs
        exact h.lift hheap
          (QuestionLocal.of_none
            (@clearRoomTimers_pending ref room (emit s.fx _) (hinv.localOk hheap)))
          (clearRoomTimers_frame _ _ (emit s.fx _))
      · simp only [Option.some.injEq] at hs
        exact hs ▸ h

theorem step_questionTimersOk {s s1 : Server} {clock now : Int} {i : Input}
    (ha : admissible s clock now i = true) (hs : step s now i = some s1) (hinv : Inv s)
    (h : QuestionTimersOk s) : QuestionTimersOk s1 := by
  cases i with
  | roomCreate socketId name token =>
    simp only [admissible, Bool.and_eq_true, decide_eq_true_eq, bne_iff_ne, ne_eq,
      Bool.not_eq_true'] at ha
    simp only [step, Option.some.injEq] at hs
    subst hs
    unfold onRoomCreate
    have h1 : QuestionTimersOk { s with
        heap := s.heap ++ [createRoom token now]
        rooms := mapSet s.rooms token s.heap.length } := by
      intro t ht ref hcb
      obtain ⟨room, hr1, hr2⟩ := h t ht ref hcb
      have hlt : ref < s.heap.length := (List.getElem?_eq_some.mp hr1).1
      exact ⟨room, by simp only; rw [List.getElem?_append_left hlt]; exact hr1, hr2⟩
    exact joinRoom_questionTimersOk h1 socketId token name now
  | roomJoin socketId token name =>
    simp only [step, Option.some.injEq] at hs
    exact hs ▸ joinRoom_questionTimersOk h socketId token name now
  | gameStart socketId token =>
    simp only [step, Option.map_eq_some', Prod.exists, exists_and_right, exists_eq_right] at hs
    obtain ⟨rep, hrep⟩ := hs
    unfold onGameStart at hrep
    split at hrep
    · simp only [Option.some.injEq, Prod.mk.injEq] at hrep
      exact hrep.1 ▸ h
    · rename_i ref room hget
      have hheap := (getRoom_heap hget).2
      split at hrep
      · simp only [Option.some.injEq, Prod.mk.injEq] at hrep
        exact hrep.1 ▸ h
      · split at hrep
        · simp only [Option.some.injEq, Prod.mk.injEq] at hrep
          exact hrep.1 ▸ h
        · split at hrep
          · simp only [Option.some.injEq, Prod.mk.injEq] at hrep
            exact hrep.1 ▸ h
          · unfold startGame at hrep
            rw [hget] at hrep
            dsimp only at hrep
            split at hrep
            · simp at hrep
            · rename_i s2 hs2
              split at hs2
              · simp at hs2
              · rename_i r hr
                simp only [Option.some.injEq, Prod.mk.injEq] at hrep hs2
                rw [← hrep.1, ← hs2]
                exact h.lift hheap (startRoom_questionLocal hr (hinv.localOk hheap))
                  (startRoom_frame hr)
  | gameAnswer socketId token option =>
    simp only [step, Option.map_eq_some', Prod.exists, exists_and_right, exists_eq_right] at hs
    obtain ⟨rep, hrep⟩ := hs
    unfold onGameAnswer at hrep
    split at hrep
    · simp only [Option.some.injEq, Prod.mk.injEq] at hrep
      exact hrep.1 ▸ h
    · rename_i ref room hget
      have hheap := (getRoom_heap hget).2
      split at hrep
      · simp only [Option.some.injEq, Prod.mk.injEq] at hrep
        exact hrep.1 ▸ h
      · split at hrep
        · simp only [Option.some.injEq, Prod.mk.injEq] at hrep
          exact hrep.1 ▸ h
        · split at hrep
          · simp only [Option.some.injEq, Prod.mk.injEq] at hrep
            exact hrep.1 ▸ h
          · split at hrep
            · simp at hrep
            · rename_i r hr
              simp only [Option.some.injEq, Prod.mk.injEq] at hrep
              rw [← hrep.1]
              have hf := recordAnswer_fields hr
              have ht := recordAnswer_timeouts hr
              refine h.lift hheap ((h.local hheap).keep hf.2.1 hf.2.2 ?_) ?_
              · intro t hmem _
                rw [ht.2] at hmem
                exact hmem
              · rw [ht.2]
                exact Frame.refl _ _
  | gameRestart socketId token =>
    simp only [step, Option.some.injEq] at hs
    subst hs
    unfold onGameRestart
    split
    · exact h
    · rename_i ref room hget
      have hheap := (getRoom_heap hget).2
      split
      · exact h
      · exact h.lift hheap (by simpa using resetToWaiting_questionLocal (hinv.localOk hheap))
          (by simpa using resetToWaiting_frame ref room now s.fx)
  | disconnect socketId =>
    simp only [step, Option.some.injEq] at hs
    exact hs ▸ disconnectLoop_questionTimersOk socketId now s.rooms hinv h
  | timer hd =>
    simp only [step, fireTimer] at hs
    split at hs
    · simp at hs
    · refine runCallback_questionTimersOk hs (hinv.clearTimeout hd) ?_
      intro t ht ref hcb
      simp only [clearTimeout, List.mem_filter] at ht
      exact h t ht.1 ref hcb

/-- Every pending question timer of a reachable state is that of the current question. -/
theorem Reachable.questionTimersOk {clock : Int} {s : Server} (h : Reachable clock s) :
    QuestionTimersOk s := by
  induction h with
  | start => exact QuestionTimersOk.at_start
  | step now i s1 hprev ha hs ih => exact step_questionTimersOk ha hs hprev.inv ih

theorem nextQuestion_total (ref : Nat) (room : Room) (now : Int) (fx : Fx)
    (hge : -1 ≤ room.currentQuestionIndex) : ∃ r, nextQuestion ref room now fx = some r := by
  unfold nextQuestion
  simp only [clearRoomTimers_room]
  split
  · exact ⟨_, rfl⟩
  · rename_i hlt
    obtain ⟨q, hq⟩ := questionAt_isSome (i := room.currentQuestionIndex + 1) (by omega)
      (by simpa using hlt)
    simp only [hq]
    exact ⟨_, rfl⟩

theorem endQuestion_total (ref : Nat) (room : Room) (now : Int) (fx : Fx)
    (h : indexInRange room) : ∃ r, endQuestion ref room now fx = some r := by
  obtain ⟨q, hq⟩ := questionAt_isSome h.1 h.2
  unfold endQuestion
  simp only [hq]
  exact ⟨_, rfl⟩

theorem onGameStart_total (s : Server) (socketId token : String) (now : Int) :
    ∃ r, onGameStart s socketId token now = some r := by
  unfold onGameStart
  split
  · exact ⟨_, rfl⟩
  · rename_i ref room hget
    split
    · exact ⟨_, rfl⟩
    · split
      · exact ⟨_, rfl⟩
      · split
        · exact ⟨_, rfl⟩
        · obtain ⟨fx1, hstart, _⟩ := startRoom_eq ref room token now s.fx
          simp only [startGame, hget, hstart]
          exact ⟨_, rfl⟩

theorem onGameAnswer_total {s : Server} (hinv : Inv s) (socketId token : String)
    (option : Option String) (now : Int) :
    ∃ r, onGameAnswer s socketId token option now = some r := by
  unfold onGameAnswer
  split
  · exact ⟨_, rfl⟩
  · rename_i ref room hget
    split
    · exact ⟨_, rfl⟩
    · rename_i hstate
      split
      · exact ⟨_, rfl⟩
      · split
        · exact ⟨_, rfl⟩
        · have hok := hinv.roomOk (getRoom_heap hget).2
          have hs : room.state = Phase.in_progress := by simpa using hstate
          obtain ⟨q, hq⟩ := questionAt_isSome (hok.index_lt hs).1 (hok.index_lt hs).2
          unfold recordAnswer
          simp only [hq]
          by_cases hl : isLate room.questionStartTs now = true
          · simp only [hl, if_true]
            exact ⟨_, rfl⟩
          · simp only [hl, if_false]
            exact ⟨_, rfl⟩

theorem find?_mem_handle {timers : List Timer} {hd : Nat} {t : Timer}
    (h : timers.find? (fun t => t.handle == hd) = some t) : t ∈ timers :=
  List.mem_of_find?_eq_some h

/-- No reaction to an admissible input throws in a state that satisfies the invariants. -/
theorem step_total {s : Server} {clock now : Int} {i : Input} (hinv : Inv s)
    (hq : QuestionTimersOk s) (ha : admissible s clock now i = true) :
    ∃ s1, step s now i = some s1 := by
  cases i with
  | roomCreate socketId name token => exact ⟨_, rfl⟩
  | roomJoin socketId token name => exact ⟨_, rfl⟩
  | gameStart socketId token =>
    obtain ⟨r, hr⟩ := onGameStart_total s socketId token now
    exact ⟨r.1, by simp [step, hr]⟩
  | gameAnswer socketId token option =>
    obtain ⟨r, hr⟩ := onGameAnswer_total hinv socketId token option now
    exact ⟨r.1, by simp [step, hr]⟩
  | gameRestart socketId token => exact ⟨_, rfl⟩
  | disconnect socketId => exact ⟨_, rfl⟩
  | timer hd =>
    simp only [admissible, Bool.and_eq_true, decide_eq_true_eq] at ha
    simp only [step, fireTimer]
    cases hp : pendingTimer s hd with
    | none => simp [hp] at ha
    | some t =>
      have hmem : t ∈ s.fx.timers := find?_mem_handle hp
      dsimp only
      cases hcb : t.callback with
      | cleanup ref token =>
        simp only [runCallback]
        split <;> exact ⟨_, rfl⟩
      | endQuestion ref =>
        obtain ⟨room, hroom, hloc⟩ := hq t hmem ref hcb
        have hin := (hloc t (List.mem_singleton.mpr rfl) hcb).1
        obtain ⟨r, hr⟩ := endQuestion_total ref room now (clearTimeout s.fx hd) hin
        simp only [runCallback, hroom, hr]
        exact ⟨_, rfl⟩
      | advance ref =>
        simp only [runCallback]
        split
        · exact ⟨_, rfl⟩
        · rename_i room hheap
          obtain ⟨r, hr⟩ := nextQuestion_total ref room now (clearTimeout s.fx hd)
            (hinv.roomOk hheap).index_ge
          simp only [hr]
          exact ⟨_, rfl⟩
      | waitingExpiry ref =>
        simp only [runCallback]
        split
        · exact ⟨_, rfl⟩
        · split <;> exact ⟨_, rfl⟩

/-- C18: in a reachable state, a registered room in phase `in_progress` is at a question of the
bank, and `game:answer` never throws; every pending question timer closes over a room that is at
a question of the bank, the one whose start timestamp is 15050 ms before the timer is due, so
that `endQuestion` returns when the timer fires; and no reaction to an admissible input, timer
callbacks included, throws. -/
theorem C18_lookups_in_bounds (clock : Int) (s : Server) (hreach : Reachable clock s) :
    (∀ token room, roomOf s token = some room → room.state = Phase.in_progress →
        0 ≤ room.currentQuestionIndex ∧ room.currentQuestionIndex < (QUESTIONS.length : Int)
        ∧ ∃ q, questionAt room.currentQuestionIndex = some q)
    ∧ (∀ socketId token option now, ∃ r, onGameAnswer s socketId token option now = some r)
    ∧ (∀ t ∈ s.fx.timers, ∀ ref, t.callback = Callback.endQuestion ref →
        ∃ room q, s.heap[ref]? = some room
          ∧ 0 ≤ room.currentQuestionIndex
          ∧ room.currentQuestionIndex < (QUESTIONS.length : Int)
          ∧ room.questionStartTs = some (t.due - 15050)
          ∧ questionAt room.currentQuestionIndex = some q
          ∧ ∀ now fx, ∃ r, endQuestion ref room now fx = some r)
    ∧ (∀ now i, admissible s clock now i = true → ∃ s1, step s now i = some s1) := by
  have hinv := hreach.inv
  have hq := hreach.questionTimersOk
  refine ⟨?_, ?_, ?_, ?_⟩
  · intro token room hroom hstate
    have hok := hreach.registered_ok hroom
    have hin := hok.index_lt hstate
    exact ⟨hin.1, hin.2, questionAt_isSome hin.1 hin.2⟩
  · intro socketId token option now
    exact onGameAnswer_total hinv socketId token option now
  · intro t ht ref hcb
    obtain ⟨room, hroom, hloc⟩ := hq t ht ref hcb
    obtain ⟨hin, hstart⟩ := hloc t (List.mem_singleton.mpr rfl) hcb
    obtain ⟨q, hqq⟩ := questionAt_isSome hin.1 hin.2
    exact ⟨room, q, hroom, hin.1, hin.2, hstart, hqq,
      fun now fx => endQuestion_total ref room now fx hin⟩
  · intro now i ha
    exact step_total hinv hq ha

/-- C18 at the state of `firstQuestionRun`: the room is at question 0, started at 2 s; its
question timer is due at 17.05 s, and firing it then does not throw. -/
theorem C18_lookups_in_bounds_witness :
    (0 ≤ firstQuestionRoom.currentQuestionIndex
      ∧ firstQuestionRoom.currentQuestionIndex < (QUESTIONS.length : Int)
      ∧ ∃ q, questionAt firstQuestionRoom.currentQuestionIndex = some q)
    ∧ (∃ room q, firstQuestionServer.heap[0]? = some room
          ∧ 0 ≤ room.currentQuestionIndex
          ∧ room.currentQuestionIndex < (QUESTIONS.length : Int)
          ∧ room.questionStartTs = some ((17050 : Int) - 15050)
          ∧ questionAt room.currentQuestionIndex = some q
          ∧ ∀ now fx, ∃ r, endQuestion 0 room now fx = some r)
    ∧ (∃ s1, step firstQuestionServer 17050 (Input.timer 2) = some s1) :=
  ⟨(C18_lookups_in_bounds 5000 firstQuestionServer firstQuestionServer_reachable).1
      "ROOM01" firstQuestionRoom (by rfl) (by rfl),
    (C18_lookups_in_bounds 5000 firstQuestionServer firstQuestionServer_reachable).2.2.1
      ⟨2, 17050, Callback.endQuestion 0⟩ (by decide) 0 rfl,
    (C18_lookups_in_bounds 5000 firstQuestionServer firstQuestionServer_reachable).2.2.2
      17050 (Input.timer 2) (by rfl)⟩

end TrivialRacing
